import Mathlib

/-!
Verification of the contextual auto-escaping library (HTML/CSS/JS/URL
context propagation and escaping).  This file gives a shallow embedding of
the library's core data model and operations and proves properties of them.

Text is modelled as `List Nat` (sequences of Unicode code points, matching
the Python 2 `unicode` strings the library operates on; plain byte strings
are the sub-case where every code point is below 256).  Contexts, which the
source packs into a single integer with six disjoint bit fields, are
modelled as a structure with one field per bit field; bit-mask updates in
the source become field updates here.
-/

set_option maxRecDepth 10000

/-- Code points of a string literal, used to transcribe string constants. -/
def nats (s : String) : List Nat := s.data.map Char.toNat

/-- `context.py` STATE_* constants: the coarse lexical parser state. -/
inductive State where
  | Text | Rcdata | HtmlBeforeTagName | TagName | Tag | AttrName | AfterName
  | BeforeValue | HtmlCmt | Attr | Css | CssLineCmt | CssBlockCmt | CssDqStr
  | CssSqStr | CssUrl | CssDqUrl | CssSqUrl | Js | JsLineCmt | JsBlockCmt
  | JsDqStr | JsSqStr | JsRegexp | Url | Error
  deriving DecidableEq, Fintype, Repr

/-- `context.py` ELEMENT_* constants: the special parent element. -/
inductive ElementT where
  | NoneElement | Script | Style | Textarea | Title | Listing | Xmp
  deriving DecidableEq, Fintype, Repr

/-- `context.py` ATTR_* constants: semantic class of the attribute. -/
inductive AttrT where
  | NoneAttr | Script | Style | Url
  deriving DecidableEq, Fintype, Repr

/-- `context.py` DELIM_* constants: how the attribute value terminates. -/
inductive DelimT where
  | NoneDelim | DoubleQuote | SingleQuote | SpaceOrTagEnd
  deriving DecidableEq, Fintype, Repr

/-- `context.py` JS_CTX_* constants: what a following slash would mean. -/
inductive JsCtxT where
  | NoneJsCtx | Regex | DivOp | Unknown
  deriving DecidableEq, Fintype, Repr

/-- `context.py` URL_PART_* constants: position within a URL. -/
inductive UrlPartT where
  | NoneUrlPart | PreQuery | QueryOrFrag | Unknown
  deriving DecidableEq, Fintype, Repr

/-- A context (`context.py`): the six orthogonal bit fields of the packed
integer, as a structure.  `state_of`, `element_type_of`, `attr_type_of`,
`delim_type_of`, `js_ctx_of` and `url_part_of` become field accessors. -/
structure Ctx where
  state : State
  element : ElementT
  attr : AttrT
  delim : DelimT
  jsCtx : JsCtxT
  urlPart : UrlPartT
  deriving DecidableEq, Fintype, Repr

/-- The bare integer `STATE_TEXT` (0) used as a whole context value. -/
def textCtx : Ctx :=
  ⟨State.Text, ElementT.NoneElement, AttrT.NoneAttr, DelimT.NoneDelim,
   JsCtxT.NoneJsCtx, UrlPartT.NoneUrlPart⟩

/-- The bare integer `STATE_ERROR` (25) used as a whole context value, e.g.
`return context.STATE_ERROR` in the analyzer and scanner. -/
def errorCtx : Ctx :=
  ⟨State.Error, ElementT.NoneElement, AttrT.NoneAttr, DelimT.NoneDelim,
   JsCtxT.NoneJsCtx, UrlPartT.NoneUrlPart⟩

/-- `context.is_error_context`: true iff the state is STATE_ERROR. -/
def is_error_context (c : Ctx) : Bool := c.state = State.Error

/-! ## JavaScript regex-vs-division disambiguation

`context_update.is_regex_preceder` and `js.next_js_ctx`.  Both receive a
run of non-whitespace, non-comment, non-string JS tokens and decide
whether a following `/` starts a regular expression literal.
-/

/-- `_REGEX_PRECEDER_KEYWORDS` (identical lists in `context_update.py` and
`js.py`). -/
def REGEX_PRECEDER_KEYWORDS : List (List Nat) :=
  [nats "break", nats "case", nats "continue", nats "delete", nats "do",
   nats "else", nats "finally", nats "instanceof", nats "return",
   nats "throw", nats "try", nats "typeof"]

/-- Python 2 `\w` for byte strings plus the literal `$` of the character
class `[\w$]`. -/
def isWordOrDollar (c : Nat) : Bool :=
  (0x41 ≤ c ∧ c ≤ 0x5a) ∨ (0x61 ≤ c ∧ c ≤ 0x7a) ∨
  (0x30 ≤ c ∧ c ≤ 0x39) ∨ c = 0x5f ∨ c = 0x24

/-- The character class `[#%&(*,:-?\[^{-~]` of `is_regex_preceder`, with
the ranges `:-?` (`:;<=>?`) and `{-~` (`{|}~`) written out. -/
def REGEX_PRECEDER_PUNCT (c : Nat) : Bool :=
  c = 0x23 ∨ c = 0x25 ∨ c = 0x26 ∨ c = 0x28 ∨ c = 0x2a ∨ c = 0x2c ∨
  (0x3a ≤ c ∧ c ≤ 0x3f) ∨ c = 0x5b ∨ c = 0x5e ∨ (0x7b ≤ c ∧ c ≤ 0x7e)

/-- The character class `[!#%&(*,:;<=>?\[^{|}~]` of `js.next_js_ctx`: the
same punctuation set, but additionally containing `!`. -/
def NEXT_JS_CTX_PUNCT (c : Nat) : Bool :=
  c = 0x21 ∨ c = 0x23 ∨ c = 0x25 ∨ c = 0x26 ∨ c = 0x28 ∨ c = 0x2a ∨
  c = 0x2c ∨ (0x3a ≤ c ∧ c ≤ 0x3f) ∨ c = 0x5b ∨ c = 0x5e ∨
  (0x7b ≤ c ∧ c ≤ 0x7e)

/-- The trailing maximal run matched by `re.search(r'[\w$]+$', s)`:
a maximal nonempty run of word characters at the end of the string, where
`$` also matches just before a single final newline. -/
def trailingWordRun (l : List Nat) : List Nat :=
  let t := if l.getLast? = some 0x0a then l.dropLast else l
  (t.reverse.takeWhile isWordOrDollar).reverse

/-- The trailing maximal run matched by `re.search(r'[\w$]+\Z', s)` in
`js.next_js_ctx` (`\Z` anchors at the very end only). -/
def trailingWordRunZ (l : List Nat) : List Nat :=
  (l.reverse.takeWhile isWordOrDollar).reverse

/-- `context_update.is_regex_preceder(js_tokens)`: true iff a slash after
the given nonempty run of JS tokens starts a regular expression rather
than a division operator.  (The source indexes `js_tokens[-1]` and so
raises on an empty input; the empty case is unreachable and returns
`false` here.) -/
def is_regex_preceder (js_tokens : List Nat) : Bool :=
  match js_tokens.reverse with
  | [] => false
  | last_char :: rest =>
    if last_char = 0x2b ∨ last_char = 0x2d then
      -- Count the number of adjacent dashes or pluses (the trailing run).
      let num_adjacent := 1 + (rest.takeWhile (· = last_char)).length
      num_adjacent % 2 = 1
    else if last_char = 0x2e then
      match rest with
      | [] => true
      | after_dot :: _ => ¬ (0x30 ≤ after_dot ∧ after_dot ≤ 0x39)
    else if last_char = 0x2f then
      js_tokens.length ≤ 2
    else if REGEX_PRECEDER_PUNCT last_char then
      true
    else
      let word := trailingWordRun js_tokens
      ¬ word.isEmpty ∧ word ∈ REGEX_PRECEDER_KEYWORDS

/-- Python `str.strip()` whitespace: space, tab, LF, VT, FF, CR. -/
def isPySpace (c : Nat) : Bool :=
  c = 0x20 ∨ c = 0x09 ∨ c = 0x0a ∨ c = 0x0b ∨ c = 0x0c ∨ c = 0x0d

/-- Python `str.strip()`. -/
def pyStrip (l : List Nat) : List Nat :=
  ((l.dropWhile isPySpace).reverse.dropWhile isPySpace).reverse

/-- `js.next_js_ctx(js_tokens, ctx)`: strips the token run, decides
regex-vs-division with the same rules as `is_regex_preceder` (except that
its punctuation class also contains `!` and its keyword search uses `\Z`),
and updates the JS_CTX bits of `ctx` accordingly. -/
def next_js_ctx (js_tokens : List Nat) (ctx : Ctx) : Ctx :=
  let js := pyStrip js_tokens
  match js.reverse with
  | [] => ctx
  | last_char :: rest =>
    let is_regex : Bool :=
      if last_char = 0x2b ∨ last_char = 0x2d then
        let num_adjacent := 1 + (rest.takeWhile (· = last_char)).length
        num_adjacent % 2 = 1
      else if last_char = 0x2e then
        match rest with
        | [] => true
        | after_dot :: _ => ¬ (0x30 ≤ after_dot ∧ after_dot ≤ 0x39)
      else if last_char = 0x2f then
        js.length ≤ 2
      else if NEXT_JS_CTX_PUNCT last_char then
        true
      else
        let word := trailingWordRunZ js
        ¬ word.isEmpty ∧ word ∈ REGEX_PRECEDER_KEYWORDS
    { ctx with jsCtx := if is_regex then JsCtxT.Regex else JsCtxT.DivOp }

/-! ## Context union and epsilon transitions (`context_update.py`) -/

/-- `_PARTIAL_CONTEXT_FOR_ATTR`: the partial context entered at an
attribute-value delimiter, keyed by attribute type.  The source values are
bare integers (`STATE_ATTR`, `STATE_JS | JS_CTX_REGEX`, `STATE_CSS`,
`STATE_URL | URL_PART_NONE`), so every field not named is zero. -/
def partialContextForAttr (attr : AttrT) : Ctx :=
  match attr with
  | AttrT.NoneAttr => { textCtx with state := State.Attr }
  | AttrT.Script => { textCtx with state := State.Js, jsCtx := JsCtxT.Regex }
  | AttrT.Style => { textCtx with state := State.Css }
  | AttrT.Url =>
    { textCtx with state := State.Url, urlPart := UrlPartT.NoneUrlPart }

/-- `context_update.context_after_attr_delimiter(el_type, attr_type,
delim)`: `_PARTIAL_CONTEXT_FOR_ATTR[attr_type] | el_type | delim`. -/
def context_after_attr_delimiter (el : ElementT) (attr : AttrT)
    (delim : DelimT) : Ctx :=
  { partialContextForAttr attr with element := el, delim := delim }

/-- `context_update.context_before_dynamic_value(context)`: forces the
delayed epsilon transitions before a dynamic value is considered. -/
def context_before_dynamic_value (c : Ctx) : Ctx :=
  match c.state with
  | State.Tag => { c with state := State.AttrName }
  | State.TagName => { c with state := State.AttrName }
  | State.BeforeValue =>
    context_after_attr_delimiter c.element c.attr DelimT.SpaceOrTagEnd
  | State.AfterName =>
    { c with state := State.AttrName, attr := AttrT.NoneAttr }
  | _ => c

/-- `context_update.context_union(context0, context1)`, with the
self-recursion (which the source re-enters at most once, since nudged
contexts are fixed points of `context_before_dynamic_value`) made
structural by a fuel argument. -/
def context_union_fuel : Nat → Ctx → Ctx → Ctx
  | 0, _, _ => errorCtx
  | fuel + 1, c0, c1 =>
    if c0 = c1 then c0
    else if c0 = { c1 with jsCtx := c0.jsCtx } then
      -- The contexts differ only by JS_CTX_*
      { c0 with jsCtx := JsCtxT.Unknown }
    else if c0 = { c1 with urlPart := c0.urlPart } then
      -- The contexts differ only by URL_PART
      { c0 with urlPart := UrlPartT.Unknown }
    else
      -- Allow a nudged context to join with an unnudged one.
      let ncontext0 := context_before_dynamic_value c0
      let ncontext1 := context_before_dynamic_value c1
      if c0 ≠ ncontext0 ∨ c1 ≠ ncontext1 then
        context_union_fuel fuel ncontext0 ncontext1
      else errorCtx

/-- `context_update.context_union`: fuel 2 always suffices (see
`context_union_fuel_stable`). -/
def context_union (c0 c1 : Ctx) : Ctx := context_union_fuel 2 c0 c1

/-! ## Escape modes and the escape-mode selector (`escaping.py`) -/

/-- `escaping.py` ESC_MODE_* constants. -/
inductive EscMode where
  | EscapeHtml | EscapeHtmlRcdata | EscapeHtmlAttribute
  | FilterHtmlElementName | FilterHtmlAttribute | EscapeJsString
  | EscapeJsValue | EscapeJsRegex | EscapeCssString | FilterCssValue
  | EscapeUrl | NormalizeUrl | FilterUrl | NoAutoescape | Elide | OpenQuote
  deriving DecidableEq, Fintype, Repr

/-- `escaping.REDUNDANT_ESC_MODES`: pairs `(f, g)` such that
`g(f(x)) == f(x)` for all `x`. -/
def REDUNDANT_ESC_MODES : List (EscMode × EscMode) :=
  [(EscMode.Elide, EscMode.EscapeHtmlAttribute),
   (EscMode.Elide, EscMode.EscapeHtml),
   (EscMode.EscapeCssString, EscMode.EscapeHtmlAttribute),
   (EscMode.EscapeJsRegex, EscMode.EscapeHtmlAttribute),
   (EscMode.EscapeJsString, EscMode.EscapeHtmlAttribute),
   (EscMode.EscapeUrl, EscMode.NormalizeUrl)]

/-- `escaping.ESC_MODE_FOR_STATE`: the table is a list initialized to
`None` with assignments for the states below; the states never assigned
(AFTER_NAME, BEFORE_VALUE, ERROR) keep `None`. -/
def ESC_MODE_FOR_STATE (s : State) : Option EscMode :=
  match s with
  | State.Text => some EscMode.EscapeHtml
  | State.Rcdata => some EscMode.EscapeHtmlRcdata
  | State.HtmlBeforeTagName => some EscMode.FilterHtmlElementName
  | State.TagName => some EscMode.FilterHtmlElementName
  | State.Tag => some EscMode.FilterHtmlAttribute
  | State.AttrName => some EscMode.FilterHtmlAttribute
  | State.HtmlCmt => some EscMode.Elide
  | State.Attr => some EscMode.EscapeHtmlAttribute
  | State.Css => some EscMode.FilterCssValue
  | State.CssLineCmt => some EscMode.Elide
  | State.CssBlockCmt => some EscMode.Elide
  | State.CssDqStr => some EscMode.EscapeCssString
  | State.CssSqStr => some EscMode.EscapeCssString
  | State.CssUrl => some EscMode.NormalizeUrl
  | State.CssDqUrl => some EscMode.NormalizeUrl
  | State.CssSqUrl => some EscMode.NormalizeUrl
  | State.Js => some EscMode.EscapeJsValue
  | State.JsLineCmt => some EscMode.Elide
  | State.JsBlockCmt => some EscMode.Elide
  | State.JsDqStr => some EscMode.EscapeJsString
  | State.JsSqStr => some EscMode.EscapeJsString
  | State.JsRegexp => some EscMode.EscapeJsRegex
  | State.Url => some EscMode.EscapeHtmlAttribute
  | State.AfterName => none
  | State.BeforeValue => none
  | State.Error => none

/-- Modelled from the spec: `context.force_epsilon_transition`, called by
`escaping.esc_mode_for_hole`, is missing from the source tree (only its
callers are present).  Spec rules: `Tag`, `TagName` map to `AttrName` with
`Attr=None`; `BeforeValue` maps to the state that would follow an
attribute delimiter `SpaceOrTagEnd`, computed from `(Element, Attr)` via
the partial-attr table; `AfterName` maps to `AttrName` with `Attr=None`;
all other states are unchanged. -/
def force_epsilon_transition (c : Ctx) : Ctx :=
  match c.state with
  | State.Tag => { c with state := State.AttrName, attr := AttrT.NoneAttr }
  | State.TagName =>
    { c with state := State.AttrName, attr := AttrT.NoneAttr }
  | State.BeforeValue =>
    context_after_attr_delimiter c.element c.attr DelimT.SpaceOrTagEnd
  | State.AfterName =>
    { c with state := State.AttrName, attr := AttrT.NoneAttr }
  | _ => c

/-- Replace the head element of a list (`esc_modes[0] = m`; the list is
never empty at these assignments). -/
def setHead (l : List (Option EscMode)) (m : Option EscMode) :
    List (Option EscMode) :=
  match l with
  | [] => []
  | _ :: t => m :: t

/-- Membership test for the redundant-pair compression: in the source the
set holds integer pairs, so a pair is redundant only when both entries are
actual modes (a `None` entry is never a member). -/
def pairRedundant (a b : Option EscMode) : Bool :=
  match a, b with
  | some x, some y => (x, y) ∈ REDUNDANT_ESC_MODES
  | _, _ => false

/-- The compression loop at the end of `esc_mode_for_hole`: starting from
`last = esc_modes[0]`, delete each following element `curr` with
`(last, curr)` redundant, otherwise advance `last` to `curr`. -/
def collapseTail (last : Option EscMode) :
    List (Option EscMode) → List (Option EscMode)
  | [] => []
  | curr :: t =>
    if pairRedundant last curr then collapseTail last t
    else curr :: collapseTail curr t

/-- Whole-list redundant-pair compression. -/
def collapseModes (l : List (Option EscMode)) : List (Option EscMode) :=
  match l with
  | [] => []
  | h :: t => h :: collapseTail h t

/-- `escaping.esc_mode_for_hole(context_before)`: given a context at an
untrusted-value hole, computes `(context after, escaping modes, problem)`.
-/
def esc_mode_for_hole (context_before : Ctx) :
    Ctx × List (Option EscMode) × Option String :=
  let ctx0 := force_epsilon_transition context_before
  let state := ctx0.state
  let url_part := ctx0.urlPart
  let m0 : List (Option EscMode) := [ESC_MODE_FOR_STATE state]
  let step1 : Ctx × List (Option EscMode) × Option String :=
    if url_part = UrlPartT.NoneUrlPart then
      -- At the start of a URL, filter out dangerous protocols.
      if state = State.Url ∨ state = State.CssUrl ∨
          state = State.CssDqUrl ∨ state = State.CssSqUrl then
        ({ ctx0 with urlPart := UrlPartT.PreQuery },
         [some EscMode.FilterUrl, some EscMode.NormalizeUrl], none)
      else if state = State.CssDqStr ∨ state = State.CssSqStr then
        ({ ctx0 with urlPart := UrlPartT.PreQuery },
         some EscMode.FilterUrl :: m0, none)
      else (ctx0, m0, none)
    else if url_part = UrlPartT.PreQuery then
      if ¬ (state = State.CssDqStr ∨ state = State.CssSqStr) then
        (ctx0, setHead m0 (some EscMode.NormalizeUrl), none)
      else (ctx0, m0, none)
    else if url_part = UrlPartT.QueryOrFrag then
      (ctx0, setHead m0 (some EscMode.EscapeUrl), none)
    else
      -- URL_PART_UNKNOWN
      (errorCtx, m0, some "hole appears in an ambiguous URL context")
  let ctx1 := step1.1
  let m1 := step1.2.1
  let problem := step1.2.2
  let ctx2 :=
    if state = State.Js then { ctx1 with jsCtx := JsCtxT.DivOp } else ctx1
  let esc_mode := m1.getLast?.getD none
  let delim_type := ctx2.delim
  let m2 :=
    if delim_type ≠ DelimT.NoneDelim then
      let ma :=
        if esc_mode ≠ some EscMode.EscapeHtmlAttribute then
          m1 ++ [some EscMode.EscapeHtmlAttribute]
        else m1
      if context_before.delim = DelimT.NoneDelim ∧
          delim_type = DelimT.SpaceOrTagEnd then
        ma ++ [some EscMode.OpenQuote]
      else ma
    else m1
  (ctx2, collapseModes m2, problem)

/-! ## Attribute-name classification (`context_update._TransitionToAttrName`
and `html.URL_ATTR_NAMES`) -/

/-- `html.URL_ATTR_NAMES`: lower case names of attributes whose value is a
URL. -/
def URL_ATTR_NAMES : List (List Nat) :=
  [nats "action", nats "archive", nats "background", nats "cite",
   nats "classid", nats "codebase", nats "data", nats "dsync",
   nats "formaction", nats "href", nats "longdesc", nats "manifest",
   nats "poster", nats "profile", nats "src", nats "usemap", nats "xmlns"]

/-- Python `str.lower()` on the ASCII attribute names matched by
`[A-Za-z][\w:-]*`. -/
def pyLower (l : List Nat) : List Nat :=
  l.map (fun c => if 0x41 ≤ c ∧ c ≤ 0x5a then c + 0x20 else c)

/-- Python `hay.find(needle)`: index of the leftmost occurrence, `-1` when
absent. -/
def strFind : List Nat → List Nat → Int
  | [], needle => if needle.isPrefixOf [] then 0 else -1
  | c :: t, needle =>
    if needle.isPrefixOf (c :: t) then 0
    else
      let r := strFind t needle
      if r = -1 then -1 else r + 1

/-- Python's bitwise `&` on `str.find` results, which are either `-1` (all
one bits in two's complement, so `-1 & x = x`) or nonnegative. -/
def pyAnd (a b : Int) : Int :=
  if a = -1 then b
  else if b = -1 then a
  else Int.ofNat (a.toNat &&& b.toNat)

/-- `_TransitionToAttrName.compute_next_context`, the attribute-type part:
classifies the attribute by the name seen so far (`match.group(1)`). -/
def attrNameAttrType (prior : Ctx) (group1 : List Nat) : AttrT :=
  let attr_name := pyLower group1
  let colon := strFind attr_name (nats ":")
  let attr0 := prior.attr
  let stripped :=
    if colon ≥ 0 then
      ((if attr_name.take colon.toNat = nats "xmlns" then AttrT.Url
        else attr0),
       attr_name.drop (colon.toNat + 1))
    else (attr0, attr_name)
  let attr1 := stripped.1
  let attr_name' := stripped.2
  if (nats "on").isPrefixOf attr_name' then AttrT.Script
  else if attr_name' = nats "style" then AttrT.Style
  else if attr_name' ∈ URL_ATTR_NAMES then AttrT.Url
  else if pyAnd (strFind attr_name' (nats "url"))
      (strFind attr_name' (nats "uri")) ≥ 0 then AttrT.Url
  else attr1

/-- `_TransitionToAttrName.compute_next_context(prior, match)`:
`STATE_ATTR_NAME | element_type_of(prior) | attr`. -/
def transitionToAttrNameNext (prior : Ctx) (group1 : List Nat) : Ctx :=
  { textCtx with
    state := State.AttrName
    element := prior.element
    attr := attrNameAttrType prior group1 }

/-- The lower-cased local name of an attribute (the name after the first
`:` when one is present), as the claim describes it. -/
def attrLocalName (group1 : List Nat) : List Nat :=
  let attr_name := pyLower group1
  let colon := strFind attr_name (nats ":")
  if colon ≥ 0 then attr_name.drop (colon.toNat + 1) else attr_name

/-! ## Pipeline insertion (`escape.py` `ensure_pipeline_contains`)

A `Pipeline` wraps a chain of single-argument calls `x|a|b|c`;
`element_at(i)` reads the i-th name (leftmost first, `None` out of
bounds) and `insert_element_at(i, name)` inserts at i.  The inserter only
uses that indexed-sequence interface, so pipelines are modelled as the
list of their element names.
-/

/-- `escape._CANON_NAMES` applied with `.get(name, name)`. -/
def CANON_NAMES (n : String) : String :=
  if n = "escape_html_attribute" then "escape_html" else n

/-- `escape._esc_fns_eq`: whether two escaping function names do the same
work. -/
def esc_fns_eq (a b : String) : Bool := CANON_NAMES a = CANON_NAMES b

/-- The merge loop shared by both `ensure_pipeline_contains` variants:
walk the pipeline; when the current element matches (under
`esc_fns_eq`) the first possible entry of `to_insert`, insert the
entries before it to its left and drop through the matched entry;
afterwards append whatever remains of `to_insert`. -/
def mergeLoop (scanned : List String) :
    List String → List String → List String
  | [], to_insert => scanned ++ to_insert
  | element :: rest, to_insert =>
    match to_insert.findIdx? (fun ti => esc_fns_eq element ti) with
    | some i =>
      mergeLoop (scanned ++ to_insert.take i ++ [element]) rest
        (to_insert.drop (i + 1))
    | none => mergeLoop (scanned ++ [element]) rest to_insert

/-- `autoesc/escape.py` `ensure_pipeline_contains(pipeline, to_insert)`:
returns the pipeline unchanged when `to_insert` is empty or the pipeline
contains a `noescape` element, otherwise runs the merge loop. -/
def ensure_pipeline_contains (pipeline to_insert : List String) :
    List String :=
  if to_insert.isEmpty then pipeline
  else if pipeline.contains "noescape" then pipeline
  else mergeLoop [] pipeline to_insert

/-- `src/escape.py` `ensure_pipeline_contains`: the older variant without
the `noescape` check. -/
def src_ensure_pipeline_contains (pipeline to_insert : List String) :
    List String :=
  if to_insert.isEmpty then pipeline
  else mergeLoop [] pipeline to_insert

/-- The stability condition under which the merge loop is a no-op:
scanning the pipeline left to right, every element that matches any
still-pending required name matches the first pending one, and all
required names are consumed by the end. -/
def scanConsumes : List String → List String → Bool
  | [], to_insert => to_insert.isEmpty
  | el :: rest, to_insert =>
    match to_insert.findIdx? (fun ti => esc_fns_eq el ti) with
    | some 0 => scanConsumes rest (to_insert.drop 1)
    | some _ => false
    | none => scanConsumes rest to_insert

/-! ## Sanitizers (`escaping.py`)

Each sanitizer is modelled on its string branch (the `None` and
`TypedContent` short-circuits of the source take other input types, which
are outside the `List Nat` text domain).  The percent encoders follow the
unicode branch of `_pct_encode` (UTF-8 encode, then `%02x` per byte).
-/

/-- Lowercase hex digit for a value below 16 (`%x` formatting). -/
def hexDigitChar (n : Nat) : Nat := if n < 10 then 0x30 + n else 0x57 + n

/-- Minimal-width lowercase hex digits of `n`, most significant first
(`'%x' % n`).  Eight digits of fuel cover every value below `16^8`, far
above the Unicode code point ceiling. -/
def hexDigitsMinAux : Nat → Nat → List Nat
  | 0, _ => []
  | fuel + 1, c =>
    if c < 16 then [hexDigitChar c]
    else hexDigitsMinAux fuel (c / 16) ++ [hexDigitChar (c % 16)]

/-- `'%x' % n`. -/
def hexDigitsMin (c : Nat) : List Nat := hexDigitsMinAux 8 c

/-- `'%02x' % b` for a byte. -/
def hex2 (b : Nat) : List Nat := [hexDigitChar (b / 16 % 16), hexDigitChar (b % 16)]

/-- `'%04x' % n`: minimal hex, zero-padded to at least four digits. -/
def padHex4 (c : Nat) : List Nat :=
  let d := hexDigitsMin c
  List.replicate (4 - d.length) 0x30 ++ d

/-- Decimal digits of `n` (`'%d' % n`). -/
def decDigitsAux : Nat → Nat → List Nat
  | 0, _ => []
  | fuel + 1, c =>
    if c < 10 then [0x30 + c]
    else decDigitsAux fuel (c / 10) ++ [0x30 + c % 10]

/-- `'%d' % n`. -/
def decDigits (c : Nat) : List Nat := decDigitsAux 10 c

/-- The UTF-8 bytes of the code point `c` (Python `unichr(c).encode('UTF-8')`). -/
def utf8Bytes (c : Nat) : List Nat :=
  if c < 0x80 then [c]
  else if c < 0x800 then [0xc0 + c / 0x40, 0x80 + c % 0x40]
  else if c < 0x10000 then
    [0xe0 + c / 0x1000, 0x80 + c / 0x40 % 0x40, 0x80 + c % 0x40]
  else
    [0xf0 + c / 0x40000, 0x80 + c / 0x1000 % 0x40, 0x80 + c / 0x40 % 0x40,
     0x80 + c % 0x40]

/-- `re.sub` with a single-character class: replace each matched character
by its expansion. -/
def subChars (matcher : Nat → Bool) (repl : Nat → List Nat)
    (v : List Nat) : List Nat :=
  v.flatMap (fun c => if matcher c then repl c else [c])

/-- `_MATCHER_FOR_ESCAPE_HTML` (`[\x00"&\x27<>]`). -/
def matcherEscapeHtml (c : Nat) : Bool :=
  c = 0 ∨ c = 0x22 ∨ c = 0x26 ∨ c = 0x27 ∨ c = 0x3c ∨ c = 0x3e

/-- `_MATCHER_FOR_ESCAPE_HTML_SQ_ONLY` (`[\x00&\x27<>]`). -/
def matcherEscapeHtmlSqOnly (c : Nat) : Bool :=
  c = 0 ∨ c = 0x26 ∨ c = 0x27 ∨ c = 0x3c ∨ c = 0x3e

/-- `_MATCHER_FOR_ESCAPE_HTML_DQ_ONLY` (`[\x00&"<>]`). -/
def matcherEscapeHtmlDqOnly (c : Nat) : Bool :=
  c = 0 ∨ c = 0x26 ∨ c = 0x22 ∨ c = 0x3c ∨ c = 0x3e

/-- `_MATCHER_FOR_NORMALIZE_HTML` (`[\x00"\x27<>]`). -/
def matcherNormalizeHtml (c : Nat) : Bool :=
  c = 0 ∨ c = 0x22 ∨ c = 0x27 ∨ c = 0x3c ∨ c = 0x3e

/-- `_MATCHER_FOR_ESCAPE_JS_STRING`: NUL, 0x08-0x0d, the quotes, `&`,
`+`, `/`, `<`, `=`, `>`, backslash, 0x7f, 0x85, U+2028 and U+2029. -/
def matcherEscapeJsString (c : Nat) : Bool :=
  c = 0 ∨ (0x08 ≤ c ∧ c ≤ 0x0d) ∨ c = 0x22 ∨ c = 0x26 ∨ c = 0x27 ∨
  c = 0x2b ∨ c = 0x2f ∨ c = 0x3c ∨ c = 0x3d ∨ c = 0x3e ∨ c = 0x5c ∨
  c = 0x7f ∨ c = 0x85 ∨ c = 0x2028 ∨ c = 0x2029

/-- `_MATCHER_FOR_ESCAPE_JS_REGEX`: NUL, 0x08-0x0d, the double quote,
dollar, the ranges 0x26-0x2b and 0x2d-0x2f, colon, 0x3c-0x3f,
0x5b-0x5e, 0x7b-0x7d, 0x7f, 0x85, U+2028 and U+2029. -/
def matcherEscapeJsRegex (c : Nat) : Bool :=
  c = 0 ∨ (0x08 ≤ c ∧ c ≤ 0x0d) ∨ c = 0x22 ∨ c = 0x24 ∨
  (0x26 ≤ c ∧ c ≤ 0x2b) ∨ (0x2d ≤ c ∧ c ≤ 0x2f) ∨ c = 0x3a ∨
  (0x3c ≤ c ∧ c ≤ 0x3f) ∨ (0x5b ≤ c ∧ c ≤ 0x5e) ∨
  (0x7b ≤ c ∧ c ≤ 0x7d) ∨ c = 0x7f ∨ c = 0x85 ∨ c = 0x2028 ∨ c = 0x2029

/-- `_MATCHER_FOR_ESCAPE_CSS_STRING`: NUL, 0x08-0x0d, the double
quote, the ranges 0x26-0x2a and 0x3a-0x3e, `/`, `@`, backslash, the
braces, 0x85, 0xa0, U+2028 and U+2029. -/
def matcherEscapeCssString (c : Nat) : Bool :=
  c = 0 ∨ (0x08 ≤ c ∧ c ≤ 0x0d) ∨ c = 0x22 ∨ (0x26 ≤ c ∧ c ≤ 0x2a) ∨
  c = 0x2f ∨ (0x3a ≤ c ∧ c ≤ 0x3e) ∨ c = 0x40 ∨ c = 0x5c ∨ c = 0x7b ∨
  c = 0x7d ∨ c = 0x85 ∨ c = 0xa0 ∨ c = 0x2028 ∨ c = 0x2029

/-- `_replacer_for_html`: `&`, `<`, `>` map to named entities, everything
else to a decimal character reference. -/
def replacerForHtml (c : Nat) : List Nat :=
  if c = 0x26 then nats "&amp;"
  else if c = 0x3c then nats "&lt;"
  else if c = 0x3e then nats "&gt;"
  else nats "&#" ++ decDigits c ++ nats ";"

/-- `_replacer_for_js`: the fixed map for `\t \n \f \r / \\`, then
`\xhh` below 0x100 and `\uhhhh` above. -/
def replacerForJs (c : Nat) : List Nat :=
  if c = 0x09 then nats "\\t"
  else if c = 0x0a then nats "\\n"
  else if c = 0x0c then nats "\\f"
  else if c = 0x0d then nats "\\r"
  else if c = 0x2f then nats "\\/"
  else if c = 0x5c then nats "\\\\"
  else if c < 0x100 then nats "\\x" ++ hex2 c
  else nats "\\u" ++ padHex4 c

/-- `_replacer_for_css`: `\\` for backslash, else `\%x ` (backslash, the
code point in minimal hex, then a space). -/
def replacerForCss (c : Nat) : List Nat :=
  if c = 0x5c then nats "\\\\"
  else [0x5c] ++ hexDigitsMin c ++ [0x20]

/-- `escaping._escape_html_helper`. -/
def escape_html_helper (v : List Nat) : List Nat :=
  subChars matcherEscapeHtml replacerForHtml v

/-- `escaping.escape_html_sq_only`. -/
def escape_html_sq_only (v : List Nat) : List Nat :=
  subChars matcherEscapeHtmlSqOnly replacerForHtml v

/-- `escaping.escape_html_dq_only`. -/
def escape_html_dq_only (v : List Nat) : List Nat :=
  subChars matcherEscapeHtmlDqOnly replacerForHtml v

/-- `escaping._normalize_html_helper`. -/
def normalize_html_helper (v : List Nat) : List Nat :=
  subChars matcherNormalizeHtml replacerForHtml v

/-- `escaping.escape_html` (string branch). -/
def escape_html (v : List Nat) : List Nat := escape_html_helper v

/-- `escaping.escape_html_rcdata` (string branch). -/
def escape_html_rcdata (v : List Nat) : List Nat := escape_html_helper v

/-- `escaping.escape_html_attribute` (string branch). -/
def escape_html_attribute (v : List Nat) : List Nat := escape_html_helper v

/-- `escaping.escape_js_string` (string branch). -/
def escape_js_string (v : List Nat) : List Nat :=
  subChars matcherEscapeJsString replacerForJs v

/-- `escaping.escape_js_regex` (string branch): escape, then use `(?:)`
for an empty result. -/
def escape_js_regex (v : List Nat) : List Nat :=
  let escaped := subChars matcherEscapeJsRegex replacerForJs v
  if escaped.isEmpty then nats "(?:)" else escaped

/-- `escaping.escape_css_string` (string branch). -/
def escape_css_string (v : List Nat) : List Nat :=
  subChars matcherEscapeCssString replacerForCss v

/-- The unreserved URL characters (`[0-9A-Za-z\._~\-]`, the complement of
`_NOT_URL_UNRESERVED`). -/
def urlUnreserved (c : Nat) : Bool :=
  (0x30 ≤ c ∧ c ≤ 0x39) ∨ (0x41 ≤ c ∧ c ≤ 0x5a) ∨ (0x61 ≤ c ∧ c ≤ 0x7a) ∨
  c = 0x2e ∨ c = 0x5f ∨ c = 0x7e ∨ c = 0x2d

/-- `_pct_encode` on one code point: UTF-8 bytes, `%02x` each. -/
def pctEncodeChar (c : Nat) : List Nat :=
  (utf8Bytes c).flatMap (fun b => 0x25 :: hex2 b)

/-- `escaping.escape_url` (string branch): percent-encode everything not
unreserved. -/
def escape_url (v : List Nat) : List Nat :=
  subChars (fun c => ¬ urlUnreserved c) pctEncodeChar v

/-- The characters the normalizer leaves alone: unreserved, reserved, and
the extras of `_NOT_URL_UNRESERVED_AND_SPECIAL`'s complement
(`[0-9A-Za-z\._~:/?#\[\]@!$&*+,;=%\-]`); `%` is special-cased by the
lookahead. -/
def urlNoNormalize (c : Nat) : Bool :=
  (0x30 ≤ c ∧ c ≤ 0x39) ∨ (0x41 ≤ c ∧ c ≤ 0x5a) ∨ (0x61 ≤ c ∧ c ≤ 0x7a) ∨
  c = 0x2e ∨ c = 0x5f ∨ c = 0x7e ∨ c = 0x3a ∨ c = 0x2f ∨ c = 0x3f ∨
  c = 0x23 ∨ c = 0x5b ∨ c = 0x5d ∨ c = 0x40 ∨ c = 0x21 ∨ c = 0x24 ∨
  c = 0x26 ∨ c = 0x2a ∨ c = 0x2b ∨ c = 0x2c ∨ c = 0x3b ∨ c = 0x3d ∨
  c = 0x25 ∨ c = 0x2d

/-- `[0-9A-Fa-f]`. -/
def isHexDigit (c : Nat) : Bool :=
  (0x30 ≤ c ∧ c ≤ 0x39) ∨ (0x41 ≤ c ∧ c ≤ 0x46) ∨ (0x61 ≤ c ∧ c ≤ 0x66)

/-- `escaping.normalize_url` (string branch): percent-encode the
characters outside `urlNoNormalize`, and also `%` when it is not followed
by two hex digits (the `%(?![0-9A-Fa-f]{2})` alternative). -/
def normalize_url : List Nat → List Nat
  | [] => []
  | c :: rest =>
    if c = 0x25 then
      match rest with
      | a :: b :: _ =>
        if isHexDigit a ∧ isHexDigit b then c :: normalize_url rest
        else pctEncodeChar c ++ normalize_url rest
      | _ => pctEncodeChar c ++ normalize_url rest
    else if urlNoNormalize c then c :: normalize_url rest
    else pctEncodeChar c ++ normalize_url rest

/-- `escaping.filter_url` (string branch): vet the protocol with
`(?i)^(?:(?:https?|mailto):|[^&:/?#]*(?:[/?#]|$))`, else `#zSafehtmlz`. -/
def filter_url (v : List Nat) : List Nat :=
  let lv := pyLower v
  let rest := v.dropWhile (fun c =>
    ¬ (c = 0x26 ∨ c = 0x3a ∨ c = 0x2f ∨ c = 0x3f ∨ c = 0x23))
  let ok : Bool :=
    (nats "http:").isPrefixOf lv ∨ (nats "https:").isPrefixOf lv ∨
    (nats "mailto:").isPrefixOf lv ∨
    rest.isEmpty ∨ rest.head? = some 0x2f ∨ rest.head? = some 0x3f ∨
    rest.head? = some 0x23
  if ok then v else nats "#zSafehtmlz"

/-- `escaping.elide`: always the empty string. -/
def elide (_ : List Nat) : List Nat := []

/-- `escaping.open_quote`: prefix a double quote. -/
def open_quote (v : List Nat) : List Nat := 0x22 :: v

/-- The character class `[a-z0-9_$:-]` under `(?i)`. -/
def isHtmlIdentChar (c : Nat) : Bool :=
  (0x61 ≤ c ∧ c ≤ 0x7a) ∨ (0x41 ≤ c ∧ c ≤ 0x5a) ∨ (0x30 ≤ c ∧ c ≤ 0x39) ∨
  c = 0x5f ∨ c = 0x24 ∨ c = 0x3a ∨ c = 0x2d

/-- `escaping.filter_html_element_name` (string branch):
`(?i)^(?!script|style|title|textarea|xmp|no)[a-z0-9_$:-]*$`. -/
def filter_html_element_name (v : List Nat) : List Nat :=
  let lv := pyLower v
  let ok : Bool :=
    ¬ ((nats "script").isPrefixOf lv ∨ (nats "style").isPrefixOf lv ∨
       (nats "title").isPrefixOf lv ∨ (nats "textarea").isPrefixOf lv ∨
       (nats "xmp").isPrefixOf lv ∨ (nats "no").isPrefixOf lv) ∧
    v.all isHtmlIdentChar
  if ok then v else nats "zSafehtmlz"

/-- `escaping._filter_html_attribute_helper` (string branch): the
allow-list regex of `_FILTER_FOR_FILTER_HTML_ATTRIBUTE`. -/
def filter_html_attribute_helper (v : List Nat) : List Nat :=
  let lv := pyLower v
  let ok : Bool :=
    ¬ ((nats "style").isPrefixOf lv ∨ (nats "on").isPrefixOf lv ∨
       (nats "action").isPrefixOf lv ∨ (nats "archive").isPrefixOf lv ∨
       (nats "background").isPrefixOf lv ∨ (nats "cite").isPrefixOf lv ∨
       (nats "classid").isPrefixOf lv ∨ (nats "codebase").isPrefixOf lv ∨
       (nats "data").isPrefixOf lv ∨ (nats "dsync").isPrefixOf lv ∨
       (nats "href").isPrefixOf lv ∨ (nats "longdesc").isPrefixOf lv ∨
       (nats "src").isPrefixOf lv ∨ (nats "usemap").isPrefixOf lv) ∧
    ((¬ v.isEmpty ∧ v.all isHtmlIdentChar) ∨ lv = nats "dir=ltr" ∨
      lv = nats "dir=rtl")
  if ok then v else nats "zSafehtmlz"

/-- `escaping.filter_html_attribute` (string branch): filter, then quote
an unquoted `name=value`. -/
def filter_html_attribute (v : List Nat) : List Nat :=
  let value := filter_html_attribute_helper v
  let equals_index := strFind value (nats "=")
  if equals_index ≥ 0 ∧
      ¬ (value.getLast? = some 0x22 ∨ value.getLast? = some 0x27) then
    value.take (equals_index.toNat + 1) ++ [0x22] ++
      value.drop (equals_index.toNat + 1) ++ [0x22]
  else value

/-- The string escaping of Python's `json.dumps` with `ensure_ascii`:
ASCII printables pass (except quote and backslash), the short escapes are
used when available, everything else becomes `\uhhhh` (with surrogate
pairs above 0xFFFF). -/
def jsonEscChar (c : Nat) : List Nat :=
  if c = 0x22 then nats "\\\""
  else if c = 0x5c then nats "\\\\"
  else if c = 0x08 then nats "\\b"
  else if c = 0x09 then nats "\\t"
  else if c = 0x0a then nats "\\n"
  else if c = 0x0c then nats "\\f"
  else if c = 0x0d then nats "\\r"
  else if 0x20 ≤ c ∧ c ≤ 0x7e then [c]
  else if c < 0x10000 then nats "\\u" ++ padHex4 c
  else
    nats "\\u" ++ padHex4 (0xd800 + (c - 0x10000) / 0x400) ++
    nats "\\u" ++ padHex4 (0xdc00 + (c - 0x10000) % 0x400)

/-- `escaping.escape_js_value` on a string input: JSON encode (the result
starts with `"`, so no block-wrap or spacing applies), then replace `<`
and `>` with `\x3c` and `\x3e`. -/
def escape_js_value (v : List Nat) : List Nat :=
  let escaped := [0x22] ++ v.flatMap jsonEscChar ++ [0x22]
  escaped.flatMap (fun c =>
    if c = 0x3c then nats "\\x3c"
    else if c = 0x3e then nats "\\x3e"
    else [c])

/-- `escaping.SANITIZER_FOR_ESC_MODE`: `None` at NO_AUTOESCAPE as in the
source.  FILTER_CSS_VALUE is present in the source but is not modelled
here: its CSS-escape decoding (`unichr(int(hex, 16))`) can raise on long
hex escapes, and no claim exercises it. -/
def SANITIZER_FOR_ESC_MODE (m : EscMode) :
    Option (List Nat → List Nat) :=
  match m with
  | EscMode.EscapeHtml => some escape_html
  | EscMode.EscapeHtmlRcdata => some escape_html_rcdata
  | EscMode.EscapeHtmlAttribute => some escape_html_attribute
  | EscMode.FilterHtmlElementName => some filter_html_element_name
  | EscMode.FilterHtmlAttribute => some filter_html_attribute
  | EscMode.EscapeJsString => some escape_js_string
  | EscMode.EscapeJsValue => some escape_js_value
  | EscMode.EscapeJsRegex => some escape_js_regex
  | EscMode.EscapeCssString => some escape_css_string
  | EscMode.FilterCssValue => none
  | EscMode.EscapeUrl => some escape_url
  | EscMode.NormalizeUrl => some normalize_url
  | EscMode.FilterUrl => some filter_url
  | EscMode.NoAutoescape => none
  | EscMode.Elide => some elide
  | EscMode.OpenQuote => some open_quote


/-! ## The raw-text scanner (`context_update.py`)

Regular expressions are hand-translated: `re.search` scans candidate
start positions left to right, `$` matches at the end of the string or
just before a final newline, and `\s`, `\w`, `\b` are the ASCII classes
of Python 2 patterns compiled without `re.UNICODE`.
-/

/-- Python 2 `\w`: `[A-Za-z0-9_]`. -/
def isWordChar (c : Nat) : Bool :=
  (0x41 ≤ c ∧ c ≤ 0x5a) ∨ (0x61 ≤ c ∧ c ≤ 0x7a) ∨
  (0x30 ≤ c ∧ c ≤ 0x39) ∨ c = 0x5f

/-- `[A-Za-z]`. -/
def isAsciiLetter (c : Nat) : Bool :=
  (0x41 ≤ c ∧ c ≤ 0x5a) ∨ (0x61 ≤ c ∧ c ≤ 0x7a)

/-- `[0-9]`. -/
def isAsciiDigit (c : Nat) : Bool := 0x30 ≤ c ∧ c ≤ 0x39

/-- `NLS`: the JavaScript line terminators `"\n\r  "`. -/
def isNls (c : Nat) : Bool :=
  c = 0x0a ∨ c = 0x0d ∨ c = 0x2028 ∨ c = 0x2029

/-- Index of the first suffix of the text satisfying `p`: the scan
`re.search` performs over candidate start positions. -/
def searchIdx (p : List Nat → Bool) : List Nat → Option Nat
  | [] => if p [] then some 0 else none
  | c :: rest =>
    if p (c :: rest) then some 0
    else (searchIdx p rest).map (· + 1)

/-- Length of the maximal prefix run of characters satisfying `p`. -/
def runLen (p : Nat → Bool) (t : List Nat) : Nat := (t.takeWhile p).length

/-- Where `re.search(r'$', t)` matches: at the very end, or just before
a final `'\n'`. -/
def dollarStart (t : List Nat) : Nat :=
  if t.getLast? = some 0x0a then t.length - 1 else t.length

/-- One transition's match, as used by the selection loop of
`_process_next_token`: the match start (`match.start(0)`), the match end
(`match.end(0)`, which becomes `num_consumed`), the context computed by
`compute_next_context` (or the message of the exception it raises), and
the transition's normalized `raw_text`.  Transitions whose pattern does
not match, or whose `is_applicable_to` is false, contribute no
candidate. -/
structure Cand where
  start : Nat
  stop : Nat
  next : Except (List Nat) Ctx
  txt : List Nat
  deriving Repr

/-- The earliest-match-wins loop of `_process_next_token`: a candidate
replaces the current best only when its start is strictly smaller, so on
ties the transition listed first in `_TRANSITIONS[state]` wins. -/
def pickCand (cs : List (Option Cand)) : Option Cand :=
  cs.foldl (fun acc c? =>
    match acc, c? with
    | none, d? => d?
    | some a, none => some a
    | some a, some d => if d.start < a.start then some d else some a) none

/-- `STATE_TAG | ELEMENT_NONE`, the bare context produced by the end-tag
and back-to-tag transitions. -/
def tagNoneCtx : Ctx := { textCtx with state := State.Tag }

/-- `_TransitionToState.compute_next_context`:
`(prior & ~(URL_PART_ALL | STATE_ALL)) | state`. -/
def toStateCtx (c : Ctx) (st : State) : Ctx :=
  { c with state := st, urlPart := UrlPartT.NoneUrlPart }

/-- `_TAG_DONE_ELEMENT_TO_PARTIAL_CONTEXT[el] | el`
(`_TagDoneTransition.compute_next_context`). -/
def tagDoneCtx (el : ElementT) : Ctx :=
  match el with
  | ElementT.NoneElement => textCtx
  | ElementT.Script =>
    { textCtx with
      state := State.Js
      jsCtx := JsCtxT.Regex
      element := ElementT.Script }
  | ElementT.Style =>
    { textCtx with
      state := State.Css
      element := ElementT.Style }
  | _ => { textCtx with state := State.Rcdata, element := el }

/-- `_ELEMENT_TO_TAG_NAME.get(el)`. -/
def elementTagName (el : ElementT) : Option (List Nat) :=
  match el with
  | ElementT.Textarea => some (nats "textarea")
  | ElementT.Title => some (nats "title")
  | ElementT.Listing => some (nats "listing")
  | ElementT.Xmp => some (nats "xmp")
  | _ => none

/-- `(?i)<\/style\b` / `(?i)<\/script\b` (`_EndTagTransition`): the close
tag of the given name followed by a word boundary; applicable only when
`attr_type_of(prior)` is `ATTR_NONE`. -/
def endTagCand (name : List Nat) (text : List Nat) (c : Ctx) :
    Option Cand :=
  if c.attr = AttrT.NoneAttr then
    let w := name.length + 2
    match searchIdx (fun s =>
        (0x3c :: 0x2f :: name).isPrefixOf (pyLower s) &&
        (match (s.drop w).head? with
         | some d => !isWordChar d
         | none => true)) text with
    | some i => some ⟨i, i + w, Except.ok tagNoneCtx, text.take (i + w)⟩
    | none => none
  else none

/-- The `_STYLE_TAG_END` candidate (`(?i)<\/style\b`). -/
def styleEndCand (text : List Nat) (c : Ctx) : Option Cand :=
  endTagCand (nats "style") text c

/-- The `_SCRIPT_TAG_END` candidate (`(?i)<\/script\b`). -/
def scriptEndCand (text : List Nat) (c : Ctx) : Option Cand :=
  endTagCand (nats "script") text c

/-- A `_ToTagTransition` of `STATE_TEXT`: `(?i)<name(?=[\s>\/]|$)` to
`STATE_TAG | el` (the `$` alternative adds nothing beyond the class since
`'\n'` is `\s`). -/
def tagOpenCand (name : List Nat) (el : ElementT) (text : List Nat) :
    Option Cand :=
  let w := name.length + 1
  match searchIdx (fun s =>
      (0x3c :: name).isPrefixOf (pyLower s) &&
      (match (s.drop w).head? with
       | some d => isPySpace d || d == 0x3e || d == 0x2f
       | none => true)) text with
  | some i =>
    some ⟨i, i + w,
      Except.ok { textCtx with state := State.Tag, element := el },
      text.take (i + w)⟩
  | none => none

/-- The lookahead of `(?i)<(?!\/?[A-Z]|!DOCTYPE)` on the text after the
`<`. -/
def ltLookahead (t : List Nat) : Bool :=
  (match t.head? with | some x => isAsciiLetter x | none => false) ||
  (match t with
   | a :: x :: _ => a == 0x2f && isAsciiLetter x
   | _ => false) ||
  (nats "!doctype").isPrefixOf (pyLower t)

/-- `_TRANSITIONS[STATE_TEXT]`. -/
def candsText (text : List Nat) (c : Ctx) : List (Option Cand) :=
  [ -- _TransitionToSelf(r'^[^<]+')
    (match text.head? with
     | some h =>
       if h ≠ 0x3c then
         let n := runLen (fun d => d ≠ 0x3c) text
         some ⟨0, n, Except.ok c, text.take n⟩
       else none
     | none => none),
    -- _NormalizeTransition(_ToTransition(r'<!--', STATE_HTMLCMT), "")
    (match searchIdx (fun s => (nats "<!--").isPrefixOf s) text with
     | some i => some ⟨i, i + 4,
         Except.ok { textCtx with state := State.HtmlCmt }, text.take i⟩
     | none => none),
    tagOpenCand (nats "script") ElementT.Script text,
    tagOpenCand (nats "style") ElementT.Style text,
    tagOpenCand (nats "textarea") ElementT.Textarea text,
    tagOpenCand (nats "title") ElementT.Title text,
    tagOpenCand (nats "xmp") ElementT.Xmp text,
    -- _NormalizeTransition(_TransitionToSelf(r'(?i)<(?!/?[A-Z]|!DOCTYPE)'),
    --                      "&lt;")
    (match searchIdx (fun s =>
        s.head? = some 0x3c ∧ ¬ ltLookahead (s.drop 1)) text with
     | some i => some ⟨i, i + 1, Except.ok c, text.take i ++ nats "&lt;"⟩
     | none => none),
    -- _ToTransition(r'<', STATE_HTML_BEFORE_TAG_NAME)
    (match searchIdx (fun s => s.head? = some 0x3c) text with
     | some i => some ⟨i, i + 1,
         Except.ok { textCtx with state := State.HtmlBeforeTagName },
         text.take (i + 1)⟩
     | none => none) ]

/-- `_TRANSITIONS[STATE_RCDATA]`. -/
def candsRcdata (text : List Nat) (c : Ctx) : List (Option Cand) :=
  [ -- _RcdataEndTagTransition(r'</(\w+)\b'), applicable when group 1
    -- names the current element
    (match searchIdx (fun s =>
        match s with
        | a :: b :: d :: _ => a == 0x3c && b == 0x2f && isWordChar d
        | _ => false) text with
     | some i =>
       let group1 := (text.drop (i + 2)).takeWhile isWordChar
       if elementTagName c.element = some (pyLower group1) then
         let e := i + 2 + group1.length
         some ⟨i, e, Except.ok tagNoneCtx, text.take e⟩
       else none
     | none => none),
    -- _NormalizeTransition(_TransitionToSelf(r'<'), "&lt;")
    (match searchIdx (fun s => s.head? = some 0x3c) text with
     | some i => some ⟨i, i + 1, Except.ok c, text.take i ++ nats "&lt;"⟩
     | none => none),
    -- _TRANSITION_TO_SELF (r'$')
    (let d := dollarStart text
     some ⟨d, d, Except.ok c, text.take d⟩) ]

/-- `_TRANSITIONS[STATE_HTML_BEFORE_TAG_NAME]`. -/
def candsHtmlBeforeTagName (text : List Nat) (_c : Ctx) :
    List (Option Cand) :=
  [ -- _ToTransition(r'^[A-Za-z]+', STATE_TAG_NAME)
    (match text.head? with
     | some h =>
       if isAsciiLetter h then
         let n := runLen isAsciiLetter text
         some ⟨0, n, Except.ok { textCtx with state := State.TagName },
           text.take n⟩
       else none
     | none => none),
    -- _ToTransition(r'^(?=[^A-Za-z])', STATE_TEXT)
    (match text.head? with
     | some h =>
       if ¬ isAsciiLetter h then some ⟨0, 0, Except.ok textCtx, []⟩
       else none
     | none => none) ]

/-- The match end of `^[A-Za-z0-9:-]*(?:[A-Za-z0-9]|$)`: the greedy class
run backtracks until the next character is alphanumeric or `$` holds. -/
def tagNameSelfEnd (text : List Nat) : Option Nat :=
  let cls := fun d => isAsciiLetter d ∨ isAsciiDigit d ∨ d = 0x3a ∨ d = 0x2d
  let r := runLen cls text
  if r = text.length then some r
  else if r + 1 = text.length ∧ text.getLast? = some 0x0a then some r
  else
    let pre := (text.take r).reverse.dropWhile
      (fun d => ¬ (isAsciiLetter d ∨ isAsciiDigit d))
    if pre.isEmpty then none else some pre.length

/-- `_TRANSITIONS[STATE_TAG_NAME]`. -/
def candsTagName (text : List Nat) (c : Ctx) : List (Option Cand) :=
  [ (match tagNameSelfEnd text with
     | some e => some ⟨0, e, Except.ok c, text.take e⟩
     | none => none),
    -- _ToTagTransition(r'^(?=[\/\s>])', ELEMENT_NONE)
    (match text.head? with
     | some h =>
       if h = 0x2f ∨ isPySpace h ∨ h = 0x3e then
         some ⟨0, 0, Except.ok tagNoneCtx, []⟩
       else none
     | none => none) ]

/-- `_TRANSITIONS[STATE_TAG]`. -/
def candsTag (text : List Nat) (c : Ctx) : List (Option Cand) :=
  let s := runLen isPySpace text
  [ -- _TransitionToAttrName(r'^\s*([A-Za-z][\w:-]*)')
    (match (text.drop s).head? with
     | some h =>
       if isAsciiLetter h then
         let rest := (text.drop (s + 1)).takeWhile
           (fun d => isWordChar d ∨ d = 0x3a ∨ d = 0x2d)
         let group1 := h :: rest
         let e := s + 1 + rest.length
         some ⟨0, e, Except.ok (transitionToAttrNameNext c group1),
           text.take e⟩
       else none
     | none => none),
    -- _TagDoneTransition(r'^\s*\/?>')
    (match text.drop s with
     | 0x2f :: 0x3e :: _ =>
       some ⟨0, s + 2, Except.ok (tagDoneCtx c.element), text.take (s + 2)⟩
     | 0x3e :: _ =>
       some ⟨0, s + 1, Except.ok (tagDoneCtx c.element), text.take (s + 1)⟩
     | _ => none),
    -- _TransitionToSelf(r'^\s+$')
    (if 1 ≤ s ∧ s = text.length then
       some ⟨0, s, Except.ok c, text.take s⟩
     else none) ]

/-- `_TRANSITIONS[STATE_ATTR_NAME]`. -/
def candsAttrName (text : List Nat) (c : Ctx) : List (Option Cand) :=
  [ -- _TransitionToSelf(r'[A-Za-z0-9-]+')
    (match searchIdx (fun st =>
        match st.head? with
        | some h => isAsciiLetter h || isAsciiDigit h || h == 0x2d
        | none => false) text with
     | some i =>
       let n := runLen (fun d => isAsciiLetter d ∨ isAsciiDigit d ∨ d = 0x2d)
         (text.drop i)
       some ⟨i, i + n, Except.ok c, text.take (i + n)⟩
     | none => none),
    -- _TransitionToState(r'^', STATE_AFTER_NAME)
    some ⟨0, 0, Except.ok (toStateCtx c State.AfterName), []⟩ ]

/-- `_TRANSITIONS[STATE_AFTER_NAME]`. -/
def candsAfterName (text : List Nat) (c : Ctx) : List (Option Cand) :=
  let s := runLen isPySpace text
  [ -- _TransitionToState(r'^\s*=', STATE_BEFORE_VALUE)
    (if (text.drop s).head? = some 0x3d then
       some ⟨0, s + 1, Except.ok (toStateCtx c State.BeforeValue),
         text.take (s + 1)⟩
     else none),
    -- _TransitionToSelf(r'^\s+')
    (if 1 ≤ s then some ⟨0, s, Except.ok c, text.take s⟩ else none),
    -- _TransitionBackToTag(r'^')
    some ⟨0, 0,
      Except.ok { textCtx with state := State.Tag, element := c.element },
      []⟩ ]

/-- The lookahead `(?=>|\s+[A-Za-z][A-Za-z0-9-]*\s*=)` of the
`STATE_BEFORE_VALUE` epsilon transition back to the tag. -/
def beforeValueBackLookahead (text : List Nat) : Bool :=
  text.head? == some 0x3e ||
  (let s := runLen isPySpace text
   decide (1 ≤ s) &&
   match (text.drop s).head? with
   | some h =>
     isAsciiLetter h &&
     (let j := s + 1 + runLen
        (fun d => isAsciiLetter d ∨ isAsciiDigit d ∨ d = 0x2d)
        (text.drop (s + 1))
      let k := j + runLen isPySpace (text.drop j)
      (text.drop k).head? == some 0x3d)
   | none => false)

/-- `_TRANSITIONS[STATE_BEFORE_VALUE]`. -/
def candsBeforeValue (text : List Nat) (c : Ctx) : List (Option Cand) :=
  let s := runLen isPySpace text
  [ -- _TransitionToAttrValue(r'^\s*["]', DELIM_DOUBLE_QUOTE)
    (if (text.drop s).head? = some 0x22 then
       some ⟨0, s + 1, Except.ok
         (context_after_attr_delimiter c.element c.attr DelimT.DoubleQuote),
         text.take (s + 1)⟩
     else none),
    -- _TransitionToAttrValue(r'^\s*\'', DELIM_SINGLE_QUOTE)
    (if (text.drop s).head? = some 0x27 then
       some ⟨0, s + 1, Except.ok
         (context_after_attr_delimiter c.element c.attr DelimT.SingleQuote),
         text.take (s + 1)⟩
     else none),
    -- _TransitionToAttrValue(r'^(?=[^\"\'\s>])', DELIM_SPACE_OR_TAG_END)
    (match text.head? with
     | some h =>
       if ¬ (h = 0x22 ∨ h = 0x27 ∨ isPySpace h ∨ h = 0x3e) then
         some ⟨0, 0, Except.ok (context_after_attr_delimiter c.element
           c.attr DelimT.SpaceOrTagEnd), []⟩
       else none
     | none => none),
    -- _TransitionBackToTag(r'^(?=>|\s+[A-Za-z][A-Za-z0-9-]*\s*=)')
    (if beforeValueBackLookahead text then
       some ⟨0, 0,
         Except.ok { textCtx with state := State.Tag, element := c.element },
         []⟩
     else none),
    -- _TransitionToSelf(r'^\s+')
    (if 1 ≤ s then some ⟨0, s, Except.ok c, text.take s⟩ else none) ]

/-- `_TRANSITIONS[STATE_HTMLCMT]`. -/
def candsHtmlCmt (text : List Nat) (c : Ctx) : List (Option Cand) :=
  [ -- _NormalizeTransition(_ToTransition(r'-->', STATE_TEXT), "", True)
    (match searchIdx (fun s => (nats "-->").isPrefixOf s) text with
     | some i => some ⟨i, i + 3, Except.ok textCtx, []⟩
     | none => none),
    -- _NormalizeTransition(_TRANSITION_TO_SELF, "", True)
    (let d := dollarStart text
     some ⟨d, d, Except.ok c, []⟩) ]

/-- `_TRANSITIONS[STATE_ATTR]`. -/
def candsAttr (text : List Nat) (c : Ctx) : List (Option Cand) :=
  [ (let d := dollarStart text
     some ⟨d, d, Except.ok c, text.take d⟩) ]

/-- `_URLPartTransition.compute_next_context`: tracks which part of a
hierarchical URL the scanner is in, given the consumed prefix
`match.string[:match.end()]` and whether group 1 (a `?`/`#` or an
encoded form) matched. -/
def urlPartNext (c : Ctx) (consumed : List Nat) (grp : Bool) : Ctx :=
  let up0 := c.urlPart
  let up1 :=
    if up0 = UrlPartT.NoneUrlPart ∧ ¬ (pyStrip consumed).isEmpty then
      UrlPartT.PreQuery
    else up0
  let up2 :=
    if up1 ≠ UrlPartT.QueryOrFrag ∧ grp then UrlPartT.QueryOrFrag else up1
  { c with urlPart := up2 }

/-- The `_URL_PART_TRANSITION` candidate (`([?#])|$`). -/
def urlPartCand (text : List Nat) (c : Ctx) : Option Cand :=
  match searchIdx (fun s =>
      s.head? == some 0x3f || s.head? == some 0x23) text with
  | some i =>
    some ⟨i, i + 1, Except.ok (urlPartNext c (text.take (i + 1)) true),
      text.take (i + 1)⟩
  | none =>
    let d := dollarStart text
    some ⟨d, d, Except.ok (urlPartNext c (text.take d) false), text.take d⟩

/-- One alternative of `([?#]|\\(?:23|3[fF]|[?#]))` at a fixed position:
the match length, or `none`. -/
def cssUrlPartAltLen (s : List Nat) : Option Nat :=
  match s with
  | a :: rest =>
    if a = 0x3f ∨ a = 0x23 then some 1
    else if a = 0x5c then
      match rest with
      | b :: d :: _ =>
        if (b = 0x32 ∧ d = 0x33) ∨ (b = 0x33 ∧ (d = 0x66 ∨ d = 0x46)) then
          some 3
        else if b = 0x3f ∨ b = 0x23 then some 2
        else none
      | b :: _ => if b = 0x3f ∨ b = 0x23 then some 2 else none
      | _ => none
    else none
  | _ => none

/-- The `_CSSURL_PART_TRANSITION` candidate
(`([?#]|\\(?:23|3[fF]|[?#]))|$`). -/
def cssUrlPartCand (text : List Nat) (c : Ctx) : Option Cand :=
  match searchIdx (fun s => (cssUrlPartAltLen s).isSome) text with
  | some i =>
    match cssUrlPartAltLen (text.drop i) with
    | some k =>
      some ⟨i, i + k, Except.ok (urlPartNext c (text.take (i + k)) true),
        text.take (i + k)⟩
    | none => none
  | none =>
    let d := dollarStart text
    some ⟨d, d, Except.ok (urlPartNext c (text.take d) false), text.take d⟩

/-- A `_TransitionToState` candidate on a one-character class. -/
def charToStateCand (cls : Nat → Bool) (st : State) (text : List Nat)
    (c : Ctx) : Option Cand :=
  match searchIdx (fun s =>
      match s.head? with | some h => cls h | none => false) text with
  | some i =>
    some ⟨i, i + 1, Except.ok (toStateCtx c st), text.take (i + 1)⟩
  | none => none

/-- A `_ToTransition(…, STATE_ERROR)` candidate on a one-character
class. -/
def charToErrorCand (cls : Nat → Bool) (text : List Nat) : Option Cand :=
  match searchIdx (fun s =>
      match s.head? with | some h => cls h | none => false) text with
  | some i => some ⟨i, i + 1, Except.ok errorCtx, text.take (i + 1)⟩
  | none => none

/-- The CSS/JS string-escape self transition
`\\(?:\r\n?|[\n\f<q>])` for quote character `q`: a backslash followed by
a line continuation or an escaped newline, form feed or quote. -/
def escapePairCand (q : Nat) (text : List Nat) (c : Ctx) : Option Cand :=
  match searchIdx (fun s =>
      match s with
      | a :: b :: _ =>
        a == 0x5c && (b == 0x0d || b == 0x0a || b == 0x0c || b == q)
      | _ => false) text with
  | some i =>
    let e :=
      match text.drop i with
      | _ :: 0x0d :: 0x0a :: _ => i + 3
      | _ => i + 2
    some ⟨i, e, Except.ok c, text.take e⟩
  | none => none

/-- The match of `(?i)\burl\s*\(\s*([\"\']?)` at one position: the match
length and the delimiter group, or `none`.  The word boundary before
`url` is checked by the caller. -/
def cssUriAt (s : List Nat) : Option (Nat × Option Nat) :=
  if (nats "url").isPrefixOf (pyLower s) then
    let a := 3 + runLen isPySpace (s.drop 3)
    if (s.drop a).head? = some 0x28 then
      let b := a + 1 + runLen isPySpace (s.drop (a + 1))
      match (s.drop b).head? with
      | some q =>
        if q = 0x22 ∨ q = 0x27 then some (b + 1, some q) else some (b, none)
      | none => some (b, none)
    else none
  else none

/-- The search of `_CssUriTransition`: earliest position, tracking the
preceding character for the `\b` before `url`. -/
def cssUriSearch (prev : Option Nat) : List Nat → Option Nat
  | [] => none
  | ch :: rest =>
    if (match prev with | some p => !isWordChar p | none => true) &&
        (cssUriAt (ch :: rest)).isSome then
      some 0
    else (cssUriSearch (some ch) rest).map (· + 1)

/-- The `_CssUriTransition` candidate: transitions into CSS `url(...)`
constructs, choosing the state by the delimiter in group 1. -/
def cssUriCand (text : List Nat) (c : Ctx) : Option Cand :=
  match cssUriSearch none text with
  | some i =>
    match cssUriAt (text.drop i) with
    | some (k, grp) =>
      let st :=
        match grp with
        | some 0x22 => State.CssDqUrl
        | some _ => State.CssSqUrl
        | none => State.CssUrl
      some ⟨i, i + k,
        Except.ok { c with state := st, urlPart := UrlPartT.NoneUrlPart },
        text.take (i + k)⟩
    | none => none
  | none => none

/-- The candidate of an unanchored literal pattern `lit`, transitioning
with `_TransitionToState` and `_NormalizeTransition(…, repl)` (a
non-whole replacement: the text before the match followed by `repl`). -/
def litNormToStateCand (lit : List Nat) (st : State) (repl : List Nat)
    (text : List Nat) (c : Ctx) : Option Cand :=
  match searchIdx (fun s => lit.isPrefixOf s) text with
  | some i =>
    some ⟨i, i + lit.length, Except.ok (toStateCtx c st), text.take i ++ repl⟩
  | none => none

/-- `_TRANSITIONS[STATE_CSS]`. -/
def candsCss (text : List Nat) (c : Ctx) : List (Option Cand) :=
  [ litNormToStateCand (nats "/*") State.CssBlockCmt (nats " ") text c,
    litNormToStateCand (nats "//") State.CssLineCmt [] text c,
    charToStateCand (fun h => h = 0x22) State.CssDqStr text c,
    charToStateCand (fun h => h = 0x27) State.CssSqStr text c,
    cssUriCand text c,
    styleEndCand text c,
    (let d := dollarStart text
     some ⟨d, d, Except.ok c, text.take d⟩) ]

/-- A whole-replacement normalized candidate for an unanchored literal
to a `_TransitionToState`. -/
def litNormWholeCand (lit : List Nat) (st : State) (repl : List Nat)
    (text : List Nat) (c : Ctx) : Option Cand :=
  match searchIdx (fun s => lit.isPrefixOf s) text with
  | some i => some ⟨i, i + lit.length, Except.ok (toStateCtx c st), repl⟩
  | none => none

/-- The `_NormalizeTransition(_STYLE_TAG_END, "</style", True)`
candidate. -/
def styleEndNormCand (text : List Nat) (c : Ctx) : Option Cand :=
  (styleEndCand text c).map (fun k => { k with txt := nats "</style" })

/-- The `_NormalizeTransition(_SCRIPT_TAG_END, "</script", True)`
candidate. -/
def scriptEndNormCand (text : List Nat) (c : Ctx) : Option Cand :=
  (scriptEndCand text c).map (fun k => { k with txt := nats "</script" })

/-- `_TRANSITIONS[STATE_CSSBLOCK_CMT]`. -/
def candsCssBlockCmt (text : List Nat) (c : Ctx) : List (Option Cand) :=
  [ litNormWholeCand (nats "*/") State.Css [] text c,
    styleEndNormCand text c,
    (let d := dollarStart text
     some ⟨d, d, Except.ok c, []⟩) ]

/-- `_TRANSITIONS[STATE_CSSLINE_CMT]`. -/
def candsCssLineCmt (text : List Nat) (c : Ctx) : List (Option Cand) :=
  [ -- _NormalizeTransition(_TransitionToState(r'[\n\f\r]', STATE_CSS),
    --                      "\n", True)
    (match searchIdx (fun s =>
        match s.head? with
        | some h => h == 0x0a || h == 0x0c || h == 0x0d
        | none => false) text with
     | some i =>
       some ⟨i, i + 1, Except.ok (toStateCtx c State.Css), nats "\n"⟩
     | none => none),
    styleEndNormCand text c,
    (let d := dollarStart text
     some ⟨d, d, Except.ok c, []⟩) ]

/-- `_TRANSITIONS[STATE_CSSDQ_STR]`. -/
def candsCssDqStr (text : List Nat) (c : Ctx) : List (Option Cand) :=
  [ charToStateCand (fun h => h = 0x22) State.Css text c,
    escapePairCand 0x22 text c,
    cssUrlPartCand text c,
    charToErrorCand (fun h => h = 0x0a ∨ h = 0x0d ∨ h = 0x0c) text,
    styleEndCand text c,
    (let d := dollarStart text
     some ⟨d, d, Except.ok c, text.take d⟩) ]

/-- `_TRANSITIONS[STATE_CSSSQ_STR]` (no final self transition). -/
def candsCssSqStr (text : List Nat) (c : Ctx) : List (Option Cand) :=
  [ charToStateCand (fun h => h = 0x27) State.Css text c,
    escapePairCand 0x27 text c,
    cssUrlPartCand text c,
    charToErrorCand (fun h => h = 0x0a ∨ h = 0x0d ∨ h = 0x0c) text,
    styleEndCand text c ]

/-- `_TRANSITIONS[STATE_CSS_URL]`. -/
def candsCssUrl (text : List Nat) (c : Ctx) : List (Option Cand) :=
  [ charToStateCand (fun h => h = 0x5c ∨ h = 0x29 ∨ isPySpace h)
      State.Css text c,
    cssUrlPartCand text c,
    -- _TransitionToState(r'[\"\']', STATE_ERROR): unlike the other
    -- error transitions this one keeps the non-state bits
    charToStateCand (fun h => h = 0x22 ∨ h = 0x27) State.Error text c,
    styleEndCand text c ]

/-- `_TRANSITIONS[STATE_CSSSQ_URL]`. -/
def candsCssSqUrl (text : List Nat) (c : Ctx) : List (Option Cand) :=
  [ charToStateCand (fun h => h = 0x27) State.Css text c,
    cssUrlPartCand text c,
    escapePairCand 0x27 text c,
    charToErrorCand (fun h => h = 0x0a ∨ h = 0x0d ∨ h = 0x0c) text,
    styleEndCand text c ]

/-- `_TRANSITIONS[STATE_CSSDQ_URL]`. -/
def candsCssDqUrl (text : List Nat) (c : Ctx) : List (Option Cand) :=
  [ charToStateCand (fun h => h = 0x22) State.Css text c,
    cssUrlPartCand text c,
    escapePairCand 0x22 text c,
    charToErrorCand (fun h => h = 0x0a ∨ h = 0x0d ∨ h = 0x0c) text,
    styleEndCand text c ]

/-- True iff the text begins the close `"/script"` (case-insensitively):
the negative lookahead `(?!\/script)` after a `<`. -/
def scriptCloseAfter (t : List Nat) : Bool :=
  (nats "/script").isPrefixOf (pyLower t)

/-- One unit of the `_JsPuncTransition` pattern
`(?i)(?:[^<\/\"\'\s\\]|<(?!\/script))+` at the head of the text. -/
def jsPuncUnit (s : List Nat) : Bool :=
  match s with
  | h :: rest =>
    (!(h == 0x3c || h == 0x2f || h == 0x22 || h == 0x27 || h == 0x5c) &&
     !isPySpace h) ||
    (h == 0x3c && !scriptCloseAfter rest)
  | [] => false

/-- Length of the maximal run of `_JsPuncTransition` units. -/
def jsPuncRun : List Nat → Nat
  | [] => 0
  | h :: rest => if jsPuncUnit (h :: rest) then 1 + jsPuncRun rest else 0

/-- `_TRANSITIONS[STATE_JS]`. -/
def candsJs (text : List Nat) (c : Ctx) : List (Option Cand) :=
  [ litNormToStateCand (nats "/*") State.JsBlockCmt (nats " ") text c,
    litNormToStateCand (nats "//") State.JsLineCmt [] text c,
    -- _TransitionToJsString(r'["]', STATE_JSDQ_STR):
    -- (prior & (ELEMENT_ALL | ATTR_ALL | DELIM_ALL)) | state
    (match searchIdx (fun s => s.head? == some 0x22) text with
     | some i =>
       some ⟨i, i + 1, Except.ok
         { textCtx with
           state := State.JsDqStr
           element := c.element
           attr := c.attr
           delim := c.delim },
         text.take (i + 1)⟩
     | none => none),
    (match searchIdx (fun s => s.head? == some 0x27) text with
     | some i =>
       some ⟨i, i + 1, Except.ok
         { textCtx with
           state := State.JsSqStr
           element := c.element
           attr := c.attr
           delim := c.delim },
         text.take (i + 1)⟩
     | none => none),
    -- _SlashTransition(r'/'): by the JS_CTX bits; raises when unknown
    (match searchIdx (fun s => s.head? == some 0x2f) text with
     | some i =>
       let nxt : Except (List Nat) Ctx :=
         if c.jsCtx = JsCtxT.DivOp then
           Except.ok { c with state := State.Js, jsCtx := JsCtxT.Regex }
         else if c.jsCtx = JsCtxT.Regex then
           Except.ok
             { c with
               state := State.JsRegexp
               jsCtx := JsCtxT.NoneJsCtx }
         else
           Except.error (nats
             "Ambiguous / could be a RegExp or division.  Please add parentheses before `/`")
       some ⟨i, i + 1, nxt, text.take (i + 1)⟩
     | none => none),
    -- _JsPuncTransition
    (match searchIdx jsPuncUnit text with
     | some i =>
       let n := jsPuncRun (text.drop i)
       let group0 := (text.drop i).take n
       some ⟨i, i + n, Except.ok
         { c with jsCtx :=
             if is_regex_preceder group0 then JsCtxT.Regex
             else JsCtxT.DivOp },
         text.take (i + n)⟩
     | none => none),
    -- _TransitionToSelf(r'\s+')
    (match searchIdx (fun s =>
        match s.head? with | some h => isPySpace h | none => false) text with
     | some i =>
       let n := runLen isPySpace (text.drop i)
       some ⟨i, i + n, Except.ok c, text.take (i + n)⟩
     | none => none),
    scriptEndCand text c ]

/-- `_NormalizeJsBlockCommentTransition.raw_text`: `'\n'` when the
consumed text contains a JS line terminator, else the empty string. -/
def jsBlockCmtTxt (consumed : List Nat) : List Nat :=
  if consumed.any isNls then nats "\n" else []

/-- `_TRANSITIONS[STATE_JSBLOCK_CMT]`. -/
def candsJsBlockCmt (text : List Nat) (c : Ctx) : List (Option Cand) :=
  [ -- _NormalizeJsBlockCommentTransition(_TransitionToState(r'[*]/',
    --                                                       STATE_JS))
    (match searchIdx (fun s => (nats "*/").isPrefixOf s) text with
     | some i =>
       some ⟨i, i + 2, Except.ok (toStateCtx c State.Js),
         jsBlockCmtTxt (text.take (i + 2))⟩
     | none => none),
    scriptEndNormCand text c,
    (let d := dollarStart text
     some ⟨d, d, Except.ok c, jsBlockCmtTxt (text.take d)⟩) ]

/-- `_TRANSITIONS[STATE_JSLINE_CMT]`. -/
def candsJsLineCmt (text : List Nat) (c : Ctx) : List (Option Cand) :=
  [ -- _NormalizeTransition(_TransitionToState("[NLS]", STATE_JS),
    --                      "\n", True)
    (match searchIdx (fun s =>
        match s.head? with | some h => isNls h | none => false) text with
     | some i =>
       some ⟨i, i + 1, Except.ok (toStateCtx c State.Js), nats "\n"⟩
     | none => none),
    scriptEndNormCand text c,
    (let d := dollarStart text
     some ⟨d, d, Except.ok c, []⟩) ]

/-- `_DivPreceder` candidate on a one-character class:
`(prior & ~(STATE_ALL | JS_CTX_ALL)) | STATE_JS | JS_CTX_DIV_OP`. -/
def divPrecederCand (q : Nat) (text : List Nat) (c : Ctx) : Option Cand :=
  match searchIdx (fun s => s.head? == some q) text with
  | some i =>
    some ⟨i, i + 1,
      Except.ok { c with state := State.Js, jsCtx := JsCtxT.DivOp },
      text.take (i + 1)⟩
  | none => none

/-- The length of one unit of the JS string-body self transition for
quote `q`: a non-special character, a backslash escape or line
continuation, or a `<` that does not close the script element. -/
def jsStrUnitLen (q : Nat) (s : List Nat) : Option Nat :=
  match s with
  | [] => none
  | h :: rest =>
    if h = q then none
    else if h = 0x5c then
      match rest with
      | [] => none
      | b :: r2 =>
        if b = 0x0d then if r2.head? = some 0x0a then some 3 else some 2
        else if b = 0x3c then
          if scriptCloseAfter r2 then none else some 2
        else some 2
    else if h = 0x3c then
      if scriptCloseAfter rest then none else some 1
    else if isNls h then none
    else some 1

/-- The total greedy run of JS string-body units (fuelled by the text
length; every unit is nonempty). -/
def jsStrRunF (q : Nat) : Nat → List Nat → Nat
  | 0, _ => 0
  | fuel + 1, s =>
    match jsStrUnitLen q s with
    | some k => k + jsStrRunF q fuel (s.drop k)
    | none => 0

/-- `_TRANSITIONS[STATE_JSDQ_STR]` / `_TRANSITIONS[STATE_JSSQ_STR]`,
parameterized by the quote. -/
def candsJsStr (q : Nat) (text : List Nat) (c : Ctx) :
    List (Option Cand) :=
  [ divPrecederCand q text c,
    scriptEndCand text c,
    (let n := jsStrRunF q text.length text
     if n = 0 then none else some ⟨0, n, Except.ok c, text.take n⟩) ]

/-- Units of the `STATE_JSREGEXP` charset body
`(?:[^\]\\<NLS]|\\[^NLS])*`: the greedy run length (fuelled by the
text length; every unit is nonempty). -/
def jsRegexpCharsetRun : Nat → List Nat → Nat
  | 0, _ => 0
  | fuel + 1, s =>
    match s with
    | [] => 0
    | h :: rest =>
      if ¬ (h = 0x5d ∨ h = 0x5c ∨ h = 0x3c ∨ isNls h) then
        1 + jsRegexpCharsetRun fuel rest
      else if h = 0x5c then
        match rest.head? with
        | some b =>
          if isNls b then 0 else 2 + jsRegexpCharsetRun fuel (rest.drop 1)
        | none => 0
      else 0

/-- The length of one unit of the `STATE_JSREGEXP` self transition: a
non-special character, an escape, a non-closing `<`, or a `[...` charset
opening whose body extends as far as charset units reach (the pattern as
written requires no closing bracket: its alternation binds the `\]` to
the last alternative). -/
def jsRegexpUnitLen (s : List Nat) : Option Nat :=
  match s with
  | [] => none
  | h :: rest =>
    if ¬ (h = 0x5b ∨ h = 0x5c ∨ h = 0x2f ∨ h = 0x3c ∨ isNls h) then some 1
    else if h = 0x5c then
      match rest.head? with
      | some b => if isNls b then none else some 2
      | none => none
    else if h = 0x3c then
      if scriptCloseAfter rest then none else some 1
    else if h = 0x5b then
      some (1 + jsRegexpCharsetRun rest.length rest)
    else none

/-- The total greedy run of `STATE_JSREGEXP` units. -/
def jsRegexpRunF : Nat → List Nat → Nat
  | 0, _ => 0
  | fuel + 1, s =>
    match jsRegexpUnitLen s with
    | some k => k + jsRegexpRunF fuel (s.drop k)
    | none => 0

/-- `_TRANSITIONS[STATE_JSREGEXP]`. -/
def candsJsRegexp (text : List Nat) (c : Ctx) : List (Option Cand) :=
  [ divPrecederCand 0x2f text c,
    scriptEndCand text c,
    (let n := jsRegexpRunF text.length text
     if n = 0 then none else some ⟨0, n, Except.ok c, text.take n⟩) ]

/-- `_TRANSITIONS[STATE_URL]`. -/
def candsUrl (text : List Nat) (c : Ctx) : List (Option Cand) :=
  [ urlPartCand text c ]

/-- `_TRANSITIONS[state_of(context)]`, as candidate lists. -/
def transitionCands (text : List Nat) (c : Ctx) : List (Option Cand) :=
  match c.state with
  | State.Text => candsText text c
  | State.Rcdata => candsRcdata text c
  | State.HtmlBeforeTagName => candsHtmlBeforeTagName text c
  | State.TagName => candsTagName text c
  | State.Tag => candsTag text c
  | State.AttrName => candsAttrName text c
  | State.AfterName => candsAfterName text c
  | State.BeforeValue => candsBeforeValue text c
  | State.HtmlCmt => candsHtmlCmt text c
  | State.Attr => candsAttr text c
  | State.Css => candsCss text c
  | State.CssBlockCmt => candsCssBlockCmt text c
  | State.CssLineCmt => candsCssLineCmt text c
  | State.CssDqStr => candsCssDqStr text c
  | State.CssSqStr => candsCssSqStr text c
  | State.CssUrl => candsCssUrl text c
  | State.CssSqUrl => candsCssSqUrl text c
  | State.CssDqUrl => candsCssDqUrl text c
  | State.Js => candsJs text c
  | State.JsBlockCmt => candsJsBlockCmt text c
  | State.JsLineCmt => candsJsLineCmt text c
  | State.JsDqStr => candsJsStr 0x22 text c
  | State.JsSqStr => candsJsStr 0x27 text c
  | State.JsRegexp => candsJsRegexp text c
  | State.Url => candsUrl text c
  | State.Error => []

/-- `context_update._process_next_token(text, context)`: consume a
portion of the text and compute the next context.  Returns
`(num_consumed, next context, replacement text)`, or the message of the
exception raised (the ambiguous-slash raise from `compute_next_context`,
or the `'inf loop.'` guard; the source formats the offending text and
context into the latter message). -/
def _process_next_token (text : List Nat) (c : Ctx) :
    Except (List Nat) (Nat × Ctx × List Nat) :=
  if c.state = State.Error then Except.ok (text.length, c, text)
  else
    match pickCand (transitionCands text c) with
    | some k =>
      match k.next with
      | Except.error e => Except.error e
      | Except.ok c' =>
        if k.stop = 0 ∧ c'.state = c.state then
          Except.error (nats "inf loop.")
        else Except.ok (k.stop, c', k.txt)
    | none =>
      if text.length = 0 ∧ State.Error = c.state then
        Except.error (nats "inf loop.")
      else Except.ok (text.length, errorCtx, text)

/-- `context.DELIM_TEXT`: the text used to delimit attributes of each
delimiter type (`DELIM_NONE` has no entry in the source dict and is never
looked up). -/
def DELIM_TEXT (d : DelimT) : List Nat :=
  match d with
  | DelimT.DoubleQuote => [0x22]
  | DelimT.SingleQuote => [0x27]
  | _ => []

/-- `context_update._end_of_attr_value(raw_text, delim)`: `none` for
`-1` (not in an attribute); otherwise the end of the attribute value in
`raw_text`, or its length when the end does not appear. -/
def _end_of_attr_value (raw_text : List Nat) (delim : DelimT) :
    Option Nat :=
  match delim with
  | DelimT.NoneDelim => none
  | DelimT.SpaceOrTagEnd =>
    match raw_text.findIdx? (fun d => isPySpace d ∨ d = 0x3e) with
    | some i => some i
    | none => some raw_text.length
  | d =>
    let quote := strFind raw_text (DELIM_TEXT d)
    if quote ≥ 0 then some quote.toNat else some raw_text.length

/-- The numeric value of a run of hex digits. -/
def hexRunVal (l : List Nat) : Nat :=
  l.foldl (fun a d =>
    a * 16 + (if d ≤ 0x39 then d - 0x30
              else if d ≤ 0x46 then d - 0x37 else d - 0x57)) 0

/-- The numeric value of a run of decimal digits. -/
def decRunVal (l : List Nat) : Nat :=
  l.foldl (fun a d => a * 10 + (d - 0x30)) 0

/-- `html._unichr(codepoint)`: one code point below 0x10000, and a
UTF-16 surrogate pair above; `unichr` itself raises a `ValueError` when
the computed high surrogate exceeds 0x10FFFF. -/
def _unichr (cp : Nat) : Except (List Nat) (List Nat) :=
  if cp < 0x10000 then Except.ok [cp]
  else
    let cp2 := cp - 0x10000
    let hi := 0xd800 ||| (cp2 >>> 10)
    if 0x10FFFF < hi then
      Except.error (nats "unichr() arg not in range(0x110000)")
    else Except.ok [hi, 0xdc00 ||| (cp2 &&& 0x3ff)]

/-- `[a-zA-Z0-9]`. -/
def isAsciiAlnum (c : Nat) : Bool := isAsciiLetter c ∨ isAsciiDigit c

/-- The substitution scan of `html.unescape_html`
(`&(?:#(?:[xX]([0-9A-Fa-f]+);|([0-9]+);)|([a-zA-Z0-9]+;?))` replaced by
`_decode_html_entity`): numeric character references decode through
`_unichr`; named references look up `_ENTITY_NAME_TO_EXPANSION`, which
stays empty because no `entities.inc` file exists in the source tree, so
they fall back to the matched text unchanged.  Fuelled by the text
length; every step consumes at least one character. -/
def unescapeHtmlF : Nat → List Nat → Except (List Nat) (List Nat)
  | 0, _ => Except.ok []
  | _ + 1, [] => Except.ok []
  | fuel + 1, ch :: rest =>
    if ch ≠ 0x26 then (unescapeHtmlF fuel rest).map (ch :: ·)
    else
      match rest with
      | 0x23 :: r2 =>
        let hexCase : Option (Nat × List Nat) :=
          match r2 with
          | x :: r3 =>
            if x = 0x78 ∨ x = 0x58 then
              let h := r3.takeWhile isHexDigit
              if ¬ h.isEmpty ∧ (r3.drop h.length).head? = some 0x3b then
                some (hexRunVal h, r3.drop (h.length + 1))
              else none
            else none
          | [] => none
        let decCase : Option (Nat × List Nat) :=
          let d := r2.takeWhile isAsciiDigit
          if ¬ d.isEmpty ∧ (r2.drop d.length).head? = some 0x3b then
            some (decRunVal d, r2.drop (d.length + 1))
          else none
        (match hexCase with
         | some (v, after) =>
           match _unichr v with
           | Except.error e => Except.error e
           | Except.ok ex => (unescapeHtmlF fuel after).map (ex ++ ·)
         | none =>
           match decCase with
           | some (v, after) =>
             match _unichr v with
             | Except.error e => Except.error e
             | Except.ok ex => (unescapeHtmlF fuel after).map (ex ++ ·)
           | none => (unescapeHtmlF fuel rest).map (0x26 :: ·))
      | _ =>
        let a := rest.takeWhile isAsciiAlnum
        if a.isEmpty then (unescapeHtmlF fuel rest).map (0x26 :: ·)
        else
          let semi : Nat :=
            if (rest.drop a.length).head? = some 0x3b then 1 else 0
          (unescapeHtmlF fuel (rest.drop (a.length + semi))).map
            (fun t => 0x26 :: a ++ (if semi = 1 then [0x3b] else []) ++ t)

/-- `html.unescape_html(html)`: the fast path returns text without `&`
unchanged; otherwise the substitution scan runs. -/
def unescape_html (t : List Nat) : Except (List Nat) (List Nat) :=
  if strFind t [0x26] < 0 then Except.ok t
  else unescapeHtmlF t.length t

/-- The inner loop of `process_raw_text` over a decoded attribute value:
each consumed replacement is re-escaped by the chosen escaper and
appended.  `none` means the iteration fuel ran out. -/
def attrValueLoopF (esc : List Nat → List Nat) :
    Nat → List Nat → Ctx →
    Option (Except (List Nat) (Ctx × List Nat))
  | 0, tail, c =>
    if tail.isEmpty then some (Except.ok (c, [])) else none
  | fuel + 1, tail, c =>
    if tail.isEmpty then some (Except.ok (c, []))
    else
      match _process_next_token tail c with
      | Except.error e => some (Except.error e)
      | Except.ok (n, c', repl) =>
        match attrValueLoopF esc fuel (tail.drop n) c' with
        | none => none
        | some (Except.error e) => some (Except.error e)
        | some (Except.ok (cf, acc)) =>
          some (Except.ok (cf, esc repl ++ acc))

/-- The loop body of `context_update.process_raw_text`, fuelled by the
iteration count (`none` means the fuel ran out).  The quadruple is
(end context, normalized text or `None` on error, context before the
error or `None`, unprocessed suffix or `None`); a raise from
`_process_next_token` or `unescape_html`, or the dead illegal-state
raise of the unterminated-attribute branch, propagates as the error of
the outer `Except`. -/
def processRawTextF :
    Nat → List Nat → Ctx →
    Option (Except (List Nat)
      (Ctx × Option (List Nat) × Option Ctx × Option (List Nat)))
  | 0, raw, c =>
    if raw.isEmpty then some (Except.ok (c, some [], none, none)) else none
  | fuel + 1, raw, c =>
    if raw.isEmpty then some (Except.ok (c, some [], none, none))
    else
      let delim := c.delim
      let step : Except (List Nat) (Ctx × List Nat × List Nat) :=
        match _end_of_attr_value raw delim with
        | none =>
          -- Outside an attribute value.
          match _process_next_token raw c with
          | Except.error e => Except.error e
          | Except.ok (n, c', repl) =>
            Except.ok (c', raw.drop n,
              repl ++
                (if c'.delim = DelimT.SpaceOrTagEnd then [0x22] else []))
        | some ave =>
          -- Inside an attribute value: decode up to the end and recurse
          -- on the decoded value.
          let attr_end : Option Nat :=
            if ave < raw.length then some (ave + (DELIM_TEXT delim).length)
            else none
          match unescape_html (raw.take ave) with
          | Except.error e => Except.error e
          | Except.ok attr_value_tail =>
            let escaper :=
              if delim = DelimT.SingleQuote then escape_html_sq_only
              else escape_html_dq_only
            match attrValueLoopF escaper (attr_value_tail.length + 2)
                attr_value_tail c with
            | none =>
              -- (fuel exhaustion surfaces as the illegal-state raise,
              -- which is otherwise unreachable)
              Except.error (nats "illegal state")
            | some (Except.error e) => Except.error e
            | some (Except.ok (c1, acc)) =>
              match attr_end with
              | some ae =>
                Except.ok
                  ({ textCtx with
                     state := State.Tag
                     element := c1.element },
                   raw.drop ae,
                   acc ++
                     (if delim = DelimT.SingleQuote then [0x27]
                      else [0x22]))
              | none =>
                if ave ≠ raw.length then
                  Except.error (nats "illegal state")
                else Except.ok (c1, [], acc)
      match step with
      | Except.error e => some (Except.error e)
      | Except.ok (c', raw', out1) =>
        if is_error_context c' then
          some (Except.ok (c', none, some c, some raw))
        else
          match processRawTextF fuel raw' c' with
          | none => none
          | some (Except.error e) => some (Except.error e)
          | some (Except.ok (cf, nf, ec, up)) =>
            some (Except.ok (cf, nf.map (out1 ++ ·), ec, up))

/-- `context_update.process_raw_text(raw_text, context)` at a canonical
iteration fuel: between any two characters consumed the scanner passes
through at most a bounded chain of zero-width transitions, so
`4*len + 8` iterations always suffice. -/
def process_raw_text (raw_text : List Nat) (c : Ctx) :
    Option (Except (List Nat)
      (Ctx × Option (List Nat) × Option Ctx × Option (List Nat))) :=
  processRawTextF (4 * raw_text.length + 8) raw_text c


/-! ## The template analyzer (`autoesc/escape.py`, `template.py`)

Template bodies are the `template.py` node classes; `reduce_traces` only
visits statements, so expression children (which the analysis never
descends into) are omitted.  `_Analyzer`'s `interps`, `text_values` and
`calls` side tables are keyed by node object identity and only feed the
rewriter's output; they do not influence contexts, error recording or
control flow and so are not carried.  Error messages keep the source's
wording but drop the `debug.context_to_string` renderings interpolated
into them.
-/

/-- A template body: `template.py`'s statement nodes (`_TextNode`,
`_InterpolationNode`, `_TemplateNode`, `_IfNode`, `_WithNode`,
`_RangeNode`, `_ListNode`) with their `loc` strings. -/
inductive TNode where
  | text (loc : List Nat) (s : List Nat)
  | interp (loc : List Nat) (pipeline : List String)
  | call (loc : List Nat) (callee : String)
  | ifN (loc : List Nat) (body : TNode) (els : Option TNode)
  | withN (loc : List Nat) (body : TNode) (els : Option TNode)
  | rangeN (loc : List Nat) (body : TNode) (els : Option TNode)
  | listN (loc : List Nat) (elems : List TNode)
  deriving Repr

/-- `escape._Analyzer`'s analysis state: the template map, the start
state, the `(name, start_context) -> (body, end_context)` table, the
called set (as a list), and the recorded error messages. -/
structure Analyzer where
  name_to_body : List (String × TNode)
  start_state : Ctx
  templates : List ((String × Ctx) × (TNode × Ctx))
  called : List (String × Ctx)
  errors : List (List Nat)
  deriving Repr

/-- Python `dict.get`. -/
def lookupA {α β : Type} [DecidableEq α] (l : List (α × β)) (k : α) :
    Option β :=
  match l.find? (fun p => p.1 = k) with
  | some p => some p.2
  | none => none

/-- Python `dict[k] = v`: replace the binding in place or append it. -/
def setA {α β : Type} [DecidableEq α] (l : List (α × β)) (k : α) (v : β) :
    List (α × β) :=
  if (l.find? (fun p => p.1 = k)).isSome then
    l.map (fun p => if p.1 = k then (k, v) else p)
  else l ++ [(k, v)]

/-- `_copyinto` on dicts: every binding of the source is written into
the destination. -/
def mergeA {α β : Type} [DecidableEq α] (dst src : List (α × β)) :
    List (α × β) :=
  src.foldl (fun d p => setA d p.1 p.2) dst

/-- `_Analyzer.error(debug_hint, msg)`: prefix a truthy hint and append
the message. -/
def recordError (a : Analyzer) (hint : Option (List Nat))
    (msg : List Nat) : Analyzer :=
  let m :=
    match hint with
    | some h => if h.isEmpty then msg else h ++ nats ": " ++ msg
    | none => msg
  { a with errors := a.errors ++ [m] }

/-- `_Analyzer.join` on the two-state tuples the block nodes pass:
`functools.reduce(context_union, states)`, reporting an
incompatible-branches error only when no input state already was an
error. -/
def joinStates (a : Analyzer) (hint : Option (List Nat)) (s1 s2 : Ctx) :
    Ctx × Analyzer :=
  let out := context_union s1 s2
  if out.state = State.Error then
    if s1.state = State.Error ∨ s2.state = State.Error then (out, a)
    else (out,
      recordError a hint (nats "branches end in incompatible contexts"))
  else (out, a)

/-- `_Analyzer.no_steady_state` on the two-state tuples `_RangeNode`
passes: an already-error state is returned as is, otherwise the
loop-switches-between-states error is recorded. -/
def noSteadyState (a : Analyzer) (hint : Option (List Nat))
    (s1 s2 : Ctx) : Ctx × Analyzer :=
  if s1.state = State.Error then (s1, a)
  else if s2.state = State.Error then (s2, a)
  else (errorCtx, recordError a hint (nats "loop switches between states"))

/-- The analyzer's mutually recursive entry points, as requests to one
fuelled engine: `reduce_traces` on a node or a node list,
`external_call`, `_compute_end_context` and `_escape_template_body`
(with `_escape_body_conditionally` inlined into the latter, its only
call site). -/
inductive AReq where
  | rt (node : TNode) (st : Ctx) (a : Analyzer)
  | rtList (nodes : List TNode) (st : Ctx) (a : Analyzer)
  | ec (name : String) (st : Ctx) (hint : Option (List Nat)) (a : Analyzer)
  | cec (name : String) (st : Ctx) (body : TNode)
      (hint : Option (List Nat)) (a : Analyzer)
  | etb (name : String) (st : Ctx) (assumed : Ctx) (body : TNode)
      (a : Analyzer)

/-- Engine results: a context and the updated analyzer, plus (for
`_escape_template_body`) the problems list, `none` on success. -/
inductive ARep where
  | ca (e : Ctx) (a : Analyzer)
  | cpa (e : Ctx) (problems : Option (List (List Nat))) (a : Analyzer)

/-- The analyzer engine, fuelled (`none` means the fuel ran out; the
recursion through the template graph is unbounded in general).  The
`step` logic of `_Analyzer.step` is inlined at the leaf nodes.
Modelled from the spec: the text-node step's
`except context_update.ContextUpdateFailure` clause names a class no
module under `src/` defines; the spec's error taxonomy treats scanner
failures as recorded analysis errors, so a scanner raise records the
message and yields the Error state here. -/
def engine : Nat → AReq → Option ARep
  | 0, _ => none
  | fuel + 1, req =>
    match req with
    | AReq.rt node st a =>
      match node with
      | TNode.text loc s =>
        -- _Analyzer.step on a to_raw_content node
        if st.state = State.Error then some (ARep.ca st a)
        else
          match process_raw_text s st with
          | none => none
          | some (Except.error emsg) =>
            some (ARep.ca errorCtx (recordError a (some loc) emsg))
          | some (Except.ok (e, _new_content, _error_ctx, error_text)) =>
            if e.state = State.Error then
              some (ARep.ca e (recordError a (some loc)
                (nats "bad content: `" ++
                  (match error_text with | some t => t | none => []) ++
                  nats "`")))
            else some (ARep.ca e a)
      | TNode.interp loc _pipeline =>
        -- _Analyzer.step on a to_pipeline node
        if st.state = State.Error then some (ARep.ca st a)
        else
          match esc_mode_for_hole st with
          | (e, _esc_modes, problem) =>
            if e.state = State.Error then
              match problem with
              | none =>
                some (ARep.ca e (recordError a (some loc)
                  (nats "hole cannot appear in the start context")))
              | some p => some (ARep.ca e (recordError a (some loc) (nats p)))
            else some (ARep.ca e a)
      | TNode.call loc callee =>
        -- _Analyzer.step on a to_callee node
        if st.state = State.Error then some (ARep.ca st a)
        else engine fuel (AReq.ec callee st (some loc) a)
      | TNode.ifN loc body els =>
        match engine fuel (AReq.rt body st a) with
        | some (ARep.ca thenEnd a1) =>
          (match els with
           | some e =>
             match engine fuel (AReq.rt e st a1) with
             | some (ARep.ca elseEnd a2) =>
               let r := joinStates a2 (some loc) thenEnd elseEnd
               some (ARep.ca r.1 r.2)
             | _ => none
           | none =>
             let r := joinStates a1 (some loc) thenEnd st
             some (ARep.ca r.1 r.2))
        | _ => none
      | TNode.withN loc body els =>
        match engine fuel (AReq.rt body st a) with
        | some (ARep.ca withEnd a1) =>
          (match els with
           | some e =>
             match engine fuel (AReq.rt e st a1) with
             | some (ARep.ca elseEnd a2) =>
               let r := joinStates a2 (some loc) withEnd elseEnd
               some (ARep.ca r.1 r.2)
             | _ => none
           | none =>
             let r := joinStates a1 (some loc) withEnd st
             some (ARep.ca r.1 r.2))
        | _ => none
      | TNode.rangeN loc body els =>
        let zero :=
          match els with
          | some e => engine fuel (AReq.rt e st a)
          | none => some (ARep.ca st a)
        match zero with
        | some (ARep.ca zeroEnd a1) =>
          (match engine fuel (AReq.rt body st a1) with
           | some (ARep.ca onceEnd a2) =>
             match engine fuel (AReq.rt body onceEnd a2) with
             | some (ARep.ca twiceEnd a3) =>
               if onceEnd ≠ twiceEnd then
                 let r := noSteadyState a3 (some loc) onceEnd twiceEnd
                 some (ARep.ca r.1 r.2)
               else
                 let r := joinStates a3 (some loc) zeroEnd onceEnd
                 some (ARep.ca r.1 r.2)
             | _ => none
           | _ => none)
        | _ => none
      | TNode.listN _loc elems => engine fuel (AReq.rtList elems st a)
    | AReq.rtList nodes st a =>
      match nodes with
      | [] => some (ARep.ca st a)
      | n :: rest =>
        match engine fuel (AReq.rt n st a) with
        | some (ARep.ca e a1) => engine fuel (AReq.rtList rest e a1)
        | _ => none
    | AReq.ec name st hint a =>
      -- _Analyzer.external_call
      let key := (name, st)
      let a1 := { a with called := a.called ++ [key] }
      match lookupA a1.templates key with
      | some (_, endContext) => some (ARep.ca endContext a1)
      | none =>
        match lookupA a1.name_to_body name with
        | none =>
          some (ARep.ca errorCtx (recordError a1 hint
            (nats "no such template " ++ nats name)))
        | some body =>
          -- body.clone() for a non-start context is the identity on
          -- the value-level tree
          engine fuel (AReq.cec name st body hint a1)
    | AReq.cec name st body hint a =>
      -- _Analyzer._compute_end_context
      match engine fuel (AReq.etb name st st body a) with
      | some (ARep.cpa ctx problems a1) =>
        (match problems with
         | none => some (ARep.ca ctx a1)
         | some ps =>
           match engine fuel (AReq.etb name st ctx body a1) with
           | some (ARep.cpa ctx2 problems2 a2) =>
             (match problems2 with
              | none => some (ARep.ca ctx2 a2)
              | some _ =>
                let a3 :=
                  if ctx.state ≠ State.Error then
                    recordError a2 hint
                      (nats "cannot compute output context for template " ++
                        nats name)
                  else a2
                some (ARep.ca errorCtx
                  { a3 with errors := a3.errors ++ ps }))
           | _ => none)
      | _ => none
    | AReq.etb name st assumed body a =>
      -- _Analyzer._escape_template_body, with
      -- _escape_body_conditionally inlined
      let key := (name, st)
      let a1 := { a with templates := setA a.templates key (body, assumed) }
      let derived : Analyzer :=
        { name_to_body := a1.name_to_body
          start_state := a1.start_state
          templates := a1.templates
          called := []
          errors := [] }
      match engine fuel (AReq.rt body st derived) with
      | some (ARep.ca e d) =>
        if ¬ (e.state = State.Error ∨ (key ∈ d.called ∧ assumed ≠ e)) then
          let a2 :=
            { a1 with
              templates := setA (mergeA a1.templates d.templates) key
                (body, e)
              called := a1.called ++ d.called
              errors := a1.errors ++ d.errors }
          some (ARep.cpa e none a2)
        else
          some (ARep.cpa e (some d.errors)
            { a1 with templates := setA a1.templates key (body, errorCtx) })
      | _ => none

/-- A fresh `_Analyzer(name_to_body, start_state)`. -/
def mkAnalyzer (n2b : List (String × TNode)) (start : Ctx) : Analyzer :=
  { name_to_body := n2b
    start_state := start
    templates := []
    called := []
    errors := [] }

/-- `'\n'.join(...)`. -/
def joinNl (es : List (List Nat)) : List Nat :=
  match es with
  | [] => []
  | e :: rest => rest.foldl (fun acc m => acc ++ [0x0a] ++ m) e

/-- The public-template loop of `escape.escape`: each public name is
typed with `external_call`; an error end, or an end context different
from the start state (which records the does-not-start-and-end error),
sets `has_errors`. -/
def escapeLoop (fuel : Nat) :
    List String → Ctx → Bool → Analyzer → Option (Bool × Analyzer)
  | [], _, he, a => some (he, a)
  | name :: rest, start, he, a =>
    match engine fuel (AReq.ec name start none a) with
    | some (ARep.ca e a1) =>
      if e.state = State.Error then escapeLoop fuel rest start true a1
      else if e ≠ start then
        escapeLoop fuel rest start true
          (recordError a1 none
            (nats "template " ++ nats name ++
              nats " does not start and end in the same context"))
      else escapeLoop fuel rest start he a1
    | _ => none

/-- `escape.escape(name_to_body, public_template_names, start_state)`:
`Except.error` is the `raise EscapeError('\n'.join(analyzer.errors))`
path, on which the rewriter is never invoked and `name_to_body` is
never written (the rewriter is its only mutator); `Except.ok` carries
the analyzer on which `analyzer.rewrite()` is then invoked. -/
def escape (fuel : Nat) (name_to_body : List (String × TNode))
    (public_template_names : List String) (start_state : Ctx) :
    Option (Except (List Nat) Analyzer) :=
  match escapeLoop fuel public_template_names start_state false
      (mkAnalyzer name_to_body start_state) with
  | none => none
  | some (has_errors, a) =>
    if has_errors then some (Except.error (joinNl a.errors))
    else some (Except.ok a)


/-- A templates-table entry is benign when its key context is the Error
state or its end context is not: a "dirty" entry (non-error key, error
end) silently answers `external_call` with an error nobody reported. -/
def entryOk (p : (String × Ctx) × (TNode × Ctx)) : Prop :=
  p.1.2.state = State.Error ∨ p.2.2.state ≠ State.Error

/-- Every entry is benign except possibly at the keys in `K` (the
in-progress speculation keys). -/
def cleanX (K : List (String × Ctx))
    (ts : List ((String × Ctx) × (TNode × Ctx))) : Prop :=
  ∀ p ∈ ts, p.1 ∈ K ∨ entryOk p

/-- Error monotonicity: a call only appends error messages, and appends
any only when it ends in the Error state. -/
def MOK (a a' : Analyzer) (e : Ctx) : Prop :=
  ∃ new, a'.errors = a.errors ++ new ∧
    (new ≠ [] → e.state = State.Error)

/-- Cleanliness preservation on non-error completions. -/
def COK (a a' : Analyzer) (e : Ctx) : Prop :=
  ∀ K, a.errors = [] → cleanX K a.templates → a'.errors = [] →
    e.state ≠ State.Error → cleanX K a'.templates

/-- Error completions from a non-error start on a clean analyzer always
record a message. -/
def NOK (a a' : Analyzer) (st e : Ctx) : Prop :=
  a.errors = [] → cleanX [] a.templates → st.state ≠ State.Error →
    e.state = State.Error → a'.errors ≠ []

/-- The trace-reduction invariant bundle: monotonicity, Error-state
absorption, cleanliness preservation, record-on-error. -/
def RTOK (st : Ctx) (a : Analyzer) (e : Ctx) (a' : Analyzer) : Prop :=
  MOK a a' e ∧ (st.state = State.Error → e = st ∧ a' = a) ∧
  COK a a' e ∧ NOK a a' st e

/-- The `external_call` / `_compute_end_context` invariant bundle. -/
def ECOK (st : Ctx) (a : Analyzer) (e : Ctx) (a' : Analyzer) : Prop :=
  MOK a a' e ∧ COK a a' e ∧ NOK a a' st e

/-- The engine invariants, per request kind: monotonicity, Error-state
absorption for trace reduction, cleanliness preservation, and
record-on-error; for `_escape_template_body`, exact error preservation,
the success postconditions, and the failure postconditions. -/
def EngineOK : AReq → ARep → Prop
  | AReq.rt _ st a, ARep.ca e a' => RTOK st a e a'
  | AReq.rtList _ st a, ARep.ca e a' => RTOK st a e a'
  | AReq.ec _ st _ a, ARep.ca e a' => ECOK st a e a'
  | AReq.cec _ st _ _ a, ARep.ca e a' => ECOK st a e a' 
  | AReq.etb name st assumed body a, ARep.cpa e probs a' =>
    a'.errors = a.errors ∧
    (probs = none →
      e.state ≠ State.Error ∧
      (∀ p ∈ a'.templates, p.1 = (name, st) → p.2 = (body, e)) ∧
      (∀ K, a.errors = [] →
        cleanX K (setA a.templates (name, st) (body, assumed)) →
        cleanX K a'.templates)) ∧
    (∀ ps, probs = some ps →
      (∀ p ∈ a'.templates, p.1 = (name, st) ∨ p ∈ a.templates) ∧
      (a.errors = [] → cleanX [] a.templates → st.state ≠ State.Error →
        assumed.state ≠ State.Error → e.state = State.Error → ps ≠ []))
  | _, _ => False

/-! ## Theorems -/

theorem punct_eq_of_ne_bang (c : Nat) (h : c ≠ 0x21) :
    NEXT_JS_CTX_PUNCT c = REGEX_PRECEDER_PUNCT c := by
  simp only [NEXT_JS_CTX_PUNCT, REGEX_PRECEDER_PUNCT, decide_eq_decide]
  omega

theorem last_not_space_of_pyStrip_eq {l : List Nat} {c : Nat}
    (hstrip : pyStrip l = l) (hlast : l.getLast? = some c) :
    isPySpace c = false := by
  by_contra hsp
  rw [Bool.not_eq_false] at hsp
  have hrev : l.reverse.head? = some c := by rw [List.head?_reverse, hlast]
  obtain ⟨rest, hr⟩ : ∃ rest, l.reverse = c :: rest := by
    cases hl : l.reverse with
    | nil => rw [hl] at hrev; exact absurd hrev (by simp)
    | cons a r =>
      rw [hl] at hrev
      simp only [List.head?_cons, Option.some.injEq] at hrev
      exact ⟨r, by rw [hrev]⟩
  -- length bookkeeping: both dropWhile passes must drop nothing
  have hlen : (pyStrip l).length = l.length := by rw [hstrip]
  have h1 : (l.dropWhile isPySpace).length ≤ l.length :=
    (List.dropWhile_suffix isPySpace).length_le
  have h2 : (((l.dropWhile isPySpace).reverse.dropWhile isPySpace)).length
      ≤ (l.dropWhile isPySpace).length := by
    calc (((l.dropWhile isPySpace).reverse.dropWhile isPySpace)).length
        ≤ (l.dropWhile isPySpace).reverse.length :=
          (List.dropWhile_suffix isPySpace).length_le
      _ = (l.dropWhile isPySpace).length := by simp
  have hps : (pyStrip l).length =
      (((l.dropWhile isPySpace).reverse.dropWhile isPySpace)).length := by
    simp [pyStrip]
  have hd : (l.dropWhile isPySpace).length = l.length := by omega
  have hdeq : l.dropWhile isPySpace = l :=
    (List.dropWhile_suffix isPySpace).eq_of_length hd
  have hstrip2 : (l.reverse.dropWhile isPySpace).reverse = l := by
    have := hstrip
    rw [pyStrip, hdeq] at this
    exact this
  have : l.reverse.dropWhile isPySpace = l.reverse := by
    have := congrArg List.reverse hstrip2
    simpa using this
  rw [hr, List.dropWhile_cons, hsp] at this
  simp only [if_true, if_pos trivial] at this
  have : (List.dropWhile isPySpace rest).length = rest.length + 1 := by
    rw [this]; simp
  have hle : (List.dropWhile isPySpace rest).length ≤ rest.length :=
    (List.dropWhile_suffix isPySpace).length_le
  omega

/-- C9: for every nonempty run of JS tokens whose last character is `+` or
`-`, `is_regex_preceder` decides that a following `/` starts a regular
expression iff the length of the maximal trailing run of that repeated
character is odd. -/
theorem C9_trailing_sign_run_parity (l : List Nat) (c : Nat)
    (hlast : l.getLast? = some c) (hc : c = 0x2b ∨ c = 0x2d) :
    (is_regex_preceder l = true ↔
      Odd ((l.reverse.takeWhile (· = c)).length)) := by
  have hrev : l.reverse.head? = some c := by rw [List.head?_reverse, hlast]
  obtain ⟨rest, hr⟩ : ∃ rest, l.reverse = c :: rest := by
    cases hl : l.reverse with
    | nil => rw [hl] at hrev; exact absurd hrev (by simp)
    | cons a r =>
      rw [hl] at hrev
      simp only [List.head?_cons, Option.some.injEq] at hrev
      exact ⟨r, by rw [hrev]⟩
  rw [hr, List.takeWhile_cons]
  simp only [decide_eq_true_eq, if_pos rfl]
  unfold is_regex_preceder
  rw [hr]
  dsimp only
  rw [if_pos hc]
  simp only [decide_eq_true_eq, if_true, List.length_cons, Nat.odd_iff]
  omega

/-- C9 witness: the theorem instantiated at the concrete run `x---`. -/
theorem C9_witness :
    [0x78, 0x2d, 0x2d, 0x2d].getLast? = some 0x2d ∧
    (is_regex_preceder [0x78, 0x2d, 0x2d, 0x2d] = true ↔
      Odd (([0x78, 0x2d, 0x2d, 0x2d].reverse.takeWhile (· = 0x2d)).length)) :=
  ⟨by decide,
   C9_trailing_sign_run_parity [0x78, 0x2d, 0x2d, 0x2d] 0x2d (by decide)
     (Or.inr rfl)⟩

/-- C10 counterexample: on the token run `!` the two deciders disagree:
`next_js_ctx` sets JS_CTX_REGEX while `is_regex_preceder` returns False
(its punctuation character class is missing `!`). -/
theorem C10_counterexample :
    (next_js_ctx (nats "!")
        ⟨State.Js, ElementT.NoneElement, AttrT.NoneAttr, DelimT.NoneDelim,
         JsCtxT.NoneJsCtx, UrlPartT.NoneUrlPart⟩).jsCtx = JsCtxT.Regex ∧
    is_regex_preceder (nats "!") = false := by decide

/-- C10 (amended): for every nonempty run of JS tokens with no leading or
trailing whitespace whose last character is not `!`, the two
regex-vs-division deciders agree: `next_js_ctx` sets the JsCtx sub-field
to Regex exactly when `is_regex_preceder` returns True, and to DivOp
exactly when it returns False. -/
theorem C10_agree_except_bang (l : List Nat) (ctx : Ctx) (c : Nat)
    (hstrip : pyStrip l = l) (hlast : l.getLast? = some c)
    (hc : c ≠ 0x21) :
    (next_js_ctx l ctx).jsCtx =
      (if is_regex_preceder l = true then JsCtxT.Regex else JsCtxT.DivOp)
    := by
  have hrev : l.reverse.head? = some c := by rw [List.head?_reverse, hlast]
  obtain ⟨rest, hr⟩ : ∃ rest, l.reverse = c :: rest := by
    cases hl : l.reverse with
    | nil => rw [hl] at hrev; exact absurd hrev (by simp)
    | cons a r =>
      rw [hl] at hrev
      simp only [List.head?_cons, Option.some.injEq] at hrev
      exact ⟨r, by rw [hrev]⟩
  have hnl : c ≠ 0x0a := by
    have h := last_not_space_of_pyStrip_eq hstrip hlast
    simp only [isPySpace, decide_eq_false_iff_not] at h
    intro hcc
    exact h (by omega)
  have hword : trailingWordRun l = trailingWordRunZ l := by
    unfold trailingWordRun trailingWordRunZ
    rw [hlast]
    simp [hnl]
  unfold next_js_ctx is_regex_preceder
  simp only [hstrip]
  rw [hr]
  dsimp only
  by_cases h1 : (c = 0x2b ∨ c = 0x2d)
  · rw [if_pos h1, if_pos h1]
  · rw [if_neg h1, if_neg h1]
    by_cases h2 : c = 0x2e
    · rw [if_pos h2, if_pos h2]
    · rw [if_neg h2, if_neg h2]
      by_cases h3 : c = 0x2f
      · rw [if_pos h3, if_pos h3]
      · rw [if_neg h3, if_neg h3]
        rw [punct_eq_of_ne_bang c hc]
        by_cases h4 : REGEX_PRECEDER_PUNCT c = true
        · rw [if_pos h4, if_pos h4]
        · rw [if_neg h4, if_neg h4, hword]

/-- C10 witness: the agreement theorem instantiated at the run `x`. -/
theorem C10_witness :
    pyStrip (nats "x") = nats "x" ∧
    (next_js_ctx (nats "x") textCtx).jsCtx =
      (if is_regex_preceder (nats "x") = true then JsCtxT.Regex
       else JsCtxT.DivOp) :=
  ⟨by decide,
   C10_agree_except_bang (nats "x") textCtx 0x78 (by decide) (by decide)
     (by decide)⟩

theorem nudge_idem (c : Ctx) :
    context_before_dynamic_value (context_before_dynamic_value c)
      = context_before_dynamic_value c := by
  rcases c with ⟨s, e, a, d, j, u⟩
  cases s <;> first | rfl | (cases a <;> rfl)

theorem js_diff_symm {a b : Ctx} (h : a = { b with jsCtx := a.jsCtx }) :
    b = { a with jsCtx := b.jsCtx } := by
  rcases a with ⟨s, e, t, d, j, u⟩
  rcases b with ⟨s', e', t', d', j', u'⟩
  simp only [Ctx.mk.injEq, eq_self_iff_true, and_true, true_and] at h ⊢
  exact ⟨h.1.symm, h.2.1.symm, h.2.2.1.symm, h.2.2.2.1.symm,
    h.2.2.2.2.symm⟩

theorem js_diff_result {a b : Ctx} (h : a = { b with jsCtx := a.jsCtx }) :
    ({ a with jsCtx := JsCtxT.Unknown } : Ctx)
      = { b with jsCtx := JsCtxT.Unknown } := by
  rcases a with ⟨s, e, t, d, j, u⟩
  rcases b with ⟨s', e', t', d', j', u'⟩
  simp only [Ctx.mk.injEq, eq_self_iff_true, and_true, true_and] at h ⊢
  exact ⟨h.1, h.2.1, h.2.2.1, h.2.2.2.1, h.2.2.2.2⟩

theorem url_diff_symm {a b : Ctx} (h : a = { b with urlPart := a.urlPart }) :
    b = { a with urlPart := b.urlPart } := by
  rcases a with ⟨s, e, t, d, j, u⟩
  rcases b with ⟨s', e', t', d', j', u'⟩
  simp only [Ctx.mk.injEq, eq_self_iff_true, and_true, true_and] at h ⊢
  exact ⟨h.1.symm, h.2.1.symm, h.2.2.1.symm, h.2.2.2.1.symm,
    h.2.2.2.2.symm⟩

theorem url_diff_result {a b : Ctx}
    (h : a = { b with urlPart := a.urlPart }) :
    ({ a with urlPart := UrlPartT.Unknown } : Ctx)
      = { b with urlPart := UrlPartT.Unknown } := by
  rcases a with ⟨s, e, t, d, j, u⟩
  rcases b with ⟨s', e', t', d', j', u'⟩
  simp only [Ctx.mk.injEq, eq_self_iff_true, and_true, true_and] at h ⊢
  exact ⟨h.1, h.2.1, h.2.2.1, h.2.2.2.1, h.2.2.2.2⟩

theorem context_union_fuel_comm :
    ∀ (f : Nat) (a b : Ctx),
      context_union_fuel f a b = context_union_fuel f b a := by
  intro f
  induction f with
  | zero => intro a b; rfl
  | succ f ih =>
    intro a b
    by_cases h0 : a = b
    · subst h0; rfl
    · have h0' : ¬ b = a := fun h => h0 h.symm
      simp only [context_union_fuel]
      rw [if_neg h0, if_neg h0']
      by_cases hj : a = { b with jsCtx := a.jsCtx }
      · rw [if_pos hj, if_pos (js_diff_symm hj)]
        exact js_diff_result hj
      · have hj' : ¬ b = { a with jsCtx := b.jsCtx } :=
          fun h => hj (js_diff_symm h)
        rw [if_neg hj, if_neg hj']
        by_cases hu : a = { b with urlPart := a.urlPart }
        · rw [if_pos hu, if_pos (url_diff_symm hu)]
          exact url_diff_result hu
        · have hu' : ¬ b = { a with urlPart := b.urlPart } :=
            fun h => hu (url_diff_symm h)
          rw [if_neg hu, if_neg hu']
          by_cases hg : ¬ a = context_before_dynamic_value a ∨
              ¬ b = context_before_dynamic_value b
          · rw [if_pos hg, if_pos (Or.symm hg)]
            exact ih _ _
          · rw [if_neg hg, if_neg (fun h => hg (Or.symm h))]

/-- C8: `context_union` is commutative and idempotent (in fact exactly
commutative, which is stronger than commutativity up to normalization of
the JsCtx/UrlPart sub-fields). -/
theorem C8_context_union_comm_idem (a b : Ctx) :
    context_union a b = context_union b a ∧ context_union a a = a := by
  constructor
  · exact context_union_fuel_comm 2 a b
  · simp [context_union, context_union_fuel]

theorem context_union_fuel_fixed (f : Nat) (a b : Ctx)
    (ha : context_before_dynamic_value a = a)
    (hb : context_before_dynamic_value b = b) :
    context_union_fuel (f + 1) a b = context_union_fuel 1 a b := by
  simp only [context_union_fuel, ha, hb, ne_eq, not_true, or_self,
    if_false, not_true_eq_false, or_false, false_or]

/-- Fuel 2 suffices for `context_union_fuel`: the source recursion
re-enters at most once because nudged contexts are fixed points of
`context_before_dynamic_value`. -/
theorem context_union_fuel_stable (f : Nat) (a b : Ctx) :
    context_union_fuel (f + 2) a b = context_union_fuel 2 a b := by
  have h2 : f + 2 = (f + 1) + 1 := rfl
  rw [h2]
  simp only [context_union_fuel]
  by_cases h0 : a = b
  · rw [if_pos h0, if_pos h0]
  · rw [if_neg h0, if_neg h0]
    by_cases hj : a = { b with jsCtx := a.jsCtx }
    · rw [if_pos hj, if_pos hj]
    · rw [if_neg hj, if_neg hj]
      by_cases hu : a = { b with urlPart := a.urlPart }
      · rw [if_pos hu, if_pos hu]
      · rw [if_neg hu, if_neg hu]
        by_cases hg : ¬ a = context_before_dynamic_value a ∨
            ¬ b = context_before_dynamic_value b
        · rw [if_pos hg, if_pos hg]
          exact context_union_fuel_fixed f _ _ (nudge_idem a) (nudge_idem b)
        · rw [if_neg hg, if_neg hg]

/-- C3 counterexample: a context whose UrlPart is Unknown but whose state
is BEFORE_VALUE.  The epsilon transition resets UrlPart to None, so the
selector does not report the ambiguous-URL problem and does not end in the
Error state, contradicting the claim as stated. -/
theorem C3_counterexample :
    (⟨State.BeforeValue, ElementT.NoneElement, AttrT.Url, DelimT.NoneDelim,
      JsCtxT.NoneJsCtx, UrlPartT.Unknown⟩ : Ctx).urlPart
        = UrlPartT.Unknown ∧
    ¬ is_error_context
        (esc_mode_for_hole
          ⟨State.BeforeValue, ElementT.NoneElement, AttrT.Url,
           DelimT.NoneDelim, JsCtxT.NoneJsCtx, UrlPartT.Unknown⟩).1 = true ∧
    (esc_mode_for_hole
        ⟨State.BeforeValue, ElementT.NoneElement, AttrT.Url,
         DelimT.NoneDelim, JsCtxT.NoneJsCtx, UrlPartT.Unknown⟩).2.2
      = none := by decide

/-- C3 (amended): for every context whose UrlPart sub-field is Unknown and
whose state is not BEFORE_VALUE (the one state whose forced epsilon
transition resets UrlPart), `esc_mode_for_hole` returns a context whose
state is Error together with the problem string
"hole appears in an ambiguous URL context". -/
theorem C3_unknown_url_part_is_error (c : Ctx)
    (hu : c.urlPart = UrlPartT.Unknown)
    (hs : c.state ≠ State.BeforeValue) :
    is_error_context (esc_mode_for_hole c).1 = true ∧
    (esc_mode_for_hole c).2.2
      = some "hole appears in an ambiguous URL context" := by
  rcases c with ⟨s, e, a, d, j, u⟩
  simp only at hu hs
  subst hu
  cases s <;> first
    | exact absurd rfl hs
    | (revert e a d j; decide)

/-- C3 witness: the amended theorem instantiated at a URL-state context
with UrlPart Unknown. -/
theorem C3_witness :
    ((⟨State.Url, ElementT.NoneElement, AttrT.Url, DelimT.DoubleQuote,
       JsCtxT.NoneJsCtx, UrlPartT.Unknown⟩ : Ctx).urlPart
        = UrlPartT.Unknown) ∧
    (is_error_context
        (esc_mode_for_hole
          ⟨State.Url, ElementT.NoneElement, AttrT.Url, DelimT.DoubleQuote,
           JsCtxT.NoneJsCtx, UrlPartT.Unknown⟩).1 = true ∧
      (esc_mode_for_hole
          ⟨State.Url, ElementT.NoneElement, AttrT.Url, DelimT.DoubleQuote,
           JsCtxT.NoneJsCtx, UrlPartT.Unknown⟩).2.2
        = some "hole appears in an ambiguous URL context") :=
  ⟨rfl,
   C3_unknown_url_part_is_error
     ⟨State.Url, ElementT.NoneElement, AttrT.Url, DelimT.DoubleQuote,
      JsCtxT.NoneJsCtx, UrlPartT.Unknown⟩ rfl (by decide)⟩

theorem strFind_range (hay needle : List Nat) :
    strFind hay needle = -1 ∨ 0 ≤ strFind hay needle := by
  induction hay with
  | nil =>
    unfold strFind
    by_cases h : needle.isPrefixOf [] = true
    · rw [if_pos h]; right; omega
    · rw [if_neg h]; left; rfl
  | cons c t ih =>
    unfold strFind
    by_cases h : needle.isPrefixOf (c :: t) = true
    · rw [if_pos h]; right; omega
    · rw [if_neg h]
      rcases ih with hr | hr
      · rw [if_pos hr]; left; rfl
      · rw [if_neg (by omega)]; right; omega

theorem strFind_neg_iff (hay needle : List Nat) :
    strFind hay needle = -1 ↔ ¬ needle <:+: hay := by
  induction hay with
  | nil =>
    unfold strFind
    by_cases h : needle.isPrefixOf [] = true
    · rw [if_pos h]
      rw [List.isPrefixOf_iff_prefix] at h
      have : needle = [] := List.prefix_nil.mp h
      subst this
      simp
    · rw [if_neg h]
      rw [List.isPrefixOf_iff_prefix] at h
      simp only [List.prefix_nil] at h
      constructor
      · intro _ hinf
        exact h (by simpa using hinf)
      · intro _; rfl
  | cons c t ih =>
    unfold strFind
    by_cases h : needle.isPrefixOf (c :: t) = true
    · rw [if_pos h]
      rw [List.isPrefixOf_iff_prefix] at h
      constructor
      · intro h0; exact absurd h0 (by omega)
      · intro hni; exact absurd h.isInfix hni
    · rw [if_neg h]
      rw [List.isPrefixOf_iff_prefix] at h
      rcases strFind_range t needle with hr | hr
      · rw [if_pos hr]
        constructor
        · intro _ hinf
          rcases (List.infix_cons_iff).mp hinf with hpre | hinf'
          · exact h hpre
          · exact (ih.mp hr) hinf'
        · intro _; rfl
      · rw [if_neg (by omega)]
        constructor
        · intro h0; exact absurd h0 (by omega)
        · intro hni
          exact absurd (List.infix_cons_iff.mpr
            (Or.inr (by
              by_contra hni'
              exact (by omega : ¬ strFind t needle = -1) (ih.mpr hni')))) hni

theorem pyAnd_find_nonneg_iff (n u v : List Nat) :
    0 ≤ pyAnd (strFind n u) (strFind n v) ↔ (u <:+: n ∨ v <:+: n) := by
  rcases strFind_range n u with hu | hu <;>
    rcases strFind_range n v with hv | hv
  · rw [pyAnd, if_pos hu, hv]
    constructor
    · intro h0; exact absurd h0 (by omega)
    · intro h
      rcases h with h | h
      · exact absurd h ((strFind_neg_iff n u).mp hu)
      · exact absurd h ((strFind_neg_iff n v).mp hv)
  · rw [pyAnd, if_pos hu]
    constructor
    · intro _
      right
      by_contra hc
      exact (by omega : ¬ strFind n v = -1) ((strFind_neg_iff n v).mpr hc)
    · intro _; exact hv
  · rw [pyAnd, if_neg (by omega), if_pos hv]
    constructor
    · intro _
      left
      by_contra hc
      exact (by omega : ¬ strFind n u = -1) ((strFind_neg_iff n u).mpr hc)
    · intro _; exact hu
  · rw [pyAnd, if_neg (by omega), if_neg (by omega)]
    constructor
    · intro _
      left
      by_contra hc
      exact (by omega : ¬ strFind n u = -1) ((strFind_neg_iff n u).mpr hc)
    · intro _; exact Int.ofNat_nonneg _

/-- C5 counterexample: the attribute name `data-url` contains `url` but
not `uri`, yet the scanner classifies it as Attr=Url (the `&` of the two
`find` results is the Python bitwise AND, under which `-1 & i = i`, so the
heuristic fires when either substring occurs, not only when both do). -/
theorem C5_counterexample :
    (transitionToAttrNameNext { textCtx with state := State.Tag }
        (nats "data-url")).attr = AttrT.Url ∧
    ¬ (nats "url" <:+: attrLocalName (nats "data-url") ∧
       nats "uri" <:+: attrLocalName (nats "data-url")) := by decide

/-- C5 (amended): for every attribute name scanned in a tag with no
attribute type carried in the prior context and no `xmlns` namespace
prefix, if its lower-cased local name does not start with `on`, is not
`style`, and is not in the URL-attribute allow-list, then the scanner
classifies the attribute as Attr=Url if and only if the local name
contains the substring `url` OR the substring `uri`. -/
theorem C5_url_heuristic (prior : Ctx) (name : List Nat)
    (hprior : prior.attr = AttrT.NoneAttr)
    (hxmlns : strFind (pyLower name) (nats ":") ≥ 0 →
      (pyLower name).take (strFind (pyLower name) (nats ":")).toNat
        ≠ nats "xmlns")
    (h1 : ¬ (nats "on").isPrefixOf (attrLocalName name) = true)
    (h2 : attrLocalName name ≠ nats "style")
    (h3 : attrLocalName name ∉ URL_ATTR_NAMES) :
    ((transitionToAttrNameNext prior name).attr = AttrT.Url ↔
      (nats "url" <:+: attrLocalName name ∨
       nats "uri" <:+: attrLocalName name)) := by
  have hloc :
      (if strFind (pyLower name) (nats ":") ≥ 0 then
        ((if (pyLower name).take
              (strFind (pyLower name) (nats ":")).toNat = nats "xmlns" then
            AttrT.Url
          else prior.attr),
         (pyLower name).drop ((strFind (pyLower name) (nats ":")).toNat + 1))
      else (prior.attr, pyLower name))
      = (prior.attr, attrLocalName name) := by
    unfold attrLocalName
    by_cases hc : strFind (pyLower name) (nats ":") ≥ 0
    · rw [if_pos hc, if_pos hc, if_neg (hxmlns hc)]
    · rw [if_neg hc, if_neg hc]
  show (attrNameAttrType prior name = AttrT.Url ↔ _)
  unfold attrNameAttrType
  dsimp only
  rw [hloc]
  dsimp only
  rw [if_neg h1, if_neg (by simpa using h2), if_neg (by simpa using h3)]
  by_cases h4 : pyAnd (strFind (attrLocalName name) (nats "url"))
      (strFind (attrLocalName name) (nats "uri")) ≥ 0
  · rw [if_pos h4]
    simp only [true_iff]
    exact (pyAnd_find_nonneg_iff (attrLocalName name) (nats "url")
      (nats "uri")).mp h4
  · rw [if_neg h4, hprior]
    constructor
    · intro h; exact absurd h (by decide)
    · intro h
      exact absurd ((pyAnd_find_nonneg_iff (attrLocalName name) (nats "url")
        (nats "uri")).mpr h) h4

/-- C5 witness: the amended theorem instantiated at the name `data-url`
scanned in a plain tag context. -/
theorem C5_witness :
    ({ textCtx with state := State.Tag } : Ctx).attr = AttrT.NoneAttr ∧
    ((transitionToAttrNameNext { textCtx with state := State.Tag }
        (nats "data-url")).attr = AttrT.Url ↔
      (nats "url" <:+: attrLocalName (nats "data-url") ∨
       nats "uri" <:+: attrLocalName (nats "data-url"))) :=
  ⟨rfl,
   C5_url_heuristic { textCtx with state := State.Tag } (nats "data-url")
     rfl (by decide) (by decide) (by decide) (by decide)⟩

theorem mergeLoop_of_scanConsumes (rest : List String) :
    ∀ (scanned to_insert : List String),
      scanConsumes rest to_insert = true →
      mergeLoop scanned rest to_insert = scanned ++ rest := by
  induction rest with
  | nil =>
    intro scanned to_insert h
    unfold scanConsumes at h
    unfold mergeLoop
    rw [List.isEmpty_iff.mp h]
  | cons el rest' ih =>
    intro scanned to_insert h
    unfold scanConsumes at h
    unfold mergeLoop
    cases hf : to_insert.findIdx? (fun ti => esc_fns_eq el ti) with
    | none =>
      rw [hf] at h
      dsimp only
      simp only at h
      rw [ih (scanned ++ [el]) to_insert h]
      simp
    | some i =>
      rw [hf] at h
      dsimp only
      cases i with
      | zero =>
        simp only at h
        rw [ih (scanned ++ List.take 0 to_insert ++ [el])
          (to_insert.drop 1) h]
        simp
      | succ j =>
        simp only at h
        exact absurd h (by simp)

/-- C7: the claim is right for `autoesc/escape.py`: a pipeline containing
a `noescape` element is returned unchanged whatever the required list;
but the variant in `src/escape.py` lacks the `noescape` check entirely
(contradicting this repository's own test `escape_test.py`, "auditable
exemption from escaping"), as the second conjunct evaluates at the
failing input. -/
theorem C7_noescape_no_op :
    (∀ (pipeline to_insert : List String), "noescape" ∈ pipeline →
      ensure_pipeline_contains pipeline to_insert = pipeline) ∧
    src_ensure_pipeline_contains ["noescape"] ["escape_html"]
      = ["noescape", "escape_html"] := by
  constructor
  · intro pipeline to_insert h
    unfold ensure_pipeline_contains
    by_cases he : to_insert.isEmpty
    · rw [if_pos he]
    · rw [if_neg he, if_pos (List.elem_iff.mpr h)]
  · rfl

/-- C7 witness: the noescape no-op applied at a concrete pipeline. -/
theorem C7_witness :
    ("noescape" ∈ ["noescape", "html"]) ∧
    ensure_pipeline_contains ["noescape", "html"] ["escape_html"]
      = ["noescape", "html"] :=
  ⟨by decide, C7_noescape_no_op.1 ["noescape", "html"] ["escape_html"]
    (by decide)⟩

/-- C6 counterexample: the required names `[html, urlquery]` already occur
as an in-order subsequence (under canonicalization) of the pipeline
`[urlquery, html, urlquery]`, yet `ensure_pipeline_contains` changes the
pipeline: the leading `urlquery` element matches the later required entry
and forces `html` to be inserted before it. -/
theorem C6_counterexample :
    List.Sublist (["html", "urlquery"].map CANON_NAMES)
      (["urlquery", "html", "urlquery"].map CANON_NAMES) ∧
    ensure_pipeline_contains ["urlquery", "html", "urlquery"]
        ["html", "urlquery"]
      = ["html", "urlquery", "html", "urlquery"] := by
  constructor
  · decide
  · rfl

/-- C6 (amended): `ensure_pipeline_contains` leaves the pipeline
unchanged when, scanning the pipeline left to right against the pending
required list, every pipeline element that canonically matches any
pending required name matches the first pending one, and all required
names are consumed by the end of the scan (`scanConsumes`); this holds in
particular whenever the pipeline elements canonically equal to required
names form exactly the required sequence in order. -/
theorem C6_stable_pipeline (pipeline to_insert : List String)
    (h : scanConsumes pipeline to_insert = true) :
    ensure_pipeline_contains pipeline to_insert = pipeline := by
  unfold ensure_pipeline_contains
  by_cases he : to_insert.isEmpty
  · rw [if_pos he]
  · rw [if_neg he]
    by_cases hn : pipeline.contains "noescape"
    · rw [if_pos hn]
    · rw [if_neg hn]
      have := mergeLoop_of_scanConsumes pipeline [] to_insert h
      simpa using this

/-- C6 witness: the stability theorem instantiated at a pipeline that
already contains the required names in order. -/
theorem C6_witness :
    scanConsumes ["escape_html_attribute", "print", "urlquery"]
        ["escape_html", "urlquery"] = true ∧
    ensure_pipeline_contains ["escape_html_attribute", "print", "urlquery"]
        ["escape_html", "urlquery"]
      = ["escape_html_attribute", "print", "urlquery"] :=
  ⟨by decide,
   C6_stable_pipeline ["escape_html_attribute", "print", "urlquery"]
     ["escape_html", "urlquery"] (by decide)⟩

/-- `subChars` is the identity on strings with no matched character. -/
theorem subChars_id (m : Nat → Bool) (r : Nat → List Nat)
    (l : List Nat) (h : ∀ c ∈ l, m c = false) : subChars m r l = l := by
  induction l with
  | nil => rfl
  | cons c rest ih =>
    have hc : m c = false := h c (by simp)
    have hrest : subChars m r rest = rest :=
      ih (fun d hd => h d (List.mem_cons_of_mem c hd))
    simp only [subChars, List.flatMap_cons, hc] at hrest ⊢
    simp [hrest]

/-- A hex digit emitted by `hexDigitChar` lies in `0-9` or `a-f`. -/
theorem hexDigitChar_hex (n : Nat) (h : n < 16) :
    (0x30 ≤ hexDigitChar n ∧ hexDigitChar n ≤ 0x39) ∨
    (0x61 ≤ hexDigitChar n ∧ hexDigitChar n ≤ 0x66) := by
  unfold hexDigitChar
  split <;> omega

/-- Every character of a minimal hex rendering is a lowercase hex digit. -/
theorem hexDigitsMinAux_hex (fuel : Nat) :
    ∀ c : Nat, ∀ d ∈ hexDigitsMinAux fuel c,
      (0x30 ≤ d ∧ d ≤ 0x39) ∨ (0x61 ≤ d ∧ d ≤ 0x66) := by
  induction fuel with
  | zero => intro c d hd; simp [hexDigitsMinAux] at hd
  | succ n ih =>
    intro c d hd
    unfold hexDigitsMinAux at hd
    by_cases hc : c < 16
    · rw [if_pos hc] at hd
      simp at hd
      subst hd
      exact hexDigitChar_hex c hc
    · rw [if_neg hc] at hd
      rcases List.mem_append.mp hd with hd | hd
      · exact ih (c / 16) d hd
      · simp at hd
        subst hd
        exact hexDigitChar_hex _ (Nat.mod_lt _ (by omega))

/-- Hex digits are never HTML specials. -/
theorem hexDigitsMin_not_html (c d : Nat) (hd : d ∈ hexDigitsMin c) :
    matcherEscapeHtml d = false := by
  rcases hexDigitsMinAux_hex 8 c d hd with h | h <;>
    (simp [matcherEscapeHtml, decide_eq_false_iff_not]; omega)

/-- Both characters of `hex2` are hex digits. -/
theorem hex2_hex (b d : Nat) (hd : d ∈ hex2 b) :
    (0x30 ≤ d ∧ d ≤ 0x39) ∨ (0x61 ≤ d ∧ d ≤ 0x66) := by
  unfold hex2 at hd
  simp at hd
  rcases hd with hd | hd <;> subst hd <;>
    exact hexDigitChar_hex _ (Nat.mod_lt _ (by omega))

/-- `padHex4` output avoids the HTML special characters. -/
theorem padHex4_not_html (c d : Nat) (hd : d ∈ padHex4 c) :
    matcherEscapeHtml d = false := by
  simp only [padHex4] at hd
  rcases List.mem_append.mp hd with hd | hd
  · have := List.eq_of_mem_replicate hd
    subst this; decide
  · exact hexDigitsMin_not_html c d hd

/-- The CSS replacer emits no HTML special characters. -/
theorem replacerForCss_not_html (c d : Nat) (hd : d ∈ replacerForCss c) :
    matcherEscapeHtml d = false := by
  unfold replacerForCss at hd
  split at hd
  · exact (by decide : ∀ x ∈ nats "\\\\", matcherEscapeHtml x = false) d hd
  · rcases List.mem_append.mp hd with hd | hd
    · rcases List.mem_append.mp hd with hd | hd
      · simp at hd; subst hd; decide
      · exact hexDigitsMin_not_html c d hd
    · simp at hd; subst hd; decide

/-- The JS replacer emits no HTML special characters. -/
theorem replacerForJs_not_html (c d : Nat) (hd : d ∈ replacerForJs c) :
    matcherEscapeHtml d = false := by
  unfold replacerForJs at hd
  repeat' split at hd
  · exact (by decide : ∀ x ∈ nats "\\t", matcherEscapeHtml x = false) d hd
  · exact (by decide : ∀ x ∈ nats "\\n", matcherEscapeHtml x = false) d hd
  · exact (by decide : ∀ x ∈ nats "\\f", matcherEscapeHtml x = false) d hd
  · exact (by decide : ∀ x ∈ nats "\\r", matcherEscapeHtml x = false) d hd
  · exact (by decide : ∀ x ∈ nats "\\/", matcherEscapeHtml x = false) d hd
  · exact (by decide : ∀ x ∈ nats "\\\\", matcherEscapeHtml x = false) d hd
  · rcases List.mem_append.mp hd with hd | hd
    · exact (by decide : ∀ x ∈ nats "\\x", matcherEscapeHtml x = false) d hd
    · rcases hex2_hex c d hd with h | h <;>
        (simp [matcherEscapeHtml, decide_eq_false_iff_not]; omega)
  · rcases List.mem_append.mp hd with hd | hd
    · exact (by decide : ∀ x ∈ nats "\\u", matcherEscapeHtml x = false) d hd
    · exact padHex4_not_html c d hd

/-- An HTML special character is always matched by the CSS string matcher. -/
theorem html_sub_css (c : Nat) (h : matcherEscapeCssString c = false) :
    matcherEscapeHtml c = false := by
  simp [matcherEscapeCssString, decide_eq_false_iff_not] at h
  simp [matcherEscapeHtml, decide_eq_false_iff_not]
  omega

/-- An HTML special character is always matched by the JS string matcher. -/
theorem html_sub_js_string (c : Nat) (h : matcherEscapeJsString c = false) :
    matcherEscapeHtml c = false := by
  simp [matcherEscapeJsString, decide_eq_false_iff_not] at h
  simp [matcherEscapeHtml, decide_eq_false_iff_not]
  omega

/-- An HTML special character is always matched by the JS regex matcher. -/
theorem html_sub_js_regex (c : Nat) (h : matcherEscapeJsRegex c = false) :
    matcherEscapeHtml c = false := by
  simp [matcherEscapeJsRegex, decide_eq_false_iff_not] at h
  simp [matcherEscapeHtml, decide_eq_false_iff_not]
  omega

/-- `escape_css_string` output contains no HTML special characters. -/
theorem escape_css_string_not_html (v : List Nat) :
    ∀ d ∈ escape_css_string v, matcherEscapeHtml d = false := by
  induction v with
  | nil => intro d hd; simp [escape_css_string, subChars] at hd
  | cons c rest ih =>
    intro d hd
    simp only [escape_css_string, subChars, List.flatMap_cons] at hd
    rcases List.mem_append.mp hd with hd | hd
    · by_cases hc : matcherEscapeCssString c = true
      · rw [if_pos hc] at hd
        exact replacerForCss_not_html c d hd
      · rw [if_neg hc] at hd
        simp at hd; rw [hd]
        exact html_sub_css c (by simpa using hc)
    · exact ih d hd

/-- `escape_js_string` output contains no HTML special characters. -/
theorem escape_js_string_not_html (v : List Nat) :
    ∀ d ∈ escape_js_string v, matcherEscapeHtml d = false := by
  induction v with
  | nil => intro d hd; simp [escape_js_string, subChars] at hd
  | cons c rest ih =>
    intro d hd
    simp only [escape_js_string, subChars, List.flatMap_cons] at hd
    rcases List.mem_append.mp hd with hd | hd
    · by_cases hc : matcherEscapeJsString c = true
      · rw [if_pos hc] at hd
        exact replacerForJs_not_html c d hd
      · rw [if_neg hc] at hd
        simp at hd; rw [hd]
        exact html_sub_js_string c (by simpa using hc)
    · exact ih d hd

/-- The body of `escape_js_regex` contains no HTML special characters. -/
theorem sub_js_regex_not_html (v : List Nat) :
    ∀ d ∈ subChars matcherEscapeJsRegex replacerForJs v,
      matcherEscapeHtml d = false := by
  induction v with
  | nil => intro d hd; simp [subChars] at hd
  | cons c rest ih =>
    intro d hd
    simp only [subChars, List.flatMap_cons] at hd
    rcases List.mem_append.mp hd with hd | hd
    · by_cases hc : matcherEscapeJsRegex c = true
      · rw [if_pos hc] at hd
        exact replacerForJs_not_html c d hd
      · rw [if_neg hc] at hd
        simp at hd; rw [hd]
        exact html_sub_js_regex c (by simpa using hc)
    · exact ih d hd

/-- `escape_js_regex` output contains no HTML special characters. -/
theorem escape_js_regex_not_html (v : List Nat) :
    ∀ d ∈ escape_js_regex v, matcherEscapeHtml d = false := by
  intro d hd
  simp only [escape_js_regex] at hd
  split at hd
  · exact (by decide : ∀ x ∈ nats "(?:)", matcherEscapeHtml x = false) d hd
  · exact sub_js_regex_not_html v d hd

/-- The HTML escaping helper is the identity on HTML-special-free text. -/
theorem escape_html_helper_id (l : List Nat)
    (h : ∀ c ∈ l, matcherEscapeHtml c = false) :
    escape_html_helper l = l := subChars_id _ _ l h

/-- An unreserved URL character needs no normalization and is not `%`. -/
theorem urlUnreserved_noNormalize (c : Nat) (h : urlUnreserved c = true) :
    urlNoNormalize c = true ∧ c ≠ 0x25 := by
  simp [urlUnreserved, decide_eq_true_eq] at h
  simp [urlNoNormalize, decide_eq_true_eq]
  omega

/-- The normalizer copies an unreserved character unchanged. -/
theorem norm_keep (c : Nat) (h : urlUnreserved c = true) (rest : List Nat) :
    normalize_url (c :: rest) = c :: normalize_url rest := by
  obtain ⟨h1, h2⟩ := urlUnreserved_noNormalize c h
  conv_lhs => unfold normalize_url
  rw [if_neg h2, if_pos h1]

/-- `hexDigitChar` of a value below 16 is a hex digit. -/
theorem hexDigitChar_isHex (n : Nat) (h : n < 16) :
    isHexDigit (hexDigitChar n) = true := by
  rcases hexDigitChar_hex n h with h1 | h1 <;>
    (simp [isHexDigit, decide_eq_true_eq]; omega)

/-- A hex digit is an unreserved URL character. -/
theorem isHex_unreserved (d : Nat) (h : isHexDigit d = true) :
    urlUnreserved d = true := by
  simp [isHexDigit, decide_eq_true_eq] at h
  simp [urlUnreserved, decide_eq_true_eq]
  omega

/-- The normalizer copies a valid percent escape unchanged. -/
theorem norm_pct (h1 h2 : Nat) (ha : isHexDigit h1 = true)
    (hb : isHexDigit h2 = true) (rest : List Nat) :
    normalize_url (0x25 :: h1 :: h2 :: rest) =
      0x25 :: h1 :: h2 :: normalize_url rest := by
  conv_lhs => unfold normalize_url
  rw [if_pos rfl]
  dsimp only
  rw [if_pos ⟨ha, hb⟩]
  rw [norm_keep h1 (isHex_unreserved h1 ha), norm_keep h2 (isHex_unreserved h2 hb)]

/-- The normalizer copies one percent-encoded byte unchanged. -/
theorem norm_pct_byte (b : Nat) (rest : List Nat) :
    normalize_url ((0x25 :: hex2 b) ++ rest) =
      (0x25 :: hex2 b) ++ normalize_url rest := by
  show normalize_url
      (0x25 :: hexDigitChar (b / 16 % 16) :: hexDigitChar (b % 16) :: rest) = _
  rw [norm_pct _ _ (hexDigitChar_isHex _ (Nat.mod_lt _ (by omega)))
    (hexDigitChar_isHex _ (Nat.mod_lt _ (by omega))) rest]
  rfl

/-- The normalizer copies a run of percent-encoded bytes unchanged. -/
theorem norm_pct_bytes (bs : List Nat) (rest : List Nat) :
    normalize_url ((bs.flatMap (fun b => 0x25 :: hex2 b)) ++ rest) =
      (bs.flatMap (fun b => 0x25 :: hex2 b)) ++ normalize_url rest := by
  induction bs with
  | nil => simp
  | cons b bs ih =>
    rw [List.flatMap_cons, List.append_assoc, norm_pct_byte, ih,
      ← List.append_assoc]

/-- The normalizer copies a fully percent-encoded character unchanged. -/
theorem norm_pctEncode (c : Nat) (rest : List Nat) :
    normalize_url (pctEncodeChar c ++ rest) =
      pctEncodeChar c ++ normalize_url rest :=
  norm_pct_bytes (utf8Bytes c) rest

/-- One step of `escape_url`. -/
theorem escape_url_cons (c : Nat) (rest : List Nat) :
    escape_url (c :: rest) =
      (if urlUnreserved c then [c] else pctEncodeChar c) ++ escape_url rest := by
  simp only [escape_url, subChars, List.flatMap_cons]
  by_cases hc : urlUnreserved c = true
  · rw [if_pos hc, if_neg (by simp [hc])]
  · rw [if_neg hc, if_pos (by simp [hc])]

/-- `normalize_url` fixes every `escape_url` output. -/
theorem norm_after_escape_url (x : List Nat) :
    normalize_url (escape_url x) = escape_url x := by
  induction x with
  | nil => rfl
  | cons c rest ih =>
    rw [escape_url_cons]
    by_cases hc : urlUnreserved c = true
    · rw [if_pos hc, List.singleton_append, norm_keep c hc, ih]
    · rw [if_neg hc, norm_pctEncode, ih]

/-- C4: for every pair `(f, g)` in `REDUNDANT_ESC_MODES` and every string
`x`, applying `g`'s sanitizer function to the output of `f`'s sanitizer
function returns that output unchanged, i.e. `g(f(x)) == f(x)` for all six
listed pairs. -/
theorem C4_redundant_pairs (f g : EscMode)
    (hmem : (f, g) ∈ REDUNDANT_ESC_MODES)
    (sf sg : List Nat → List Nat)
    (hf : SANITIZER_FOR_ESC_MODE f = some sf)
    (hg : SANITIZER_FOR_ESC_MODE g = some sg)
    (x : List Nat) : sg (sf x) = sf x := by
  simp only [REDUNDANT_ESC_MODES, List.mem_cons, List.not_mem_nil,
    Prod.mk.injEq, or_false] at hmem
  rcases hmem with ⟨rfl, rfl⟩ | ⟨rfl, rfl⟩ | ⟨rfl, rfl⟩ | ⟨rfl, rfl⟩ |
    ⟨rfl, rfl⟩ | ⟨rfl, rfl⟩ <;>
    (simp only [SANITIZER_FOR_ESC_MODE, Option.some.injEq] at hf hg;
     subst hf; subst hg)
  · rfl
  · rfl
  · exact escape_html_helper_id _ (escape_css_string_not_html x)
  · exact escape_html_helper_id _ (escape_js_regex_not_html x)
  · exact escape_html_helper_id _ (escape_js_string_not_html x)
  · exact norm_after_escape_url x

/-- Witness for C4: the pair (EscapeUrl, NormalizeUrl) is redundant, the
two sanitizers are present in the table, and normalizing the escaped form
of "a b?" leaves it unchanged. -/
theorem C4_witness :
    (EscMode.EscapeUrl, EscMode.NormalizeUrl) ∈ REDUNDANT_ESC_MODES ∧
    SANITIZER_FOR_ESC_MODE EscMode.EscapeUrl = some escape_url ∧
    SANITIZER_FOR_ESC_MODE EscMode.NormalizeUrl = some normalize_url ∧
    normalize_url (escape_url (nats "a b?")) = escape_url (nats "a b?") :=
  ⟨by decide, rfl, rfl,
    C4_redundant_pairs EscMode.EscapeUrl EscMode.NormalizeUrl (by decide)
      escape_url normalize_url rfl rfl (nats "a b?")⟩

/-- C2: the claim states that for every raw text string and every
starting context, `process_raw_text` terminates and returns a quadruple
in which either the end state is not Error and the error-context and
unprocessed components are `None`, or the end state is Error and the
error context and unprocessed component are a non-empty suffix of the
input.  The code violates this: on the ordinary input `"<!-- x\n"` from
the default start context it raises its internal `'inf loop.'` guard
(inside an HTML comment, `re.search(r'$', u"\n")` matches the
zero-width position before the trailing newline, so no characters are
consumed and the state does not change); on `"/"` in a JS context with
unknown JS bits it raises the ambiguous-slash exception instead of
returning; and on empty text from an Error start context it returns an
Error end context with the unprocessed component `None`. -/
theorem C2_scanner_raises :
    process_raw_text (nats "<!-- x\x0a") textCtx =
      some (Except.error (nats "inf loop.")) ∧
    process_raw_text (nats "/")
      (⟨State.Js, ElementT.NoneElement, AttrT.NoneAttr, DelimT.NoneDelim,
        JsCtxT.Unknown, UrlPartT.NoneUrlPart⟩ : Ctx) =
      some (Except.error (nats
        "Ambiguous / could be a RegExp or division.  Please add parentheses before `/`")) ∧
    process_raw_text [] errorCtx =
      some (Except.ok (errorCtx, some [], none, none)) := by
  exact ⟨rfl, rfl, rfl⟩

/-- A context whose state is Error is a fixed point of the forced
epsilon transitions. -/
theorem nudge_error (c : Ctx) (h : c.state = State.Error) :
    context_before_dynamic_value c = c := by
  obtain ⟨s, e, a, d, j, u⟩ := c
  simp only at h
  subst h
  rfl

/-- `context_union` with an Error-state operand ends in the Error
state. -/
theorem union_fuel_error (fuel : Nat) :
    ∀ c0 c1 : Ctx,
      c0.state = State.Error ∨ c1.state = State.Error →
      (context_union_fuel fuel c0 c1).state = State.Error := by
  induction fuel with
  | zero => intro c0 c1 _; rfl
  | succ n ih =>
    intro c0 c1 h
    unfold context_union_fuel
    by_cases h1 : c0 = c1
    · rw [if_pos h1]
      rcases h with h | h
      · exact h
      · rw [h1]; exact h
    · rw [if_neg h1]
      by_cases h2 : c0 = { c1 with jsCtx := c0.jsCtx }
      · rw [if_pos h2]
        show c0.state = State.Error
        rcases h with h | h
        · exact h
        · have hs : c0.state = c1.state := by rw [h2]
          rw [hs]; exact h
      · rw [if_neg h2]
        by_cases h3 : c0 = { c1 with urlPart := c0.urlPart }
        · rw [if_pos h3]
          show c0.state = State.Error
          rcases h with h | h
          · exact h
          · have hs : c0.state = c1.state := by rw [h3]
            rw [hs]; exact h
        · rw [if_neg h3]
          dsimp only
          by_cases h4 : c0 ≠ context_before_dynamic_value c0 ∨
              c1 ≠ context_before_dynamic_value c1
          · rw [if_pos h4]
            apply ih
            rcases h with h | h
            · left; rw [nudge_error c0 h]; exact h
            · right; rw [nudge_error c1 h]; exact h
          · rw [if_neg h4]; rfl

/-- `context_union` with an Error-state operand ends in the Error
state. -/
theorem union_error (c0 c1 : Ctx)
    (h : c0.state = State.Error ∨ c1.state = State.Error) :
    (context_union c0 c1).state = State.Error :=
  union_fuel_error 2 c0 c1 h

/-- A non-error union has non-error operands. -/
theorem union_nonerror (c0 c1 : Ctx)
    (h : (context_union c0 c1).state ≠ State.Error) :
    c0.state ≠ State.Error ∧ c1.state ≠ State.Error := by
  constructor
  · intro h0; exact h (union_error c0 c1 (Or.inl h0))
  · intro h1; exact h (union_error c0 c1 (Or.inr h1))

/-- `context_union c c = c`. -/
theorem union_self (c : Ctx) : context_union c c = c := by
  simp [context_union, context_union_fuel]

/-- Every member of `setA l k v` is `(k, v)` or an old member at a
different key. -/
theorem setA_mem {α β : Type} [DecidableEq α] (l : List (α × β))
    (k : α) (v : β) (p : α × β) (hp : p ∈ setA l k v) :
    p = (k, v) ∨ (p ∈ l ∧ p.1 ≠ k) := by
  unfold setA at hp
  by_cases hf : (l.find? (fun q => q.1 = k)).isSome
  · rw [if_pos hf] at hp
    rcases List.mem_map.mp hp with ⟨q, hq, he⟩
    by_cases hk : q.1 = k
    · left; rw [if_pos (by simpa using hk)] at he; exact he.symm
    · right
      rw [if_neg (by simpa using hk)] at he
      exact ⟨he ▸ hq, he ▸ hk⟩
  · rw [if_neg hf] at hp
    rcases List.mem_append.mp hp with hp | hp
    · right
      refine ⟨hp, ?_⟩
      intro hk
      rw [List.find?_isSome] at hf
      exact hf ⟨p, hp, by simpa using hk⟩
    · left; simpa using hp

/-- Every member of `setA l k v` whose key is `k` carries `v`. -/
theorem setA_key_val {α β : Type} [DecidableEq α] (l : List (α × β))
    (k : α) (v : β) (p : α × β) (hp : p ∈ setA l k v) (hk : p.1 = k) :
    p = (k, v) := by
  rcases setA_mem l k v p hp with h | h
  · exact h
  · exact absurd hk h.2

/-- `(k, v)` is a member of `setA l k v`. -/
theorem setA_self_mem {α β : Type} [DecidableEq α] (l : List (α × β))
    (k : α) (v : β) : (k, v) ∈ setA l k v := by
  unfold setA
  by_cases hf : (l.find? (fun q => q.1 = k)).isSome
  · rw [if_pos hf]
    rcases List.find?_isSome.mp hf with ⟨q, hq, hqk⟩
    refine List.mem_map.mpr ⟨q, hq, ?_⟩
    rw [if_pos (by simpa using hqk)]
  · rw [if_neg hf]
    exact List.mem_append.mpr (Or.inr (by simp))

/-- Looking up the key just set returns the value just set. -/
theorem lookupA_setA {α β : Type} [DecidableEq α] (l : List (α × β))
    (k : α) (v : β) : lookupA (setA l k v) k = some v := by
  unfold lookupA
  have hs : ((setA l k v).find? (fun q => q.1 = k)).isSome :=
    List.find?_isSome.mpr ⟨(k, v), setA_self_mem l k v, by simp⟩
  rcases Option.isSome_iff_exists.mp hs with ⟨q, hq⟩
  rw [hq]
  have hqm := List.mem_of_find?_eq_some hq
  have hqk : q.1 = k := by simpa using List.find?_some hq
  rw [setA_key_val l k v q hqm hqk]

/-- Members of a dict update come from one side or the other. -/
theorem mergeA_mem {α β : Type} [DecidableEq α] (dst src : List (α × β))
    (p : α × β) (hp : p ∈ mergeA dst src) : p ∈ dst ∨ p ∈ src := by
  induction src generalizing dst with
  | nil => exact Or.inl hp
  | cons s rest ih =>
    rcases ih (setA dst s.1 s.2) hp with h | h
    · rcases setA_mem dst s.1 s.2 p h with h | h
      · right; rw [h]; simp
      · exact Or.inl h.1
    · right; exact List.mem_cons_of_mem s h

/-- `recordError` appends exactly one message and touches nothing
else. -/
theorem recordError_errors (a : Analyzer) (h : Option (List Nat))
    (m : List Nat) :
    ∃ m2, (recordError a h m).errors = a.errors ++ [m2] := by
  unfold recordError
  cases h with
  | none => exact ⟨m, rfl⟩
  | some l =>
    by_cases he : l.isEmpty
    · exact ⟨m, by simp [he]⟩
    · exact ⟨l ++ nats ": " ++ m, by simp [he]⟩

/-- `recordError` leaves the templates table unchanged. -/
theorem recordError_templates (a : Analyzer) (h : Option (List Nat))
    (m : List Nat) : (recordError a h m).templates = a.templates := by
  unfold recordError
  cases h <;> rfl

/-- The state `join` returns is the union of its operands. -/
theorem joinStates_fst (a : Analyzer) (h : Option (List Nat))
    (s1 s2 : Ctx) : (joinStates a h s1 s2).1 = context_union s1 s2 := by
  unfold joinStates
  dsimp only
  by_cases hu : (context_union s1 s2).state = State.Error
  · rw [if_pos hu]
    by_cases he : s1.state = State.Error ∨ s2.state = State.Error
    · rw [if_pos he]
    · rw [if_neg he]
  · rw [if_neg hu]

/-- `join` leaves the templates table unchanged. -/
theorem joinStates_templates (a : Analyzer) (h : Option (List Nat))
    (s1 s2 : Ctx) : (joinStates a h s1 s2).2.templates = a.templates := by
  unfold joinStates
  dsimp only
  by_cases hu : (context_union s1 s2).state = State.Error
  · rw [if_pos hu]
    by_cases he : s1.state = State.Error ∨ s2.state = State.Error
    · rw [if_pos he]
    · rw [if_neg he]
      exact recordError_templates a h _
  · rw [if_neg hu]

/-- `join` appends error messages only when the union is the Error
state. -/
theorem joinStates_errors (a : Analyzer) (h : Option (List Nat))
    (s1 s2 : Ctx) :
    ∃ new, (joinStates a h s1 s2).2.errors = a.errors ++ new ∧
      (new ≠ [] → (context_union s1 s2).state = State.Error) := by
  unfold joinStates
  dsimp only
  by_cases hu : (context_union s1 s2).state = State.Error
  · rw [if_pos hu]
    by_cases he : s1.state = State.Error ∨ s2.state = State.Error
    · rw [if_pos he]
      exact ⟨[], by simp, fun hn => absurd rfl hn⟩
    · rw [if_neg he]
      rcases recordError_errors a h
        (nats "branches end in incompatible contexts") with ⟨m2, hm⟩
      exact ⟨[m2], hm, fun _ => hu⟩
  · rw [if_neg hu]
    exact ⟨[], by simp, fun hn => absurd rfl hn⟩

/-- `join` with an error operand does not record. -/
theorem joinStates_of_error (a : Analyzer) (h : Option (List Nat))
    (s1 s2 : Ctx) (he : s1.state = State.Error ∨ s2.state = State.Error) :
    (joinStates a h s1 s2).2 = a := by
  unfold joinStates
  dsimp only
  rw [if_pos (union_error s1 s2 he), if_pos he]

/-- `join` on incompatible non-error operands records a message. -/
theorem joinStates_records (a : Analyzer) (h : Option (List Nat))
    (s1 s2 : Ctx) (hu : (context_union s1 s2).state = State.Error)
    (h1 : s1.state ≠ State.Error) (h2 : s2.state ≠ State.Error) :
    (joinStates a h s1 s2).2.errors ≠ [] := by
  unfold joinStates
  dsimp only
  rw [if_pos hu, if_neg (by rintro (h | h) <;> [exact h1 h; exact h2 h])]
  rcases recordError_errors a h
    (nats "branches end in incompatible contexts") with ⟨m2, hm⟩
  simp [hm]

/-- `no_steady_state` always returns an Error-state context. -/
theorem noSteadyState_fst (a : Analyzer) (h : Option (List Nat))
    (s1 s2 : Ctx) : (noSteadyState a h s1 s2).1.state = State.Error := by
  unfold noSteadyState
  by_cases h1 : s1.state = State.Error
  · rw [if_pos h1]; exact h1
  · rw [if_neg h1]
    by_cases h2 : s2.state = State.Error
    · rw [if_pos h2]; exact h2
    · rw [if_neg h2]; rfl

/-- `no_steady_state` leaves the templates table unchanged. -/
theorem noSteadyState_templates (a : Analyzer) (h : Option (List Nat))
    (s1 s2 : Ctx) : (noSteadyState a h s1 s2).2.templates = a.templates := by
  unfold noSteadyState
  by_cases h1 : s1.state = State.Error
  · rw [if_pos h1]
  · rw [if_neg h1]
    by_cases h2 : s2.state = State.Error
    · rw [if_pos h2]
    · rw [if_neg h2]
      exact recordError_templates a h _

/-- `no_steady_state` only appends error messages. -/
theorem noSteadyState_errors (a : Analyzer) (h : Option (List Nat))
    (s1 s2 : Ctx) :
    ∃ new, (noSteadyState a h s1 s2).2.errors = a.errors ++ new := by
  unfold noSteadyState
  by_cases h1 : s1.state = State.Error
  · rw [if_pos h1]; exact ⟨[], by simp⟩
  · rw [if_neg h1]
    by_cases h2 : s2.state = State.Error
    · rw [if_pos h2]; exact ⟨[], by simp⟩
    · rw [if_neg h2]
      rcases recordError_errors a h (nats "loop switches between states")
        with ⟨m2, hm⟩
      exact ⟨[m2], hm⟩

/-- `no_steady_state` with an error operand does not record. -/
theorem noSteadyState_of_error (a : Analyzer) (h : Option (List Nat))
    (s1 s2 : Ctx)
    (he : s1.state = State.Error ∨ s2.state = State.Error) :
    (noSteadyState a h s1 s2).2 = a := by
  unfold noSteadyState
  rcases he with he | he
  · rw [if_pos he]
  · by_cases h1 : s1.state = State.Error
    · rw [if_pos h1]
    · rw [if_neg h1, if_pos he]

/-- `no_steady_state` on non-error operands records a message. -/
theorem noSteadyState_records (a : Analyzer) (h : Option (List Nat))
    (s1 s2 : Ctx) (h1 : s1.state ≠ State.Error)
    (h2 : s2.state ≠ State.Error) :
    (noSteadyState a h s1 s2).2.errors ≠ [] := by
  unfold noSteadyState
  rw [if_neg h1, if_neg h2]
  rcases recordError_errors a h (nats "loop switches between states")
    with ⟨m2, hm⟩
  simp [hm]

/-- The trivial invariant bundle for a no-op step. -/
theorem idOK (st : Ctx) (a : Analyzer) : RTOK st a st a := by
  refine ⟨⟨[], by simp, fun hn => absurd rfl hn⟩,
    fun _ => ⟨rfl, rfl⟩, ?_, ?_⟩
  · intro K _ hc _ _; exact hc
  · intro _ _ hst he; exact absurd he hst

/-- The invariant bundle composes over sequencing: the second step
starts where the first ended. -/
theorem seqOK (st e1 e2 : Ctx) (a a1 a2 : Analyzer)
    (h1 : RTOK st a e1 a1) (h2 : RTOK e1 a1 e2 a2) : RTOK st a e2 a2 := by
  obtain ⟨⟨n1, hn1, hm1⟩, he1, hc1, hk1⟩ := h1
  obtain ⟨⟨n2, hn2, hm2⟩, he2, hc2, hk2⟩ := h2
  refine ⟨⟨n1 ++ n2, by rw [hn2, hn1, List.append_assoc], ?_⟩, ?_, ?_, ?_⟩
  · intro hne
    by_cases h2e : n2 = []
    · subst h2e
      have : n1 ≠ [] := by simpa using hne
      have hee := hm1 this
      exact (he2 hee).1 ▸ hee
    · exact hm2 h2e
  · intro hst
    obtain ⟨hea, haa⟩ := he1 hst
    subst haa
    obtain ⟨heb, hab⟩ := he2 (hea ▸ hst)
    subst hab
    exact ⟨heb.trans hea, rfl⟩
  · intro K hz hcl hz2 hne
    have hz1 : a1.errors = [] := by
      rcases List.append_eq_nil.mp (hn2 ▸ hz2) with ⟨z, _⟩
      exact z
    have he1n : e1.state ≠ State.Error := by
      intro hee
      exact hne ((he2 hee).1 ▸ hee)
    exact hc2 K hz1 (hc1 K hz hcl hz1 he1n) hz2 hne
  · intro hz hcl hst he
    by_cases hz1 : a1.errors = []
    · by_cases he1n : e1.state = State.Error
      · exact fun hz2 =>
          (hk1 hz hcl hst he1n)
            (by rcases List.append_eq_nil.mp (hn2 ▸ hz2) with ⟨z, _⟩
                exact z)
      · exact hk2 hz1 (hc1 [] hz hcl hz1 he1n) he1n he
    · intro hz2
      rcases List.append_eq_nil.mp (hn2 ▸ hz2) with ⟨z, _⟩
      exact hz1 z

/-- Nonemptiness of nested appends from a nonempty head. -/
theorem append3_ne_nil {α : Type} (x y z : List α) (h : x ≠ []) :
    x ++ y ++ z ≠ [] := by
  intro hz
  rcases List.append_eq_nil.mp hz with ⟨hxy, _⟩
  rcases List.append_eq_nil.mp hxy with ⟨hx, _⟩
  exact h hx

/-- The invariant bundle for the two-branch block nodes: both branches
run from the same start state and their ends are joined. -/
theorem branchOK (st e1 e2 : Ctx) (a a1 a2 : Analyzer)
    (hint : Option (List Nat))
    (h1 : RTOK st a e1 a1) (h2 : RTOK st a1 e2 a2) :
    RTOK st a (joinStates a2 hint e1 e2).1 (joinStates a2 hint e1 e2).2 := by
  obtain ⟨⟨n1, hn1, hm1⟩, he1, hc1, hk1⟩ := h1
  obtain ⟨⟨n2, hn2, hm2⟩, he2, hc2, hk2⟩ := h2
  obtain ⟨nj, hnj, hmj⟩ := joinStates_errors a2 hint e1 e2
  have hfst := joinStates_fst a2 hint e1 e2
  refine ⟨⟨n1 ++ (n2 ++ nj), ?_, ?_⟩, ?_, ?_, ?_⟩
  · rw [hnj, hn2, hn1]; simp [List.append_assoc]
  · intro hne
    rw [hfst]
    by_cases hj : nj = []
    · subst hj
      by_cases h2e : n2 = []
      · subst h2e
        have h1e : n1 ≠ [] := by simpa using hne
        exact union_error e1 e2 (Or.inl (hm1 h1e))
      · exact union_error e1 e2 (Or.inr (hm2 h2e))
    · exact hmj hj
  · intro hst
    obtain ⟨hea, haa⟩ := he1 hst
    obtain ⟨heb, hab⟩ := he2 hst
    constructor
    · rw [hfst, hea, heb, union_self]
    · rw [joinStates_of_error a2 hint e1 e2
        (Or.inl (by rw [hea]; exact hst)), hab, haa]
  · intro K hz hcl hzj hne'
    rw [hfst] at hne'
    obtain ⟨hne1, hne2⟩ := union_nonerror e1 e2 hne'
    have hz2 : a2.errors = [] :=
      (List.append_eq_nil.mp (hnj ▸ hzj)).1
    have hz1 : a1.errors = [] :=
      (List.append_eq_nil.mp (hn2 ▸ hz2)).1
    rw [joinStates_templates]
    exact hc2 K hz1 (hc1 K hz hcl hz1 hne1) hz2 hne2
  · intro hz hcl hst _
    have grow : a1.errors ≠ [] → (joinStates a2 hint e1 e2).2.errors ≠ [] := by
      intro hne hcon
      have hz2 : a2.errors = [] :=
        (List.append_eq_nil.mp (hnj ▸ hcon)).1
      exact hne (List.append_eq_nil.mp (hn2 ▸ hz2)).1
    by_cases hee1 : e1.state = State.Error
    · exact grow (hk1 hz hcl hst hee1)
    · by_cases hz1 : a1.errors = []
      · have hcl1 := hc1 [] hz hcl hz1 hee1
        by_cases hee2 : e2.state = State.Error
        · intro hcon
          have hz2 : a2.errors = [] :=
            (List.append_eq_nil.mp (hnj ▸ hcon)).1
          exact (hk2 hz1 hcl1 hst hee2) hz2
        · intro hcon
          by_cases hu : (context_union e1 e2).state = State.Error
          · exact joinStates_records a2 hint e1 e2 hu hee1 hee2 hcon
          · exact hu (by
              have := hfst ▸ (by assumption :
                (joinStates a2 hint e1 e2).1.state = State.Error)
              exact this)
      · exact grow hz1

/-- The invariant bundle for `_RangeNode` when the two body passes
disagree and `no_steady_state` is consulted. -/
theorem rangeNoSteadyOK (st zero once twice : Ctx) (a a1 a2 a3 : Analyzer)
    (hint : Option (List Nat)) (hne : once ≠ twice)
    (h1 : RTOK st a zero a1) (h2 : RTOK st a1 once a2)
    (h3 : RTOK once a2 twice a3) :
    RTOK st a (noSteadyState a3 hint once twice).1
      (noSteadyState a3 hint once twice).2 := by
  obtain ⟨⟨n1, hn1, hm1⟩, he1, hc1, hk1⟩ := h1
  obtain ⟨⟨n2, hn2, hm2⟩, he2, hc2, hk2⟩ := h2
  obtain ⟨⟨n3, hn3, hm3⟩, he3, hc3, hk3⟩ := h3
  obtain ⟨ns, hns⟩ := noSteadyState_errors a3 hint once twice
  have hfst := noSteadyState_fst a3 hint once twice
  have grow : a1.errors ≠ [] →
      (noSteadyState a3 hint once twice).2.errors ≠ [] := by
    intro hne1 hcon
    have hz3 : a3.errors = [] := (List.append_eq_nil.mp (hns ▸ hcon)).1
    have hz2 : a2.errors = [] := (List.append_eq_nil.mp (hn3 ▸ hz3)).1
    exact hne1 (List.append_eq_nil.mp (hn2 ▸ hz2)).1
  refine ⟨⟨n1 ++ (n2 ++ (n3 ++ ns)), ?_, fun _ => hfst⟩, ?_, ?_, ?_⟩
  · rw [hns, hn3, hn2, hn1]; simp [List.append_assoc]
  · intro hst
    exfalso
    obtain ⟨hea, _⟩ := he1 hst
    obtain ⟨heb, hab⟩ := he2 hst
    obtain ⟨hec, _⟩ := he3 (by rw [heb]; exact hst)
    exact hne (by rw [hec, heb])
  · intro K _ _ _ hne'
    exact absurd hfst hne'
  · intro hz hcl hst _
    by_cases hzo : zero.state = State.Error
    · exact grow (hk1 hz hcl hst hzo)
    · by_cases hz1 : a1.errors = []
      · have hcl1 := hc1 [] hz hcl hz1 hzo
        by_cases hoo : once.state = State.Error
        · intro hcon
          have hz3 : a3.errors = [] :=
            (List.append_eq_nil.mp (hns ▸ hcon)).1
          have hz2 : a2.errors = [] :=
            (List.append_eq_nil.mp (hn3 ▸ hz3)).1
          exact (hk2 hz1 hcl1 hst hoo) hz2
        · by_cases hz2 : a2.errors = []
          · have hcl2 := hc2 [] hz1 hcl1 hz2 hoo
            by_cases htw : twice.state = State.Error
            · intro hcon
              have hz3 : a3.errors = [] :=
                (List.append_eq_nil.mp (hns ▸ hcon)).1
              exact (hk3 hz2 hcl2 hoo htw) hz3
            · intro hcon
              exact noSteadyState_records a3 hint once twice hoo htw hcon
          · intro hcon
            have hz3 : a3.errors = [] :=
              (List.append_eq_nil.mp (hns ▸ hcon)).1
            exact hz2 (List.append_eq_nil.mp (hn3 ▸ hz3)).1
      · exact grow hz1

/-- The invariant bundle for `_RangeNode` when the two body passes agree
and the zero- and once-iteration ends are joined. -/
theorem rangeJoinOK (st zero once twice : Ctx) (a a1 a2 a3 : Analyzer)
    (hint : Option (List Nat)) (heq : once = twice)
    (h1 : RTOK st a zero a1) (h2 : RTOK st a1 once a2)
    (h3 : RTOK once a2 twice a3) :
    RTOK st a (joinStates a3 hint zero once).1
      (joinStates a3 hint zero once).2 := by
  obtain ⟨⟨n1, hn1, hm1⟩, he1, hc1, hk1⟩ := h1
  obtain ⟨⟨n2, hn2, hm2⟩, he2, hc2, hk2⟩ := h2
  obtain ⟨⟨n3, hn3, hm3⟩, he3, hc3, hk3⟩ := h3
  obtain ⟨nj, hnj, hmj⟩ := joinStates_errors a3 hint zero once
  have hfst := joinStates_fst a3 hint zero once
  have grow : a1.errors ≠ [] →
      (joinStates a3 hint zero once).2.errors ≠ [] := by
    intro hne1 hcon
    have hz3 : a3.errors = [] := (List.append_eq_nil.mp (hnj ▸ hcon)).1
    have hz2 : a2.errors = [] := (List.append_eq_nil.mp (hn3 ▸ hz3)).1
    exact hne1 (List.append_eq_nil.mp (hn2 ▸ hz2)).1
  refine ⟨⟨n1 ++ (n2 ++ (n3 ++ nj)), ?_, ?_⟩, ?_, ?_, ?_⟩
  · rw [hnj, hn3, hn2, hn1]; simp [List.append_assoc]
  · intro hnall
    rw [hfst]
    by_cases hj : nj = []
    · by_cases h3e : n3 = []
      · by_cases h2e : n2 = []
        · subst hj; subst h3e; subst h2e
          have h1e : n1 ≠ [] := by simpa using hnall
          exact union_error zero once (Or.inl (hm1 h1e))
        · exact union_error zero once (Or.inr (heq ▸ hm2 h2e))
      · exact union_error zero once (Or.inr (heq ▸ hm3 h3e))
    · exact hmj hj
  · intro hst
    obtain ⟨hea, haa⟩ := he1 hst
    obtain ⟨heb, hab⟩ := he2 hst
    obtain ⟨_, hac⟩ := he3 (by rw [heb]; exact hst)
    constructor
    · rw [hfst, hea, heb, union_self]
    · rw [joinStates_of_error a3 hint zero once
        (Or.inl (by rw [hea]; exact hst)), hac, hab, haa]
  · intro K hz hcl hzj hne'
    rw [hfst] at hne'
    obtain ⟨hnz, hno⟩ := union_nonerror zero once hne'
    have hz3 : a3.errors = [] := (List.append_eq_nil.mp (hnj ▸ hzj)).1
    have hz2 : a2.errors = [] := (List.append_eq_nil.mp (hn3 ▸ hz3)).1
    have hz1 : a1.errors = [] := (List.append_eq_nil.mp (hn2 ▸ hz2)).1
    rw [joinStates_templates]
    exact hc3 K hz2 (hc2 K hz1 (hc1 K hz hcl hz1 hnz) hz2 hno) hz3
      (heq ▸ hno)
  · intro hz hcl hst he'
    by_cases hzo : zero.state = State.Error
    · exact grow (hk1 hz hcl hst hzo)
    · by_cases hz1 : a1.errors = []
      · have hcl1 := hc1 [] hz hcl hz1 hzo
        by_cases hoo : once.state = State.Error
        · intro hcon
          have hz3 : a3.errors = [] :=
            (List.append_eq_nil.mp (hnj ▸ hcon)).1
          have hz2 : a2.errors = [] :=
            (List.append_eq_nil.mp (hn3 ▸ hz3)).1
          exact (hk2 hz1 hcl1 hst hoo) hz2
        · have hu : (context_union zero once).state = State.Error := by
            rw [← hfst]; exact he'
          exact joinStates_records a3 hint zero once hu hzo hoo
      · exact grow hz1

/-- The invariant bundle for a step that records a message and returns
an Error-state context. -/
theorem recordErrOK (st e : Ctx) (a : Analyzer) (hint : Option (List Nat))
    (m : List Nat) (hst : st.state ≠ State.Error)
    (hee : e.state = State.Error) : RTOK st a e (recordError a hint m) := by
  obtain ⟨m2, hm⟩ := recordError_errors a hint m
  refine ⟨⟨[m2], hm, fun _ => hee⟩, fun h => absurd h hst, ?_, ?_⟩
  · intro K _ _ _ hne
    exact absurd hee hne
  · intro _ _ _ _
    simp [hm]

/-- The invariant bundle for a recording-free step to a non-error
context. -/
theorem pureOK (st e : Ctx) (a : Analyzer) (hst : st.state ≠ State.Error)
    (hee : e.state ≠ State.Error) : RTOK st a e a := by
  refine ⟨⟨[], by simp, fun hn => absurd rfl hn⟩, fun h => absurd h hst,
    ?_, ?_⟩
  · intro K _ hc _ _; exact hc
  · intro _ _ _ he; exact absurd he hee

/-- A successful lookup returns a member binding. -/
theorem lookupA_mem {α β : Type} [DecidableEq α] (l : List (α × β))
    (k : α) (v : β) (h : lookupA l k = some v) : (k, v) ∈ l := by
  unfold lookupA at h
  cases hf : l.find? (fun q => q.1 = k) with
  | none => rw [hf] at h; exact absurd h (by simp)
  | some q =>
    rw [hf] at h
    injection h with h
    have hm := List.mem_of_find?_eq_some hf
    have hk : q.1 = k := by simpa using List.find?_some hf
    have : q = (k, v) := by
      obtain ⟨q1, q2⟩ := q
      simp only at hk h
      rw [hk, h]
    exact this ▸ hm

/-- Updating one binding preserves relative cleanliness when the new
entry is benign or at an excepted key. -/
theorem cleanX_setA (K : List (String × Ctx))
    (ts : List ((String × Ctx) × (TNode × Ctx))) (k : String × Ctx)
    (v : TNode × Ctx) (h : cleanX K ts) (h2 : k ∈ K ∨ entryOk (k, v)) :
    cleanX K (setA ts k v) := by
  intro p hp
  rcases setA_mem ts k v p hp with hpe | ⟨hpm, _⟩
  · subst hpe; exact h2
  · exact h p hpm

/-- Soundness of the analysis engine: every completed request satisfies
its invariant bundle. -/

theorem engine_ok (fuel : Nat) :
    ∀ req r, engine fuel req = some r → EngineOK req r := by
  induction fuel with
  | zero => intro req r h; simp [engine] at h
  | succ n ih =>
    intro req r h
    cases req with
    | rt node st a =>
      cases node with
      | text loc s =>
        simp only [engine] at h
        by_cases hst : st.state = State.Error
        · rw [if_pos hst] at h
          injection h with h
          subst h
          exact idOK st a
        · rw [if_neg hst] at h
          cases hp : process_raw_text s st with
          | none => rw [hp] at h; exact absurd h (by simp)
          | some x =>
            rw [hp] at h
            cases x with
            | error emsg =>
              injection h with h
              subst h
              exact recordErrOK st errorCtx a (some loc) emsg hst rfl
            | ok q =>
              obtain ⟨e, nc, ecx, etx⟩ := q
              dsimp only at h
              by_cases he : e.state = State.Error
              · rw [if_pos he] at h
                injection h with h
                subst h
                exact recordErrOK st e a (some loc) _ hst he
              · rw [if_neg he] at h
                injection h with h
                subst h
                exact pureOK st e a hst he
      | interp loc pipe =>
        simp only [engine] at h
        by_cases hst : st.state = State.Error
        · rw [if_pos hst] at h
          injection h with h
          subst h
          exact idOK st a
        · rw [if_neg hst] at h
          by_cases he : (esc_mode_for_hole st).1.state = State.Error
          · rw [if_pos he] at h
            cases hq : (esc_mode_for_hole st).2.2 with
            | none =>
              rw [hq] at h
              injection h with h
              subst h
              exact recordErrOK st _ a (some loc) _ hst he
            | some p =>
              rw [hq] at h
              injection h with h
              subst h
              exact recordErrOK st _ a (some loc) _ hst he
          · rw [if_neg he] at h
            injection h with h
            subst h
            exact pureOK st _ a hst he
      | call loc callee =>
        simp only [engine] at h
        by_cases hst : st.state = State.Error
        · rw [if_pos hst] at h
          injection h with h
          subst h
          exact idOK st a
        · rw [if_neg hst] at h
          have hok := ih _ r h
          cases r with
          | ca e a' =>
            obtain ⟨hm, hc, hk⟩ := hok
            exact ⟨hm, fun hs => absurd hs hst, hc, hk⟩
          | cpa e p a' => exact hok.elim
      | ifN loc body els =>
        simp only [engine] at h
        cases hb : engine n (AReq.rt body st a) with
        | none => rw [hb] at h; exact absurd h (by simp)
        | some rb =>
          rw [hb] at h
          cases rb with
          | cpa _ _ _ => exact (ih _ _ hb).elim
          | ca thenEnd a1 =>
            have h1 := ih _ _ hb
            cases els with
            | some e =>
              dsimp only at h
              cases hb2 : engine n (AReq.rt e st a1) with
              | none => rw [hb2] at h; exact absurd h (by simp)
              | some rb2 =>
                rw [hb2] at h
                cases rb2 with
                | cpa _ _ _ => exact (ih _ _ hb2).elim
                | ca elseEnd a2 =>
                  have h2 := ih _ _ hb2
                  dsimp only at h
                  injection h with h
                  subst h
                  exact branchOK st thenEnd elseEnd a a1 a2 (some loc) h1 h2
            | none =>
              dsimp only at h
              injection h with h
              subst h
              exact branchOK st thenEnd st a a1 a1 (some loc) h1 (idOK st a1)
      | withN loc body els =>
        simp only [engine] at h
        cases hb : engine n (AReq.rt body st a) with
        | none => rw [hb] at h; exact absurd h (by simp)
        | some rb =>
          rw [hb] at h
          cases rb with
          | cpa _ _ _ => exact (ih _ _ hb).elim
          | ca withEnd a1 =>
            have h1 := ih _ _ hb
            cases els with
            | some e =>
              dsimp only at h
              cases hb2 : engine n (AReq.rt e st a1) with
              | none => rw [hb2] at h; exact absurd h (by simp)
              | some rb2 =>
                rw [hb2] at h
                cases rb2 with
                | cpa _ _ _ => exact (ih _ _ hb2).elim
                | ca elseEnd a2 =>
                  have h2 := ih _ _ hb2
                  dsimp only at h
                  injection h with h
                  subst h
                  exact branchOK st withEnd elseEnd a a1 a2 (some loc) h1 h2
            | none =>
              dsimp only at h
              injection h with h
              subst h
              exact branchOK st withEnd st a a1 a1 (some loc) h1 (idOK st a1)
      | rangeN loc body els =>
        simp only [engine] at h
        have core : ∀ (zeroEnd : Ctx) (a1 : Analyzer),
            RTOK st a zeroEnd a1 →
            (match engine n (AReq.rt body st a1) with
             | some (ARep.ca onceEnd a2) =>
               match engine n (AReq.rt body onceEnd a2) with
               | some (ARep.ca twiceEnd a3) =>
                 if onceEnd ≠ twiceEnd then
                   let r := noSteadyState a3 (some loc) onceEnd twiceEnd
                   some (ARep.ca r.1 r.2)
                 else
                   let r := joinStates a3 (some loc) zeroEnd onceEnd
                   some (ARep.ca r.1 r.2)
               | _ => none
             | _ => none) = some r →
            EngineOK (AReq.rt (TNode.rangeN loc body els) st a) r := by
          intro zeroEnd a1 h1 hrest
          cases ho : engine n (AReq.rt body st a1) with
          | none => rw [ho] at hrest; exact absurd hrest (by simp)
          | some ro =>
            rw [ho] at hrest
            cases ro with
            | cpa _ _ _ => exact (ih _ _ ho).elim
            | ca onceEnd a2 =>
              dsimp only at hrest
              have h2 := ih _ _ ho
              cases ht : engine n (AReq.rt body onceEnd a2) with
              | none => rw [ht] at hrest; exact absurd hrest (by simp)
              | some rt2 =>
                rw [ht] at hrest
                cases rt2 with
                | cpa _ _ _ => exact (ih _ _ ht).elim
                | ca twiceEnd a3 =>
                  have h3 := ih _ _ ht
                  dsimp only at hrest
                  by_cases hne : onceEnd ≠ twiceEnd
                  · rw [if_pos hne] at hrest
                    injection hrest with hrest
                    subst hrest
                    exact rangeNoSteadyOK st zeroEnd onceEnd twiceEnd
                      a a1 a2 a3 (some loc) hne h1 h2 h3
                  · rw [if_neg hne] at hrest
                    injection hrest with hrest
                    subst hrest
                    exact rangeJoinOK st zeroEnd onceEnd twiceEnd
                      a a1 a2 a3 (some loc) (not_not.mp hne) h1 h2 h3
        cases els with
        | some e =>
          dsimp only at h
          cases hz : engine n (AReq.rt e st a) with
          | none => rw [hz] at h; exact absurd h (by simp)
          | some rz =>
            rw [hz] at h
            cases rz with
            | cpa _ _ _ => exact (ih _ _ hz).elim
            | ca zeroEnd a1 => exact core zeroEnd a1 (ih _ _ hz) h
        | none =>
          dsimp only at h
          exact core st a (idOK st a) h
      | listN loc elems =>
        simp only [engine] at h
        have hok := ih (AReq.rtList elems st a) r h
        cases r with
        | ca e a' => exact hok
        | cpa e p a' => exact hok.elim
    | rtList nodes st a =>
      cases nodes with
      | nil =>
        simp only [engine] at h
        injection h with h
        subst h
        exact idOK st a
      | cons nd rest =>
        simp only [engine] at h
        cases hb : engine n (AReq.rt nd st a) with
        | none => rw [hb] at h; exact absurd h (by simp)
        | some rb =>
          rw [hb] at h
          cases rb with
          | cpa _ _ _ => exact (ih _ _ hb).elim
          | ca e1 a1 =>
            have h1 := ih _ _ hb
            have h2 := ih _ _ h
            cases r with
            | cpa _ _ _ => exact h2.elim
            | ca e2 a2 => exact seqOK st e1 e2 a a1 a2 h1 h2
    | ec name st hint a =>
      simp only [engine] at h
      cases hl : lookupA a.templates (name, st) with
      | some p =>
        obtain ⟨b0, endC⟩ := p
        rw [hl] at h
        dsimp only at h
        injection h with h
        subst h
        refine ⟨⟨[], by simp, fun hn => absurd rfl hn⟩, ?_, ?_⟩
        · intro K _ hc _ _
          exact hc
        · intro hz hcl hst he
          exfalso
          have hmem : ((name, st), (b0, endC)) ∈ a.templates :=
            lookupA_mem a.templates (name, st) (b0, endC) hl
          rcases hcl _ hmem with hk | hk
          · exact absurd hk (List.not_mem_nil _)
          · rcases hk with hk | hk
            · exact hst hk
            · exact hk he
      | none =>
        rw [hl] at h
        dsimp only at h
        cases hn : lookupA a.name_to_body name with
        | none =>
          rw [hn] at h
          dsimp only at h
          injection h with h
          subst h
          obtain ⟨m2, hm⟩ :=
            recordError_errors { a with called := a.called ++ [(name, st)] }
              hint (nats "no such template " ++ nats name)
          refine ⟨⟨[m2], hm, fun _ => rfl⟩, ?_, ?_⟩
          · intro _ _ _ _ hne
            exact absurd rfl hne
          · intro _ _ _ _
            simp [hm]
        | some body =>
          rw [hn] at h
          dsimp only at h
          have hok := ih _ _ h
          cases r with
          | cpa _ _ _ => exact hok.elim
          | ca e a2 =>
            obtain ⟨hm, hc, hk⟩ := hok
            exact ⟨hm, hc, hk⟩
    | cec name st body hint a =>
      simp only [engine] at h
      cases h1e : engine n (AReq.etb name st st body a) with
      | none => rw [h1e] at h; exact absurd h (by simp)
      | some r1 =>
        rw [h1e] at h
        cases r1 with
        | ca _ _ => exact (ih _ _ h1e).elim
        | cpa ctx probs a1 =>
          obtain ⟨hE1, hS1, hF1⟩ := ih _ _ h1e
          cases probs with
          | none =>
            dsimp only at h
            injection h with h
            subst h
            obtain ⟨hne, hkv, hC⟩ := hS1 rfl
            refine ⟨⟨[], by simp [hE1], fun hn => absurd rfl hn⟩, ?_, ?_⟩
            · intro K hz hcl _ _
              refine hC K hz ?_
              intro p hp
              rcases setA_mem a.templates (name, st) (body, st) p hp with
                hpe | ⟨hpm, _⟩
              · subst hpe
                exact Or.inr (em (st.state = State.Error))
              · exact hcl p hpm
            · intro _ _ _ he
              exact absurd he hne
          | some ps =>
            dsimp only at h
            obtain ⟨hT1, hN1⟩ := hF1 ps rfl
            cases h2e : engine n (AReq.etb name st ctx body a1) with
            | none => rw [h2e] at h; exact absurd h (by simp)
            | some r2 =>
              rw [h2e] at h
              cases r2 with
              | ca _ _ => exact (ih _ _ h2e).elim
              | cpa ctx2 probs2 a2 =>
                obtain ⟨hE2, hS2, hF2⟩ := ih _ _ h2e
                cases probs2 with
                | none =>
                  dsimp only at h
                  injection h with h
                  subst h
                  obtain ⟨hne2, hkv2, hC2⟩ := hS2 rfl
                  refine ⟨⟨[], by simp [hE2, hE1], fun hn => absurd rfl hn⟩,
                    ?_, ?_⟩
                  · intro K hz hcl hz2 _
                    have hz1 : a1.errors = [] := hE1.trans hz
                    have hck : cleanX ((name, st) :: K)
                        (setA a1.templates (name, st) (body, ctx)) := by
                      intro p hp
                      rcases setA_mem a1.templates (name, st) (body, ctx)
                          p hp with hpe | ⟨hpm, hpk⟩
                      · subst hpe
                        exact Or.inl (List.mem_cons_self _ _)
                      · rcases hT1 p hpm with hpk1 | hpm2
                        · exact Or.inl (by rw [hpk1]; exact
                            List.mem_cons_self _ _)
                        · rcases hcl p hpm2 with hK | hok
                          · exact Or.inl (List.mem_cons_of_mem _ hK)
                          · exact Or.inr hok
                    have hc2 := hC2 ((name, st) :: K) hz1 hck
                    intro p hp
                    rcases hc2 p hp with hK | hok
                    · rcases List.mem_cons.mp hK with hpk | hpK
                      · have hpv := hkv2 p hp hpk
                        refine Or.inr (Or.inr ?_)
                        rw [hpv]
                        exact hne2
                      · exact Or.inl hpK
                    · exact Or.inr hok
                  · intro _ _ _ he
                    exact absurd he hne2
                | some ps2 =>
                  dsimp only at h
                  by_cases hctx : ctx.state = State.Error
                  · rw [if_neg (not_not_intro hctx)] at h
                    injection h with h
                    subst h
                    refine ⟨⟨ps, ?_, fun _ => rfl⟩, ?_, ?_⟩
                    · show a2.errors ++ ps = a.errors ++ ps
                      rw [hE2, hE1]
                    · intro _ _ _ _ hne'
                      exact absurd rfl hne'
                    · intro hz hcl hst _
                      have hps : ps ≠ [] := hN1 hz hcl hst hst hctx
                      show a2.errors ++ ps ≠ []
                      intro hcon
                      exact hps (List.append_eq_nil.mp hcon).2
                  · rw [if_pos hctx] at h
                    injection h with h
                    subst h
                    obtain ⟨m2, hm⟩ := recordError_errors a2 hint
                      (nats "cannot compute output context for template " ++
                        nats name)
                    refine ⟨⟨[m2] ++ ps, ?_, fun _ => rfl⟩, ?_, ?_⟩
                    · show (recordError a2 hint _).errors ++ ps =
                        a.errors ++ ([m2] ++ ps)
                      rw [hm, hE2, hE1, List.append_assoc]
                    · intro _ _ _ _ hne'
                      exact absurd rfl hne'
                    · intro _ _ _ _
                      show (recordError a2 hint _).errors ++ ps ≠ []
                      rw [hm]
                      intro hcon
                      rcases List.append_eq_nil.mp hcon with ⟨h1c, _⟩
                      rcases List.append_eq_nil.mp h1c with ⟨_, h2c⟩
                      exact List.cons_ne_nil _ _ h2c
    | etb name st assumed body a =>
      simp only [engine] at h
      cases hb : engine n (AReq.rt body st
          ⟨a.name_to_body, a.start_state,
            setA a.templates (name, st) (body, assumed), [], []⟩) with
      | none => rw [hb] at h; exact absurd h (by simp)
      | some rb =>
        rw [hb] at h
        cases rb with
        | cpa _ _ _ => exact (ih _ _ hb).elim
        | ca e d =>
          dsimp only at h
          have H := ih _ _ hb
          by_cases hC : (e.state = State.Error ∨
              ((name, st) ∈ d.called ∧ assumed ≠ e))
          · rw [if_neg (not_not_intro hC)] at h
            injection h with h
            subst h
            refine ⟨rfl, fun hps => absurd hps (by simp), ?_⟩
            intro ps hps
            injection hps with hps
            subst hps
            refine ⟨?_, ?_⟩
            · intro p hp
              rcases setA_mem (setA a.templates (name, st) (body, assumed))
                  (name, st) (body, errorCtx) p hp with hpe | ⟨hpm, _⟩
              · subst hpe
                exact Or.inl rfl
              · rcases setA_mem a.templates (name, st) (body, assumed)
                    p hpm with hpe2 | ⟨hpm2, _⟩
                · subst hpe2
                  exact Or.inl rfl
                · exact Or.inr hpm2
            · intro hz hcl hst hassumed he
              have hclD : cleanX [] (setA a.templates (name, st)
                  (body, assumed)) :=
                cleanX_setA [] a.templates (name, st) (body, assumed) hcl
                  (Or.inr (Or.inr hassumed))
              exact H.2.2.2 rfl hclD hst he
          · rw [if_pos hC] at h
            injection h with h
            subst h
            have hne : e.state ≠ State.Error := fun he => hC (Or.inl he)
            obtain ⟨nn, hnn, hmm⟩ := H.1
            have hd1 : d.errors = nn := by simpa using hnn
            have hdz : d.errors = [] := by
              by_cases hnnz : nn = []
              · rw [hd1, hnnz]
              · exact absurd (hmm hnnz) hne
            refine ⟨?_, fun _ => ⟨hne, ?_, ?_⟩,
              fun ps hps => absurd hps (by simp)⟩
            · show a.errors ++ d.errors = a.errors
              rw [hdz, List.append_nil]
            · intro p hp hpk
              rw [setA_key_val
                (mergeA (setA a.templates (name, st) (body, assumed))
                  d.templates) (name, st) (body, e) p hp hpk]
            · intro K hz hcl
              intro p hp
              rcases setA_mem
                  (mergeA (setA a.templates (name, st) (body, assumed))
                    d.templates) (name, st) (body, e) p hp with
                hpe | ⟨hpm, _⟩
              · subst hpe
                exact Or.inr (Or.inr hne)
              · rcases mergeA_mem (setA a.templates (name, st)
                    (body, assumed)) d.templates p hpm with hd | hd
                · exact hcl p hd
                · exact H.2.2.1 K rfl hcl hdz hne p hd

/-- The public-template loop only appends errors; a `False` final
`has_errors` means no iteration flagged anything and errors are
unchanged; and on a clean start from a non-error state, an error-free
completion leaves `has_errors` as it was. -/
theorem escapeLoop_inv (fuel : Nat) (names : List String) (start : Ctx) :
    ∀ he0 a he a', escapeLoop fuel names start he0 a = some (he, a') →
      (∃ new, a'.errors = a.errors ++ new) ∧
      (he = false → he0 = false ∧ a'.errors = a.errors) ∧
      (a.errors = [] → cleanX [] a.templates → start.state ≠ State.Error →
        a'.errors = [] → he = he0) := by
  induction names with
  | nil =>
    intro he0 a he a' h
    simp only [escapeLoop] at h
    injection h with h
    injection h with h1 h2
    subst h1
    subst h2
    exact ⟨⟨[], by simp⟩, fun hf => ⟨hf, rfl⟩, fun _ _ _ _ => rfl⟩
  | cons name rest ihr =>
    intro he0 a he a' h
    simp only [escapeLoop] at h
    cases hb : engine fuel (AReq.ec name start none a) with
    | none => rw [hb] at h; exact absurd h (by simp)
    | some rb =>
      rw [hb] at h
      cases rb with
      | cpa _ _ _ => exact ((engine_ok fuel _ _ hb).elim)
      | ca e a1 =>
        dsimp only at h
        obtain ⟨⟨n1, hn1, hm1⟩, hc1, hk1⟩ := engine_ok fuel _ _ hb
        by_cases hee : e.state = State.Error
        · rw [if_pos hee] at h
          obtain ⟨⟨n2, hn2⟩, h2, _⟩ := ihr true a1 he a' h
          refine ⟨⟨n1 ++ n2, by rw [hn2, hn1, List.append_assoc]⟩, ?_, ?_⟩
          · intro hef
            exact absurd (h2 hef).1 (by simp)
          · intro hz hcl hst hz'
            exfalso
            have hz1 : a1.errors = [] :=
              (List.append_eq_nil.mp (hn2 ▸ hz')).1
            exact hk1 hz hcl hst hee hz1
        · rw [if_neg hee] at h
          by_cases heq : e ≠ start
          · rw [if_pos heq] at h
            obtain ⟨m2, hm⟩ := recordError_errors a1 none
              (nats "template " ++ nats name ++
                nats " does not start and end in the same context")
            obtain ⟨⟨n2, hn2⟩, h2, _⟩ := ihr true _ he a' h
            refine ⟨⟨n1 ++ [m2] ++ n2, ?_⟩, ?_, ?_⟩
            · rw [hn2, hm, hn1]
              simp [List.append_assoc]
            · intro hef
              exact absurd (h2 hef).1 (by simp)
            · intro hz hcl hst hz'
              exfalso
              have hre : (recordError a1 none
                  (nats "template " ++ nats name ++
                    nats " does not start and end in the same context")
                  ).errors = [] :=
                (List.append_eq_nil.mp (hn2 ▸ hz')).1
              rw [hm] at hre
              rcases List.append_eq_nil.mp hre with ⟨_, hcon⟩
              exact List.cons_ne_nil _ _ hcon
          · rw [if_neg heq] at h
            have hnz : n1 = [] := by
              by_cases hz : n1 = []
              · exact hz
              · exact absurd (hm1 hz) hee
            have he1 : a1.errors = a.errors := by
              rw [hn1, hnz, List.append_nil]
            obtain ⟨⟨n2, hn2⟩, h2, h3⟩ := ihr he0 a1 he a' h
            refine ⟨⟨n2, by rw [hn2, he1]⟩, ?_, ?_⟩
            · intro hef
              obtain ⟨hh, hh2⟩ := h2 hef
              exact ⟨hh, by rw [hh2, he1]⟩
            · intro hz hcl hst hz'
              exact h3 (he1.trans hz) (hc1 [] hz hcl (he1.trans hz) hee)
                hst hz'

/-- C1: along any completed analysis of the public templates, if any
error message was recorded then `escape` raises `EscapeError` carrying
the recorded messages joined by newlines (the rewriter is never
invoked, so `name_to_body` stays unmutated); and if no error message
was recorded AND the start state is not the Error state, `escape`
returns the analyzer on which the rewriter is invoked.  The added
start-state hypothesis corrects the claim: from the Error start state
every speculative template-body attempt fails silently, `has_errors`
is set with no message recorded, and `escape` raises `EscapeError('')`
without invoking the rewriter. -/
theorem C1_escape_error_contract (fuel : Nat)
    (n2b : List (String × TNode)) (pub : List String) (start : Ctx)
    (he : Bool) (a : Analyzer)
    (h : escapeLoop fuel pub start false (mkAnalyzer n2b start) =
      some (he, a)) :
    (a.errors ≠ [] →
      escape fuel n2b pub start = some (Except.error (joinNl a.errors))) ∧
    (start.state ≠ State.Error → a.errors = [] →
      escape fuel n2b pub start = some (Except.ok a)) := by
  obtain ⟨_, h2, h3⟩ :=
    escapeLoop_inv fuel pub start false (mkAnalyzer n2b start) he a h
  cases he with
  | false =>
    constructor
    · intro hne
      exact absurd (h2 rfl).2 hne
    · intro _ _
      unfold escape
      rw [h]
      rfl
  | true =>
    constructor
    · intro _
      unfold escape
      rw [h]
      rfl
    · intro hst hz
      exact absurd
        (h3 rfl (fun p hp => absurd hp (List.not_mem_nil p)) hst hz)
        (by simp)

/-- The original claim fails at the Error start state: `escape` raises
with an empty message although no error was recorded (the loop's
`has_errors` flag is set by the error end context alone). -/
theorem C1_counterexample :
    escape 8 [("t", TNode.text [] (nats "x"))] ["t"] errorCtx =
      some (Except.error []) ∧
    (match escapeLoop 8 ["t"] errorCtx false
        (mkAnalyzer [("t", TNode.text [] (nats "x"))] errorCtx) with
     | some (_, a) => a.errors = []
     | none => False) := ⟨rfl, rfl⟩

theorem C1_witness :
    ∃ he a,
      escapeLoop 8 ["t"] textCtx false
        (mkAnalyzer [("t", TNode.text [] (nats "hi"))] textCtx) =
        some (he, a) ∧
      a.errors = [] ∧
      escape 8 [("t", TNode.text [] (nats "hi"))] ["t"] textCtx =
        some (Except.ok a) := by
  refine ⟨false, _, rfl, rfl, ?_⟩
  exact (C1_escape_error_contract 8 [("t", TNode.text [] (nats "hi"))]
    ["t"] textCtx false _ rfl).2 (by decide) rfl
